import Mathlib

/-!
Verification development for the activity-log engine of the
`obsidian-day-planner` fork: a shallow embedding of the activity schema,
the clock mutation operations (`addOpenClock`, `clockOut`,
`cancelOpenClock`), the duration aggregation engine, goal matching, the
block serializer and the read-modify-write orchestrator
(`upsertActivitiesBlock`), together with theorems settling the frozen
claims about them.

Strings are modelled through their character lists so that every
operation evaluates by `decide`/`rfl`.  JavaScript array/string methods
are translated to explicit list functions.  Host-library functions
(`moment`, `js-yaml`, the markdown helpers from files not present in the
sources) are modelled from the spec and marked as such in their doc
comments.
-/

/-! ## Character-list string utilities (JS string methods) -/

/-- Whitespace test used to model JS `trimStart`/`trim`/`\s`. -/
def wsChar (c : Char) : Bool :=
  c == ' ' || c == '\t' || c == '\r' || c == '\n'

/-- Model of JS `String.prototype.trimStart`. -/
def trimStartS (s : String) : String :=
  String.mk (s.data.dropWhile wsChar)

/-- Model of JS `String.prototype.trim`. -/
def trimS (s : String) : String :=
  String.mk (((s.data.dropWhile wsChar).reverse.dropWhile wsChar).reverse)

/-- Model of JS `String.prototype.startsWith`. -/
def startsWithS (s p : String) : Bool :=
  p.data.isPrefixOf s.data

/-- ASCII lower-casing of one character (JS `toLowerCase`, ASCII part). -/
def asciiLower (c : Char) : Char :=
  if 'A' ≤ c ∧ c ≤ 'Z' then Char.ofNat (c.toNat + 32) else c

/-- ASCII upper-casing of one character (JS `toUpperCase`, ASCII part). -/
def asciiUpper (c : Char) : Char :=
  if 'a' ≤ c ∧ c ≤ 'z' then Char.ofNat (c.toNat - 32) else c

/-- Model of JS `String.prototype.toLowerCase` (ASCII portion). -/
def lowerS (s : String) : String :=
  String.mk (s.data.map asciiLower)

/-- Collapse every maximal whitespace run to a single space after
trimming: JS `name.trim().replace(/\s+/g, " ")`. -/
def collapseWs (s : String) : String :=
  String.mk (List.intercalate [' ']
    ((s.data.splitOnP wsChar).filter (fun w => ¬w.isEmpty)))

/-- Split a character list at every newline, JS `text.split("\n")`
semantics (the empty text yields one empty piece). -/
def splitOnNl : List Char → List (List Char)
  | [] => [[]]
  | c :: cs =>
    match splitOnNl cs with
    | [] => [[c]]
    | l :: ls => if c = '\n' then [] :: l :: ls else (c :: l) :: ls

/-- Model of JS `text.split("\n")`. -/
def splitLines (s : String) : List String :=
  (splitOnNl s.data).map String.mk

/-- Model of JS `lines.join("\n")`. -/
def joinLines (ls : List String) : String :=
  String.mk (List.intercalate ['\n'] (ls.map String.data))

/-- Case-insensitive code-point order on strings, modelling the
locale-aware, case-insensitive `localeCompare` comparator used to sort
report rows (`sensitivity: "base"`). -/
def charListLe : List Char → List Char → Bool
  | [], _ => true
  | _ :: _, [] => false
  | a :: as, b :: bs =>
    if (asciiLower a).toNat < (asciiLower b).toNat then true
    else if (asciiLower a).toNat > (asciiLower b).toNat then false
    else charListLe as bs

/-- Comparator on labels used for report sorting. -/
def labelLe (a b : String) : Bool :=
  charListLe a.data b.data

/-- Stable insertion step for the sort model. -/
def insertLe {α : Type} (le : α → α → Bool) (x : α) : List α → List α
  | [] => [x]
  | y :: ys => if le x y then x :: y :: ys else y :: insertLe le x ys

/-- Stable sort modelling JS `Array.prototype.sort` with a comparator. -/
def sortByLe {α : Type} (le : α → α → Bool) : List α → List α
  | [] => []
  | x :: xs => insertLe le x (sortByLe le xs)

/-! ## YAML values

`parseYaml`/`stringifyYaml` come from the host application (js-yaml).
Parsed YAML data is modelled by this value type; numbers are modelled as
integers (no claim depends on non-integral numbers). -/

inductive Yaml where
  | nul
  | bool (b : Bool)
  | num (n : Int)
  | str (s : String)
  | arr (xs : List Yaml)
  | obj (fs : List (String × Yaml))

/-- JS truthiness of a parsed YAML value. -/
def yamlTruthy : Yaml → Bool
  | .nul => false
  | .bool b => b
  | .num n => n != 0
  | .str s => s != ""
  | .arr _ => true
  | .obj _ => true

/-- Field lookup on a parsed YAML object (JS property access, first
occurrence). -/
def lookupField (fs : List (String × Yaml)) (k : String) : Option Yaml :=
  (fs.find? (fun kv => kv.1 == k)).map (·.2)

/-! ## Strict ISO-8601 timestamps

The source validates and parses timestamps with
`window.moment(it, window.moment.ISO_8601, true)`.  `moment` is a host
library; its strict ISO-8601 parser is modelled for the calendar-date +
time-of-day + optional offset forms that the log format uses, with
timestamps lacking an offset interpreted as UTC (the host would use the
local zone; no claim depends on the zone). -/

/-- Digit test. -/
def isDigitC (c : Char) : Bool := '0' ≤ c ∧ c ≤ '9'

/-- Numeric value of a digit list (most significant first). -/
def digitsToNat : List Char → Nat
  | [] => 0
  | c :: cs => (c.toNat - 48) * 10 ^ cs.length + digitsToNat cs

/-- Days in a month of the proleptic Gregorian calendar. -/
def daysInMonth (y m : Nat) : Nat :=
  if m == 2 then
    if y % 4 == 0 && (y % 100 != 0 || y % 400 == 0) then 29 else 28
  else if m == 4 || m == 6 || m == 9 || m == 11 then 30
  else 31

/-- Days from 0000-03-01 to the given civil date (valid for `y ≥ 1`). -/
def civilDays (y m d : Nat) : Nat :=
  let y' := if m ≤ 2 then y - 1 else y
  let era := y' / 400
  let yoe := y' % 400
  let mp := if m > 2 then m - 3 else m + 9
  let doy := (153 * mp + 2) / 5 + d - 1
  let doe := yoe * 365 + yoe / 4 - yoe / 100 + doy
  era * 146097 + doe

/-- Days since the Unix epoch for a civil date. -/
def epochDays (y m d : Nat) : Int :=
  (civilDays y m d : Int) - (civilDays 1970 1 1 : Int)

/-- Parse a run of exactly `n` digits. -/
def takeDigits (n : Nat) (cs : List Char) : Option (Nat × List Char) :=
  let pre := cs.take n
  if pre.length == n && pre.all isDigitC then
    some (digitsToNat pre, cs.drop n)
  else none

/-- Parse an optional UTC-offset suffix (`Z`, `±HH:MM` or `±HHMM`),
returning offset minutes. -/
def parseOffset : List Char → Option Int
  | [] => some 0
  | ['Z'] => some 0
  | c :: rest =>
    if c = '+' || c = '-' then
      let sign : Int := if c = '+' then 1 else -1
      match takeDigits 2 rest with
      | some (h, ':' :: r3) =>
        (match takeDigits 2 r3 with
         | some (mi, []) =>
           if h ≤ 23 && mi ≤ 59 then some (sign * ((h * 60 + mi : Nat) : Int))
           else none
         | _ => none)
      | some (h, r3) =>
        (match takeDigits 2 r3 with
         | some (mi, []) =>
           if h ≤ 23 && mi ≤ 59 then some (sign * ((h * 60 + mi : Nat) : Int))
           else none
         | _ => none)
      | none => none
    else none

/-- Parse `HH:MM`, `HH:MM:SS` or `HH:MM:SS.fff` plus an optional offset,
returning milliseconds into the day minus the offset. -/
def parseTimePart (cs : List Char) : Option Int :=
  match takeDigits 2 cs with
  | some (h, ':' :: r1) =>
    (match takeDigits 2 r1 with
     | some (mi, r2) =>
       (match r2 with
        | ':' :: r3 =>
          (match takeDigits 2 r3 with
           | some (s, r4) =>
             (match r4 with
              | '.' :: r5 =>
                let frac := r5.takeWhile isDigitC
                let r6 := r5.dropWhile isDigitC
                if frac.length == 0 || frac.length > 9 then none
                else
                  (parseOffset r6).bind (fun off =>
                    if h ≤ 23 && mi ≤ 59 && s ≤ 59 then
                      some (((h * 3600 + mi * 60 + s) * 1000 +
                        digitsToNat (frac.take 3) *
                          10 ^ (3 - min 3 frac.length) : Nat) -
                        off * 60000)
                    else none)
              | _ =>
                (parseOffset r4).bind (fun off =>
                  if h ≤ 23 && mi ≤ 59 && s ≤ 59 then
                    some (((h * 3600 + mi * 60 + s) * 1000 : Nat) -
                      off * 60000)
                  else none))
           | none => none)
        | _ =>
          (parseOffset r2).bind (fun off =>
            if h ≤ 23 && mi ≤ 59 then
              some (((h * 3600 + mi * 60) * 1000 : Nat) - off * 60000)
            else none))
     | none => none)
  | _ => none

/-- Strict ISO-8601 parse to milliseconds since the Unix epoch; `none`
models an invalid moment. -/
def parseIso (s : String) : Option Int :=
  match takeDigits 4 s.data with
  | some (y, '-' :: r1) =>
    (match takeDigits 2 r1 with
     | some (m, '-' :: r2) =>
       (match takeDigits 2 r2 with
        | some (d, r3) =>
          if 1 ≤ m && m ≤ 12 && 1 ≤ d && d ≤ daysInMonth y m && 1 ≤ y then
            match r3 with
            | [] => some (epochDays y m d * 86400000)
            | 'T' :: r4 =>
              (parseTimePart r4).map (fun t => epochDays y m d * 86400000 + t)
            | _ => none
          else none
        | none => none)
     | _ => none)
  | _ => none

/-- Validity test of the zod `dateTimeSchema` refinement
(`window.moment(it, window.moment.ISO_8601, true).isValid()`). -/
def isStrictIso (s : String) : Bool :=
  (parseIso s).isSome

/-- Moment `startOf("day")` on an epoch-milliseconds instant (UTC). -/
def startOfDayMs (t : Int) : Int :=
  (t / 86400000) * 86400000

/-- Moment `startOf("isoWeek")`: the preceding Monday 00:00 (UTC). -/
def startOfIsoWeekMs (t : Int) : Int :=
  let d := t / 86400000
  (d - (d + 3) % 7) * 86400000

/-! ## Data model (`src/util/props.ts`, current version)

The zod schemas: `logEntrySchema` has `start` (validated ISO string) and
an optional validated `end`; `activitySchema` is a passthrough object
with the known fields below, whose transform defaults `taskIds` to `[]`;
`propsSchema` is a loose object with an optional `activities` array.
Optional fields are `Option`s; unknown passthrough keys live in `extra`
as raw YAML values. -/

structure LogEntry where
  start : String
  endTime : Option String
deriving DecidableEq

structure Activity where
  activity : String
  log : Option (List LogEntry)
  taskIds : Option (List String)
  notes : Option String
  quality : Option Int
  extra : List (String × Yaml)

structure Props where
  activities : Option (List Activity)
  extra : List (String × Yaml)

/-- Empty `Props` value (`{}`). -/
def emptyProps : Props := ⟨none, []⟩

/-- JS truthiness of `entry.end` (`!entry.end` holds for a missing or
empty string). -/
def isFalsyStr : Option String → Bool
  | none => true
  | some s => s == ""

/-- An open log entry: `!entry.end`. -/
def isOpenEntry (e : LogEntry) : Bool :=
  isFalsyStr e.endTime

/-- Number of open entries in one activity's log. -/
def openCount (a : Activity) : Nat :=
  (a.log.getD []).countP isOpenEntry

/-- Total number of open entries across a collection. -/
def totalOpenCount (p : Props) : Nat :=
  ((p.activities.getD []).map openCount).sum

/-- Source `getActivities`: defaults the collection to `[]` and each
activity's `taskIds` to `[]`. -/
def getActivities (p : Props) : List Activity :=
  (p.activities.getD []).map (fun a => { a with taskIds := some (a.taskIds.getD []) })

/-- Source `getActivitiesCopy`: `getActivities` plus a fresh array for
each `log` (`[...(activity.log ?? [])]`). -/
def getActivitiesCopy (p : Props) : List Activity :=
  (getActivities p).map (fun a => { a with log := some (a.log.getD []) })

/-- Reserved activity type for task-linked activities. -/
def taskActivityType : String := "task"

/-- Source `findActivityByTaskId`: first activity whose `taskIds`
contains the task id, else a fresh task activity placed at the end. -/
def findActivityByTaskId (activities : List Activity) (taskId : String) :
    Nat × Activity :=
  match activities.findIdx? (fun a => (a.taskIds.getD []).contains taskId) with
  | some i => (i, activities.getD i ⟨"", none, none, none, none, []⟩)
  | none =>
    (activities.length,
      ⟨taskActivityType, some [], some [taskId], none, none, []⟩)

/-- Source `addOpenClock`.  The current timestamp
`window.moment().format(clockFormat)` is passed in as `now`.  The
`activityName` component of the task argument is unused by the source
body and omitted here.  Throws become `Except.error`. -/
def addOpenClock (p : Props) (taskId : String) (now : String) :
    Except String Props :=
  let activities := getActivitiesCopy p
  let found := findActivityByTaskId activities taskId
  let index := found.1
  let activity := found.2
  if (activity.log.getD []).any isOpenEntry then
    .error "There is already an open clock"
  else
    let updatedActivity : Activity :=
      { activity with
          activity := taskActivityType
          taskIds :=
            if (activity.taskIds.getD []).length > 0 then activity.taskIds
            else some [taskId]
          log := some ((activity.log.getD []) ++ [⟨now, none⟩]) }
    let updatedActivities :=
      if index < activities.length then activities.set index updatedActivity
      else activities ++ [updatedActivity]
    .ok { p with activities := some updatedActivities }

/-- Source `cancelOpenClock`.  The dead `toSpliced(-1, 1)` semantics of a
failed inner `findIndex` (which cannot fire after `getActivitiesCopy`
found an open entry) is modelled by erasing the last element. -/
def cancelOpenClock (p : Props) (taskId : String) : Except String Props :=
  let activities := getActivitiesCopy p
  match activities.findIdx? (fun a =>
      (a.taskIds.getD []).contains taskId && (a.log.getD []).any isOpenEntry) with
  | none => .error "There is no open clock"
  | some i =>
    let activityWithOpenClock := activities.getD i ⟨"", none, none, none, none, []⟩
    match activityWithOpenClock.log with
    | none => .error "There is no log"
    | some log =>
      let newLog :=
        match log.findIdx? isOpenEntry with
        | some k => log.eraseIdx k
        | none => log.eraseIdx (log.length - 1)
      let updatedActivity := { activityWithOpenClock with log := some newLog }
      .ok { p with activities := some (activities.set i updatedActivity) }

/-- Source `clockOut` with the optional `attributes` record omitted
(`mergeActivityDetails(activity, undefined)` returns the activity
unchanged).  `now` stands for `window.moment().format(clockFormat)`. -/
def clockOut (p : Props) (activityIndex : Nat) (now : String) :
    Except String Props :=
  let activities := getActivitiesCopy p
  if activityIndex ≥ activities.length then
    .error "There is no open clock"
  else
    let activityWithOpenClock :=
      activities.getD activityIndex ⟨"", none, none, none, none, []⟩
    match activityWithOpenClock.log with
    | none => .error "There is no log"
    | some log =>
      match log.findIdx? isOpenEntry with
      | none => .error "There is no open clock"
      | some k =>
        let entry := log.getD k ⟨"", none⟩
        let updatedActivity :=
          { activityWithOpenClock with
              log := some (log.set k { entry with endTime := some now }) }
        .ok { p with
                activities := some (activities.set activityIndex updatedActivity) }

/-- One clock call of a C1-style sequence: `addOpenClock` with a task id
or `clockOut` with an activity index; each call carries the timestamp
the host clock would produce. -/
inductive ClockOp where
  | add (taskId : String) (now : String)
  | out (activityIndex : Nat) (now : String)

/-- Timestamp carried by a clock call. -/
def ClockOp.now : ClockOp → String
  | .add _ n => n
  | .out _ n => n

/-- Apply one clock call. -/
def applyClockOp (p : Props) : ClockOp → Except String Props
  | .add taskId now => addOpenClock p taskId now
  | .out i now => clockOut p i now

/-- Run a sequence of clock calls; `ok` means none of them threw. -/
def runClockOps (p : Props) : List ClockOp → Except String Props
  | [] => .ok p
  | op :: ops => (applyClockOp p op).bind (fun q => runClockOps q ops)

/-- Per-activity at-most-one-open invariant. -/
def perActivityInv (p : Props) : Prop :=
  ∀ a ∈ p.activities.getD [], openCount a ≤ 1

/-! ## Aggregation engine (`src/util/activity-log-summary.ts`)

Moments are epoch milliseconds (UTC model of the host's local-time
moments); durations are milliseconds. -/

/-- Source `normalizeActivityName` (also exported by
`activity-definitions.ts`). -/
def normalizeActivityName (name : String) : String :=
  lowerS (collapseWs name)

/-- Source `sanitizeLabel`. -/
def sanitizeLabel (name : String) : String :=
  collapseWs name

/-- Source `getWeekRangeFor`: ISO-week range containing the date. -/
def getWeekRangeFor (date : Int) : Int × Int :=
  let start := startOfIsoWeekMs date
  (start, start + 7 * 86400000)

structure ActivityDuration where
  activity : String
  duration : Int
deriving DecidableEq

/-- Assoc-list lookup modelling JS `Map.prototype.get`. -/
def lookupAssoc {α : Type} (l : List (String × α)) (k : String) : Option α :=
  (l.find? (fun kv => kv.1 == k)).map (·.2)

/-- JS `Map.prototype.set`: update in place when the key exists,
append otherwise. -/
def bumpDuration (durs : List (String × Int)) (k : String) (d : Int) :
    List (String × Int) :=
  if (lookupAssoc durs k).isSome then
    durs.map (fun kv => if kv.1 == k then (kv.1, kv.2 + d) else kv)
  else durs ++ [(k, d)]

/-- Contribution of one log entry to the clamped range total: `none`
models the `return` branches (open entry, invalid timestamp, or
non-positive clamped interval); `some d` is the added duration. -/
def entryContribution (rangeStart rangeEnd : Int) (e : LogEntry) : Option Int :=
  if isFalsyStr e.endTime then none
  else
    match parseIso e.start, parseIso (e.endTime.getD "") with
    | some startMoment, some endMoment =>
      let clampedStart := max startMoment rangeStart
      let clampedEnd := min endMoment rangeEnd
      if clampedEnd ≤ clampedStart then none
      else some (clampedEnd - clampedStart)
    | _, _ => none

/-- Fold step over one activity's log entries. -/
def aggEntryStep (rangeStart rangeEnd : Int) (key : String)
    (durs : List (String × Int)) (e : LogEntry) : List (String × Int) :=
  match entryContribution rangeStart rangeEnd e with
  | none => durs
  | some d => bumpDuration durs key d

/-- Aggregation state: the `normalizedToLabel` and `activityToDuration`
maps of the source, as insertion-ordered assoc lists. -/
structure AggState where
  normToLabel : List (String × String)
  durs : List (String × Int)

/-- Fold step over activities (`activities.forEach` body).  The entry
key `normalizedToLabel.get(normalizedName) ?? label` is constant during
one activity's inner loop and is hoisted. -/
def aggStep (rangeStart rangeEnd : Int) (st : AggState) (a : Activity) :
    AggState :=
  let normalizedName := normalizeActivityName a.activity
  let label := (lookupAssoc st.normToLabel normalizedName).getD
    (sanitizeLabel a.activity)
  let ntl :=
    if (lookupAssoc st.normToLabel normalizedName).isSome then st.normToLabel
    else st.normToLabel ++ [(normalizedName, label)]
  let key := (lookupAssoc ntl normalizedName).getD label
  ⟨ntl, (a.log.getD []).foldl (aggEntryStep rangeStart rangeEnd key) st.durs⟩

/-- Source `calculateActivityDurationsForRange`. -/
def calculateActivityDurationsForRange (activities : List Activity)
    (rangeStart rangeEnd : Int) : List ActivityDuration :=
  let st := activities.foldl (aggStep rangeStart rangeEnd) ⟨[], []⟩
  sortByLe (fun x y => labelLe x.activity y.activity)
    (st.durs.map (fun kv => ⟨kv.1, kv.2⟩))

/-- Source `calculateWeeklyActivityDurations`. -/
def calculateWeeklyActivityDurations (activities : List Activity)
    (dateInWeek : Int) : List ActivityDuration :=
  let r := getWeekRangeFor dateInWeek
  calculateActivityDurationsForRange activities r.1 r.2

/-- Source `calculateDailyActivityDurations`. -/
def calculateDailyActivityDurations (activities : List Activity)
    (day : Int) : List ActivityDuration :=
  let dayStart := startOfDayMs day
  calculateActivityDurationsForRange activities dayStart (dayStart + 86400000)

/-! ## Activity definitions (`src/util/activity-definitions.ts`)

Only the parts the claims reach are embedded: the label/emoji pairs used
by `getActivityLabel` and the attribute field schemas consumed by the
zod validator (`buildActivityAttributeSchema` makes every field
optional, so the `required` flags are irrelevant to validation). -/

inductive FieldKind where
  | text
  | textarea
  | number

structure ActivityDefinition where
  name : String
  label : String
  emoji : Option String
  attrKey : Option String
  attrFields : List (String × FieldKind)

/-- The `activityDefinitions` table (fields flattened as
`[...attributes.start, ...attributes.end]`). -/
def activityDefinitions : List ActivityDefinition :=
  [⟨"read", "Read", some "📖", some "read",
      [("book", .text), ("start-page", .number), ("end-page", .number)]⟩,
   ⟨"game", "Game", some "🎮", some "game", [("name", .text)]⟩,
   ⟨"movie", "Movie", some "📺", some "movie", [("name", .text)]⟩,
   ⟨"tv", "TV", some "📺", some "tv", [("name", .text), ("episodes", .text)]⟩,
   ⟨"call", "Call", some "📞", some "call", [("with", .text)]⟩,
   ⟨"light work", "Light Work", some "🔧", some "deep work",
      [("project", .text)]⟩,
   ⟨"deep work", "Deep Work", some "🛠️", some "deep work",
      [("project", .text)]⟩,
   ⟨"piano", "Piano", some "🎹", none, []⟩,
   ⟨"walk", "Walk", some "🚶", none, []⟩,
   ⟨"juggle", "Juggle", some "🤹", none, []⟩,
   ⟨"exercise", "Exercise", some "🏋️", none, []⟩,
   ⟨"stretch", "Stretch", some "🧘", none, []⟩,
   ⟨"language", "Language", some "🗣️", none, []⟩,
   ⟨"housework", "Housework", some "🧹", none, []⟩,
   ⟨"cook", "Cook", some "🍳", none, []⟩,
   ⟨"eat", "Eat", some "🍽️", none, []⟩,
   ⟨"hygiene", "Hygiene", some "🪥", none, []⟩,
   ⟨"bed", "Bed", some "🛏️", none, []⟩,
   ⟨"ride", "Ride", some "🚗", none, []⟩,
   ⟨"transit", "Transit", some "🚃", none, []⟩,
   ⟨"shop", "Shop", some "🛍️", none, []⟩,
   ⟨"pathfinder", "Pathfinder", some "🪄", none, []⟩]

/-- Source `getActivityDefinition`: lookup by normalized name. -/
def getActivityDefinition (activityName : String) : Option ActivityDefinition :=
  activityDefinitions.find?
    (fun d => normalizeActivityName d.name == normalizeActivityName activityName)

/-- Source `getActivityLabel`. -/
def getActivityLabel (activityName : String) : String :=
  match getActivityDefinition activityName with
  | none => sanitizeLabel activityName
  | some d =>
    match d.emoji with
    | none => d.label
    | some e => e ++ " " ++ d.label

/-- The zod `activityAttributeSchemas` map built by the reduce over
`getActivityDefinitions()` (the two `"deep work"` attribute keys carry
the same shape, so the overwrite is immaterial). -/
def activityAttributeSchemas : List (String × List (String × FieldKind)) :=
  [("read", [("book", .text), ("start-page", .number), ("end-page", .number)]),
   ("game", [("name", .text)]),
   ("movie", [("name", .text)]),
   ("tv", [("name", .text), ("episodes", .text)]),
   ("call", [("with", .text)]),
   ("deep work", [("project", .text)])]

/-! ## Goal matching (`mergeActivityDurationsWithGoals`) -/

structure ActivityGoal where
  activity : String
  goal : Int
deriving DecidableEq

/-- Input row: `{activity, activityKey?, duration}`. -/
structure DurationRow where
  activity : String
  activityKey : Option String
  duration : Int
deriving DecidableEq

/-- Output row: the input row plus an optional goal. -/
structure MergedRow where
  activity : String
  activityKey : Option String
  duration : Int
  goal : Option Int
deriving DecidableEq

/-- Normalized join key of a duration row
(`entry.activityKey ? normalize(entry.activityKey) : normalize(entry.activity)`,
with JS falsiness of an empty key). -/
def durationRowKey (r : DurationRow) : String :=
  if isFalsyStr r.activityKey then normalizeActivityName r.activity
  else normalizeActivityName (r.activityKey.getD "")

/-- JS `new Map(goals.map(g => [normalize(g.activity), g]))`: insertion
order of first key occurrence, value of the last. -/
def buildGoalMap (goals : List ActivityGoal) : List (String × ActivityGoal) :=
  goals.foldl
    (fun m g =>
      let k := normalizeActivityName g.activity
      if (lookupAssoc m k).isSome then
        m.map (fun kv => if kv.1 == k then (k, g) else kv)
      else m ++ [(k, g)])
    []

/-- JS `Map.prototype.delete`. -/
def eraseKey {α : Type} (m : List (String × α)) (k : String) :
    List (String × α) :=
  m.filter (fun kv => kv.1 != k)

/-- Fold step of the `combined` computation. -/
def mergeStep (acc : List MergedRow × List (String × ActivityGoal))
    (entry : DurationRow) : List MergedRow × List (String × ActivityGoal) :=
  let normalized := durationRowKey entry
  let goal := lookupAssoc acc.2 normalized
  let m' := if goal.isSome then eraseKey acc.2 normalized else acc.2
  (acc.1 ++ [⟨entry.activity, entry.activityKey, entry.duration,
      goal.map (·.goal)⟩], m')

/-- Synthetic zero-duration row for a goal no duration row consumed. -/
def syntheticGoalRow (g : ActivityGoal) : MergedRow :=
  ⟨getActivityLabel g.activity, some (normalizeActivityName g.activity), 0,
    some g.goal⟩

/-- Source `mergeActivityDurationsWithGoals`. -/
def mergeActivityDurationsWithGoals (activityDurations : List DurationRow)
    (goals : List ActivityGoal) : List MergedRow :=
  let start : List MergedRow × List (String × ActivityGoal) :=
    ([], buildGoalMap goals)
  let st := activityDurations.foldl mergeStep start
  let remainingGoals := st.2.map (fun kv => syntheticGoalRow kv.2)
  sortByLe (fun x y => labelLe x.activity y.activity) (st.1 ++ remainingGoals)

/-! ## Block serializer (`toMarkdown`) at the YAML-value level

`stringifyYaml` comes from the host (js-yaml); the object handed to it
is modelled as a `Yaml` value.  An `undefined` property value is omitted
by the dumper.  Property order follows the structure fields (documents
are compared modulo key ordering). -/

/-- Yaml object of one log entry (an `undefined` `end` is omitted by the
dumper). -/
def encodeLogEntry (e : LogEntry) : Yaml :=
  .obj ([("start", .str e.start)] ++
    (match e.endTime with
     | none => []
     | some s => [("end", .str s)]))

/-- Yaml object built for one activity by `toMarkdown`
(`({ taskIds, ...activity }) => ({...activity, ...(taskIds ? { taskIds } : {})})`):
the `taskIds` key is re-appended whenever the field value is truthy —
and a present array, even empty, is truthy. -/
def encodeActivity (a : Activity) : Yaml :=
  .obj
    ([("activity", .str a.activity)] ++
     (match a.log with
      | none => []
      | some ls => [("log", .arr (ls.map encodeLogEntry))]) ++
     (match a.notes with
      | none => []
      | some s => [("notes", .str s)]) ++
     (match a.quality with
      | none => []
      | some n => [("quality", .num n)]) ++
     a.extra ++
     (match a.taskIds with
      | none => []
      | some ids => [("taskIds", .arr (ids.map .str))]))

/-- The `yamlReadyProps` object `toMarkdown` passes to `stringifyYaml`. -/
def toMarkdownYaml (p : Props) : Yaml :=
  .obj
    (p.extra ++
     (match p.activities with
      | none => []
      | some acts => [("activities", .arr (acts.map encodeActivity))]))

/-! ## Schema validation (`propsSchema.parse`)

A value-level model of the zod pipeline: `logEntrySchema` (strict
object, strips unknown keys), `activitySchema` (passthrough with the
`taskIds ?? []` transform; attribute-bag keys validated by
`buildActivityAttributeSchema`, which strips unknown bag fields),
`propsSchema` (loose object). -/

/-- Keys owned by the explicit `activitySchema` shape fields that map to
structure fields. -/
def structuredActivityKey (k : String) : Bool :=
  k == "activity" || k == "log" || k == "taskIds" || k == "notes" ||
    k == "quality"

/-- Field-type check of `activityFieldSchemas`. -/
def checkFieldKind : FieldKind → Yaml → Bool
  | .text, .str _ => true
  | .textarea, .str _ => true
  | .number, .num _ => true
  | _, _ => false

/-- Validate one attribute bag against its field schemas; unknown bag
keys are stripped (zod strict-object default), known present keys are
type-checked (every field is `.optional()`). -/
def checkAttrBag (fields : List (String × FieldKind)) (y : Yaml) :
    Except String Yaml :=
  match y with
  | .obj fs =>
    if fields.all (fun fk =>
        match lookupField fs fk.1 with
        | none => true
        | some v => checkFieldKind fk.2 v) then
      .ok (.obj (fs.filter (fun kv => (lookupAssoc fields kv.1).isSome)))
    else .error "invalid attribute value"
  | _ => .error "expected attribute object"

/-- Parse one log entry (`logEntrySchema`). -/
def parseLogEntryY (y : Yaml) : Except String LogEntry :=
  match y with
  | .obj fs =>
    (match lookupField fs "start" with
     | some (.str s) =>
       if isStrictIso s then
         match lookupField fs "end" with
         | none => .ok ⟨s, none⟩
         | some (.str e) =>
           if isStrictIso e then .ok ⟨s, some e⟩ else .error "invalid end"
         | some _ => .error "invalid end"
       else .error "invalid start"
     | _ => .error "invalid start")
  | _ => .error "expected log entry object"

/-- Validate and transform the passthrough keys of one activity object:
`details` must be a record, attribute-bag keys are validated and
stripped of unknown fields, all other unknown keys pass through. -/
def parseExtraField (kv : String × Yaml) : Except String (String × Yaml) :=
  if kv.1 == "details" then
    match kv.2 with
    | .obj _ => .ok kv
    | _ => .error "invalid details"
  else
    match lookupAssoc activityAttributeSchemas kv.1 with
    | some fields => (checkAttrBag fields kv.2).map (fun v => (kv.1, v))
    | none => .ok kv

/-- Parse one activity (`activitySchema`, passthrough + transform). -/
def parseActivityY (y : Yaml) : Except String Activity :=
  match y with
  | .obj fs => do
    let activity ←
      match lookupField fs "activity" with
      | some (.str s) => Except.ok s
      | _ => Except.error "invalid activity"
    let log ←
      match lookupField fs "log" with
      | none => Except.ok none
      | some (.arr xs) => (xs.mapM parseLogEntryY).map some
      | some _ => Except.error "invalid log"
    let taskIds ←
      match lookupField fs "taskIds" with
      | none => Except.ok none
      | some (.arr xs) =>
        (xs.mapM (fun (x : Yaml) =>
          match x with
          | .str s => Except.ok s
          | _ => Except.error "invalid task id")).map some
      | some _ => Except.error "invalid taskIds"
    let notes ←
      match lookupField fs "notes" with
      | none => Except.ok none
      | some (.str s) => Except.ok (some s)
      | some _ => Except.error "invalid notes"
    let quality ←
      match lookupField fs "quality" with
      | none => Except.ok none
      | some (.num n) => Except.ok (some n)
      | some _ => Except.error "invalid quality"
    let extra ←
      (fs.filter (fun kv => ¬ structuredActivityKey kv.1)).mapM parseExtraField
    Except.ok ⟨activity, log, some (taskIds.getD []), notes, quality, extra⟩
  | _ => .error "expected activity object"

/-- Parse a whole `Props` value (`propsSchema`, loose object). -/
def parsePropsY (y : Yaml) : Except String Props :=
  match y with
  | .obj fs =>
    (match lookupField fs "activities" with
     | none => .ok ⟨none, fs.filter (fun kv => kv.1 != "activities")⟩
     | some (.arr xs) =>
       (xs.mapM parseActivityY).map
         (fun acts => ⟨some acts, fs.filter (fun kv => kv.1 != "activities")⟩)
     | some _ => .error "invalid activities")
  | _ => .error "expected props object"

/-! ## `normalizeActivities` (`src/service/list-props-parser.ts`) -/

/-- JS `{...obj, k: v}`: replace in place when the key exists, append
otherwise (spreading a scalar yields just the new key). -/
def setField (y : Yaml) (k : String) (v : Yaml) : Yaml :=
  match y with
  | .obj fs =>
    if (lookupField fs k).isSome then
      .obj (fs.map (fun kv => if kv.1 == k then (k, v) else kv))
    else .obj (fs ++ [(k, v)])
  | _ => .obj [(k, v)]

/-- Array-valued field of a YAML object, `[]` when absent or not an
array (models `planner.activities && Array.isArray(...) ? ... : []` and
`log ?? []`). -/
def arrField (y : Yaml) (k : String) : List Yaml :=
  match y with
  | .obj fs =>
    (match lookupField fs k with
     | some (.arr xs) => xs
     | _ => [])
  | _ => []

/-- Source `normalizeActivities`: wraps a bare array, migrates the
legacy `planner` wrapper (merging a flat `planner.log` into the first
activity), and passes everything else through (`parsedYaml ?? {}`). -/
def normalizeActivities (y : Yaml) : Yaml :=
  match y with
  | .arr xs => .obj [("activities", .arr xs)]
  | .obj fs =>
    (match lookupField fs "planner" with
     | some planner =>
       if yamlTruthy planner then
         let activities := arrField planner "activities"
         let plog := arrField planner "log"
         if plog.length > 0 then
           let firstActivity :=
             match activities with
             | a :: _ => a
             | [] => Yaml.obj [("activity", .str "Activity"), ("log", .arr [])]
           let rest := activities.tail
           let firstLog := arrField firstActivity "log"
           .obj [("activities",
             .arr (setField firstActivity "log" (.arr (firstLog ++ plog)) :: rest))]
         else .obj [("activities", .arr activities)]
       else .obj fs
     | none => .obj fs)
  | .nul => .obj []
  | other => other

/-- Full reparse pipeline of a serialized collection:
`propsSchema.parse(normalizeActivities(parseYaml(text)))`, working at
the parsed-value level (the host `parseYaml` inverts `stringifyYaml` on
plain values). -/
def roundTripProps (p : Props) : Except String Props :=
  parsePropsY (normalizeActivities (toMarkdownYaml p))

/-! ## Block text rendering

Modelled from the spec: `createCodeBlock`, `createIndentation` and
`indent` live in `src/util/markdown.ts` and `codeFence`/`clockFormat`
in `src/constants.ts`, none of which are in the provided sources, and
`stringifyYaml` is the host's js-yaml dumper.  The fence delimiter is
three backticks with the language tag attached; the dumper is modelled
as a block-style renderer that always quotes strings (escaping newlines
C-style, a legal YAML scalar style the host parser accepts), so every
emitted line is newline-free and starts, after indentation, with a
quote, dash, bracket, letter or digit — never with `#` or a backtick. -/

/-- Fence delimiter (`codeFence` from `src/constants.ts`). -/
def codeFence : String := "```"

/-- Decimal digit character. -/
def digitChar (k : Nat) : Char := Char.ofNat (48 + k)

/-- Decimal digits of a natural number (structural recursion on a fuel
argument so that the definition evaluates inside the kernel). -/
def digitsAux : Nat → Nat → List Char
  | 0, n => [digitChar n]
  | fuel + 1, n =>
    if n < 10 then [digitChar n]
    else digitsAux fuel (n / 10) ++ [digitChar (n % 10)]

/-- Decimal digits of a natural number. -/
def natDigitChars (n : Nat) : List Char :=
  digitsAux n n

/-- Decimal rendering of an integer. -/
def intChars (n : Int) : List Char :=
  if n < 0 then '-' :: natDigitChars n.natAbs else natDigitChars n.natAbs

/-- C-style escape of one character inside a double-quoted scalar. -/
def escapeChar (c : Char) : List Char :=
  if c = '\n' then ['\\', 'n']
  else if c = '\r' then ['\\', 'r']
  else if c = '\t' then ['\\', 't']
  else if c = '\\' then ['\\', '\\']
  else if c = '"' then ['\\', '"']
  else [c]

/-- Double-quoted YAML scalar for a string. -/
def quoteStr (s : String) : String :=
  String.mk ('"' :: s.data.flatMap escapeChar ++ ['"'])

/-- Single-line rendering of scalar-like values. -/
def scalarText : Yaml → Option String
  | .nul => some "null"
  | .bool true => some "true"
  | .bool false => some "false"
  | .num n => some (String.mk (intChars n))
  | .str s => some (quoteStr s)
  | .arr [] => some "[]"
  | .obj [] => some "\x7b\x7d"
  | _ => none

/-- Prefix the first line with `p` and the rest with `q`. -/
def prefixFirst (p q : String) : List String → List String
  | [] => []
  | l :: ls => (p ++ l) :: ls.map (fun l' => q ++ l')

mutual

/-- Lines of the block-style YAML rendering of a value. -/
def yamlLines : Yaml → List String
  | .arr (x :: xs) => arrLines (x :: xs)
  | .obj ((k, v) :: fs) => objLines ((k, v) :: fs)
  | y => [(scalarText y).getD ""]

/-- Lines of a non-empty sequence. -/
def arrLines : List Yaml → List String
  | [] => []
  | x :: xs => prefixFirst "- " "  " (yamlLines x) ++ arrLines xs

/-- Lines of a non-empty mapping. -/
def objLines : List (String × Yaml) → List String
  | [] => []
  | (k, v) :: fs =>
    (match scalarText v with
     | some t => [quoteStr k ++ ": " ++ t]
     | none => (quoteStr k ++ ":") :: (yamlLines v).map (fun l => "  " ++ l)) ++
    objLines fs

end

/-- The host `stringifyYaml` (modelled). -/
def stringifyYaml (y : Yaml) : String :=
  joinLines (yamlLines y)

/-- Modelled from the spec: `createCodeBlock` from `src/util/markdown.ts`
wraps text in a fenced block tagged with the language. -/
def createCodeBlock (language text : String) : String :=
  joinLines [codeFence ++ language, text, codeFence]

/-- Source `toMarkdown`: serialize the `yamlReadyProps` object into an
`activities`-tagged fenced block. -/
def toMarkdown (p : Props) : String :=
  createCodeBlock "activities" (stringifyYaml (toMarkdownYaml p))

/-! ## Structured-block locator and orchestrator
(`src/util/activities-file.ts`)

`headingRegExp` lives in `src/regexp.ts`, which is not in the provided
sources; modelled from the spec as `/^(#+)\s/`: a run of `#` followed by
a whitespace character, the run length being the nesting level. -/

/-- Exported `activitiesHeading` from `src/service/list-props-parser.ts`. -/
def activitiesHeading : String := "activities"

/-- Modelled from the spec: heading-token capture of `headingRegExp`. -/
def headingTokens (line : String) : Option Nat :=
  let hs := line.data.takeWhile (fun c => c == '#')
  if hs.length > 0 then
    match line.data.drop hs.length with
    | c :: _ => if wsChar c then some hs.length else none
    | [] => none
  else none

/-- Heading line whose trimmed text case-insensitively equals the
activities heading (`lines[i].slice(tokens.length).trim().toLowerCase()`). -/
def isActivitiesHeadingLine (line : String) : Bool :=
  match headingTokens line with
  | some n =>
    lowerS (trimS (String.mk (line.data.drop n))) == lowerS activitiesHeading
  | none => false

structure SectionT where
  startLine : Nat
  endLine : Nat
  headingLine : Option Nat
  headingLevel : Option Nat

/-- Fuel-driven linear scan (structural recursion so that the kernel
can evaluate it). -/
def scanAux (p : Nat → Bool) (hi : Nat) : Nat → Nat → Option Nat
  | 0, _ => none
  | fuel + 1, lo =>
    if lo < hi then (if p lo then some lo else scanAux p hi fuel (lo + 1))
    else none

/-- First index in `[lo, hi)` satisfying the predicate. -/
def scanIdxP (p : Nat → Bool) (lo hi : Nat) : Option Nat :=
  scanAux p hi (hi - lo) lo

/-- Source `findActivitiesSection`. -/
def findActivitiesSection (lines : List String) : SectionT :=
  match lines.findIdx? isActivitiesHeadingLine with
  | none => ⟨lines.length, lines.length, none, none⟩
  | some headingIndex =>
    let level := (headingTokens (lines.getD headingIndex "")).getD 1
    let endLine :=
      (scanIdxP
        (fun j =>
          match headingTokens (lines.getD j "") with
          | some k => k ≤ level
          | none => false)
        (headingIndex + 1) lines.length).getD lines.length
    ⟨headingIndex + 1, endLine, some headingIndex, some level⟩

structure ExistingBlockT where
  startLine : Nat
  endLine : Nat
  indentation : String

/-- Opening fence of an activities block. -/
def isFenceOpenLine (l : String) : Bool :=
  startsWithS (trimStartS l) (codeFence ++ "activities")

/-- Any fence line (closes a block during scanning). -/
def isFenceLine (l : String) : Bool :=
  startsWithS (trimStartS l) codeFence

/-- Source `findExistingBlock`: first opening fence in the section, then
the next fence line before the section end; an unterminated opening
fence yields `none`. -/
def findExistingBlock (lines : List String) (sec : SectionT) :
    Option ExistingBlockT :=
  match scanIdxP (fun j => isFenceOpenLine (lines.getD j "")) sec.startLine
      sec.endLine with
  | none => none
  | some i =>
    match scanIdxP (fun j => isFenceLine (lines.getD j "")) (i + 1)
        sec.endLine with
    | none => none
    | some c =>
      some ⟨i, c, String.mk ((lines.getD i "").data.takeWhile wsChar)⟩

/-- Source `parseExistingProps`; the host `parseYaml` is a parameter,
and both a parse failure and a schema failure recover to `{}`. -/
def parseExistingProps (parseYamlS : String → Except String Yaml)
    (lines : List String) (existingBlock : Option ExistingBlockT) : Props :=
  match existingBlock with
  | none => emptyProps
  | some b =>
    let inside := (lines.drop (b.startLine + 1)).take (b.endLine - (b.startLine + 1))
    let text := joinLines (inside.map (fun l =>
      if b.indentation ≠ "" ∧ startsWithS l b.indentation then
        String.mk (l.data.drop b.indentation.length)
      else l))
    match (parseYamlS text).bind
        (fun y => parsePropsY (normalizeActivities y)) with
    | .ok props => props
    | .error _ => emptyProps

/-- Source `createIndentedBlock`. -/
def createIndentedBlock (indentation : String) (p : Props) : List String :=
  let ls := splitLines (toMarkdown p)
  if indentation == "" then ls else ls.map (fun l => indentation ++ l)

/-- First character upper-cased (`slice(0,1).toUpperCase() + slice(1)`). -/
def capFirst (s : String) : String :=
  match s.data with
  | [] => s
  | c :: cs => String.mk (asciiUpper c :: cs)

/-- Source `ensureActivitiesHeading`. -/
def ensureActivitiesHeading (lines : List String) : List String :=
  let headingText := capFirst activitiesHeading
  if lines.length == 0 then ["# " ++ headingText, ""]
  else if (trimS (lines.getD (lines.length - 1) "")).length > 0 then
    lines ++ ["", "# " ++ headingText, ""]
  else lines ++ ["# " ++ headingText, ""]

/-- Source `insertBlock`. -/
def insertBlock (lines blockLines : List String) (insertAt : Nat) :
    List String :=
  let before := lines.take insertAt
  let after := lines.drop insertAt
  let needsEmptyLine :=
    before.length > 0 &&
      (trimS (before.getD (before.length - 1) "")).length > 0
  before ++ (if needsEmptyLine then [""] else []) ++ blockLines ++ after

/-- Source `upsertActivitiesBlock` (the host `parseYaml` passed in as a
parameter; a mutation that does not throw is a total `updateFn`). -/
def upsertActivitiesBlock (parseYamlS : String → Except String Yaml)
    (fileText : String) (updateFn : Props → Props) : String :=
  let lines := splitLines fileText
  let sec := findActivitiesSection lines
  let existingBlock := findExistingBlock lines sec
  let existingProps := parseExistingProps parseYamlS lines existingBlock
  let updatedProps := updateFn existingProps
  let blockLines :=
    createIndentedBlock ((existingBlock.map (·.indentation)).getD "")
      updatedProps
  match existingBlock with
  | some b =>
    joinLines (lines.take b.startLine ++ blockLines ++ lines.drop (b.endLine + 1))
  | none =>
    match sec.headingLine with
    | none =>
      let withHeading := ensureActivitiesHeading lines
      joinLines (insertBlock withHeading blockLines withHeading.length)
    | some _ => joinLines (insertBlock lines blockLines sec.startLine)

/-- Complete-block counter over a line segment, following the scanning
discipline of `findExistingBlock`: an opening `activities` fence starts
a block, the next fence line of any kind completes it. -/
def countBlockStep (st : Bool × Nat) (l : String) : Bool × Nat :=
  if st.1 then (if isFenceLine l then (false, st.2 + 1) else (true, st.2))
  else (if isFenceOpenLine l then (true, st.2) else (false, st.2))

/-- Number of complete fenced activities blocks in a line segment. -/
def countBlocksSeg (seg : List String) : Nat :=
  (seg.foldl countBlockStep (false, 0)).2

/-- The lines of a section of the document. -/
def sectionSeg (lines : List String) (sec : SectionT) : List String :=
  (lines.drop sec.startLine).take (sec.endLine - sec.startLine)

/-! ## Auxiliary definitions used by the claim statements -/

/-- Default activity used to model in-bounds JS array indexing. -/
def defaultActivity : Activity := ⟨"", none, none, none, none, []⟩

/-- Fields of a YAML object (`[]` for non-objects). -/
def yamlObjFields : Yaml → List (String × Yaml)
  | .obj fs => fs
  | _ => []

/-- Sum of the clamped contributions of a log. -/
def entryContributionTotal (rangeStart rangeEnd : Int) (l : List LogEntry) : Int :=
  (l.map (fun e => (entryContribution rangeStart rangeEnd e).getD 0)).sum

/-- Specification-level closed form of the goal join: each duration row
carries the goal whose normalized name first matches its key, a key seen
on an earlier row consumes the goal. -/
def c8Rows (goals : List ActivityGoal) : List String → List DurationRow →
    List MergedRow
  | _, [] => []
  | seen, e :: ds =>
    let k := durationRowKey e
    ⟨e.activity, e.activityKey, e.duration,
      if seen.contains k then none
      else (goals.find?
        (fun g => normalizeActivityName g.activity == k)).map (·.goal)⟩ ::
    c8Rows goals (seen ++ [k]) ds

/-- Goals matched by no duration row, as synthetic zero-duration rows. -/
def unmatchedGoalRows (goals : List ActivityGoal)
    (durations : List DurationRow) : List MergedRow :=
  (goals.filter (fun g =>
    ¬ durations.any
      (fun d => durationRowKey d == normalizeActivityName g.activity))).map
    syntheticGoalRow

/-- A log entry accepted by `logEntrySchema`. -/
def validLogEntry (e : LogEntry) : Bool :=
  isStrictIso e.start &&
    (match e.endTime with
     | none => true
     | some s => isStrictIso s)

/-- A passthrough field in the canonical (schema-image) form: it does
not shadow a shape key, a `details` value is a record, and an
attribute-bag value carries only known, well-typed fields (so zod's
strip is the identity on it). -/
def canonicalExtraField (kv : String × Yaml) : Bool :=
  ¬ structuredActivityKey kv.1 &&
    (if kv.1 == "details" then
       (match kv.2 with
        | .obj _ => true
        | _ => false)
     else
       match lookupAssoc activityAttributeSchemas kv.1 with
       | some fields =>
         (match kv.2 with
          | .obj fs =>
            fs.all (fun f =>
              match lookupAssoc fields f.1 with
              | some kind => checkFieldKind kind f.2
              | none => false)
          | _ => false)
       | none => true)

/-- An activity in the canonical form produced by `activitySchema.parse`
(present `taskIds`, valid timestamps, canonical passthrough fields). -/
def schemaValidActivity (a : Activity) : Bool :=
  a.taskIds.isSome && (a.log.getD []).all validLogEntry &&
    a.extra.all canonicalExtraField

/-- A collection in the canonical form produced by `propsSchema.parse`
(the parse strips an `activities` passthrough key, so the image never
carries one). -/
def schemaValidProps (p : Props) : Bool :=
  (p.activities.getD []).all schemaValidActivity &&
    p.extra.all (fun kv => kv.1 != "activities")

/-- No truthy legacy `planner` key at the top level. -/
def noTruthyPlanner (p : Props) : Bool :=
  match lookupAssoc p.extra "planner" with
  | some v => ¬ yamlTruthy v
  | none => true

/-- Input of the repository test
"ignores entries outside the week or without an end time". -/
def pianoTestAct : Activity :=
  ⟨"activity: piano",
    some [⟨"2024-09-02T10:00:00Z", some "2024-09-02T10:30:00Z"⟩,
          ⟨"2024-09-08T23:30:00Z", some "2024-09-09T00:30:00Z"⟩],
    none, none, none, []⟩

/-- The open-entry activity of the same repository test, which the test
expects to appear with duration 0. -/
def readingTestAct : Activity :=
  ⟨"activity: Reading", some [⟨"2024-09-10T10:00:00Z", none⟩],
    none, none, none, []⟩

/-- A schema-valid collection carrying a legacy truthy `planner`
passthrough key. -/
def plannerProps : Props := ⟨some [], [("planner", .obj [])]⟩

/-- A collection whose second activity has no `log` field; used to show
that `cancelOpenClock` rewrites untargeted activities through the
`log ?? []` normalization. -/
def c9CounterProps : Props :=
  ⟨some [⟨"task", some [⟨"2025-01-01T10:00:00Z", none⟩], some ["t1"],
          none, none, []⟩,
         ⟨"b", none, some [], none, none, []⟩], []⟩

/-- The `c6props` concrete collection used as the round-trip witness:
one activity exercising every structured field, a `details` record, an
attribute bag and an unknown top-level passthrough key. -/
def c6props : Props :=
  ⟨some [⟨"task",
      some [⟨"2025-01-01T10:00:00Z", some "2025-01-01T11:00:00Z"⟩,
            ⟨"2025-01-02T09:00:00Z", none⟩],
      some ["t1"], some "a note", some 4,
      [("details", .obj [("x", .num 1)]),
       ("read", .obj [("book", .str "B"), ("start-page", .num 3)])]⟩],
    [("other", .str "keep")]⟩

/-- A document with no activities heading but with a complete fenced
activities block. -/
def c4doc : String := "```activities\n\"x\": 1\n```"

/-- A parse stub for claims whose refutation is independent of the host
YAML parser. -/
def c4parse : String → Except String Yaml := fun _ => Except.error "E"

/-- Character allowed anywhere in a rendered numeric scalar: not
whitespace, not a backtick, not a hash, not a newline. -/
def safeChar (c : Char) : Bool :=
  !wsChar c && c != '`' && c != '#' && c != '\n'

/-- A rendered line whose first non-whitespace character (if any) is
neither a backtick nor a hash. -/
def safeLine (l : String) : Bool :=
  match (trimStartS l).data with
  | [] => true
  | c :: _ => c != '`' && c != '#'

/-- A line whose first non-whitespace character is not a hash. -/
def notHashLine (l : String) : Bool :=
  match (trimStartS l).data with
  | [] => true
  | c :: _ => c != '#'

/-- A line containing no newline character. -/
def noNl (l : String) : Bool := l.data.all (fun c => c != '\n')

/-- Invariant of every line emitted by the YAML renderer. -/
def rendOk (l : String) : Bool := safeLine l && noNl l

/-- A document whose activities section already holds two complete fenced
activities blocks. -/
def c5doc : String :=
  "# Activities\n```activities\n\"x\": 1\n```\n```activities\n\"y\": 2\n```"

/-! ## Helper lemmas -/

theorem some_getD_of_isSome {α : Type} {o : Option α} (d : α)
    (h : o.isSome) : some (o.getD d) = o := by
  cases o with
  | none => simp at h
  | some a => rfl

theorem getActivitiesCopy_eq (p : Props) :
    getActivitiesCopy p =
      (p.activities.getD []).map (fun a =>
        { a with taskIds := some (a.taskIds.getD []),
                 log := some (a.log.getD []) }) := by
  simp [getActivitiesCopy, getActivities, List.map_map]

theorem copy_log_isSome {p : Props} {a : Activity}
    (h : a ∈ getActivitiesCopy p) : a.log.isSome := by
  rw [getActivitiesCopy_eq] at h
  obtain ⟨b, _, rfl⟩ := List.mem_map.mp h
  rfl

theorem copy_openCount {p : Props} {a : Activity}
    (h : a ∈ getActivitiesCopy p) :
    ∃ b ∈ p.activities.getD [], openCount a = openCount b := by
  rw [getActivitiesCopy_eq] at h
  obtain ⟨b, hb, rfl⟩ := List.mem_map.mp h
  exact ⟨b, hb, rfl⟩

theorem getActivitiesCopy_of_normal {p : Props}
    (h : ∀ a ∈ p.activities.getD [], a.taskIds.isSome ∧ a.log.isSome) :
    getActivitiesCopy p = p.activities.getD [] := by
  rw [getActivitiesCopy_eq]
  have hcong : ∀ a ∈ p.activities.getD [],
      ({ a with taskIds := some (a.taskIds.getD []),
                log := some (a.log.getD []) } : Activity) = a := by
    intro a ha
    obtain ⟨h1, h2⟩ := h a ha
    cases a with
    | mk act lg ids nts ql ex =>
      cases lg with
      | none => simp at h2
      | some l =>
        cases ids with
        | none => simp at h1
        | some i => rfl
  calc (p.activities.getD []).map _ = (p.activities.getD []).map id :=
        List.map_congr_left hcong
    _ = _ := List.map_id _

theorem getD_mem_of_lt {α : Type} {l : List α} {i : Nat} (d : α)
    (h : i < l.length) : l.getD i d ∈ l := by
  rw [List.getD_eq_getElem _ _ h]
  exact List.getElem_mem h

/-! ## C10 -/

theorem cancelOpenClock_error_eq {p : Props} {taskId s : String}
    (h : cancelOpenClock p taskId = .error s) :
    s = "There is no open clock" := by
  simp only [cancelOpenClock] at h
  split at h
  · exact (Except.error.inj h).symm
  · rename_i i hf
    split at h
    · rename_i hlog
      obtain ⟨hlt, -, -⟩ := List.findIdx?_eq_some_iff_getElem.mp hf
      have hsome := copy_log_isSome (getD_mem_of_lt defaultActivity hlt)
      rw [show defaultActivity =
        (⟨"", none, none, none, none, []⟩ : Activity) from rfl] at hsome
      rw [hlog] at hsome
      simp at hsome
    · exact absurd h (by simp)

theorem clockOut_error_eq {p : Props} {i : Nat} {now s : String}
    (h : clockOut p i now = .error s) :
    s = "There is no open clock" := by
  simp only [clockOut] at h
  split at h
  · exact (Except.error.inj h).symm
  · rename_i hge
    have hlt : i < (getActivitiesCopy p).length := Nat.lt_of_not_le hge
    split at h
    · rename_i hlog
      have hsome := copy_log_isSome (getD_mem_of_lt defaultActivity hlt)
      rw [show defaultActivity =
        (⟨"", none, none, none, none, []⟩ : Activity) from rfl] at hsome
      rw [hlog] at hsome
      simp at hsome
    · split at h
      · exact (Except.error.inj h).symm
      · exact absurd h (by simp)

/-- Claim C10: the "There is no log" branches of `cancelOpenClock` and
`clockOut` are unreachable — `getActivitiesCopy` gives every activity an
array log, so each function either succeeds or signals exactly
"There is no open clock" (for `cancelOpenClock`, no linked activity with
an open entry; for `clockOut`, an out-of-bounds index or no open entry). -/
theorem cancelOpenClock_clockOut_only_no_open_clock_error :
    (∀ (p : Props) (taskId : String),
      cancelOpenClock p taskId = .error "There is no open clock" ∨
      ∃ q, cancelOpenClock p taskId = .ok q) ∧
    (∀ (p : Props) (i : Nat) (now : String),
      clockOut p i now = .error "There is no open clock" ∨
      ∃ q, clockOut p i now = .ok q) := by
  constructor
  · intro p taskId
    cases hq : cancelOpenClock p taskId with
    | error e => left; exact congrArg Except.error (cancelOpenClock_error_eq hq)
    | ok q => right; exact ⟨q, rfl⟩
  · intro p i now
    cases hq : clockOut p i now with
    | error e => left; exact congrArg Except.error (clockOut_error_eq hq)
    | ok q => right; exact ⟨q, rfl⟩

/-! ## C1 -/

theorem openCount_fresh_append {l : List LogEntry} {n : String}
    (h : l.any isOpenEntry = false) :
    (l ++ [(⟨n, none⟩ : LogEntry)]).countP isOpenEntry = 1 := by
  rw [List.countP_append]
  have h0 : l.countP isOpenEntry = 0 := by
    rw [List.countP_eq_zero]
    intro a ha hopen
    rw [List.any_eq_false] at h
    exact h a ha hopen
  rw [h0]
  rfl

theorem addOpenClock_preserves {p : Props} {t n : String} {q : Props}
    (hp : perActivityInv p) (h : addOpenClock p t n = .ok q) :
    perActivityInv q := by
  simp only [addOpenClock] at h
  split at h
  · exact absurd h (by simp)
  · rename_i hguard
    intro b hb
    rw [← Except.ok.inj h] at hb
    simp only [Option.getD_some] at hb
    split at hb
    · rcases List.mem_or_eq_of_mem_set hb with h1 | h1
      · obtain ⟨c, hc, he⟩ := copy_openCount h1
        rw [he]
        exact hp c hc
      · subst h1
        simp only [openCount, Option.getD_some]
        rw [openCount_fresh_append (by simpa using hguard)]
    · rcases List.mem_append.mp hb with h1 | h1
      · obtain ⟨c, hc, he⟩ := copy_openCount h1
        rw [he]
        exact hp c hc
      · rw [List.mem_singleton.mp h1]
        simp only [openCount, Option.getD_some]
        rw [openCount_fresh_append (by simpa using hguard)]

theorem clockOut_preserves {p : Props} {i : Nat} {n : String} {q : Props}
    (hn : n ≠ "") (hp : perActivityInv p) (h : clockOut p i n = .ok q) :
    perActivityInv q := by
  simp only [clockOut] at h
  split at h
  · exact absurd h (by simp)
  · rename_i hge
    have hlen : i < (getActivitiesCopy p).length := Nat.lt_of_not_le hge
    split at h
    · exact absurd h (by simp)
    · rename_i log hlog
      split at h
      · exact absurd h (by simp)
      · rename_i k hk
        obtain ⟨hklt, hkopen, -⟩ := List.findIdx?_eq_some_iff_getElem.mp hk
        intro b hb
        rw [← Except.ok.inj h] at hb
        simp only [Option.getD_some] at hb
        rcases List.mem_or_eq_of_mem_set hb with h1 | h1
        · obtain ⟨c, hc, he⟩ := copy_openCount h1
          rw [he]
          exact hp c hc
        · have hbound : log.countP isOpenEntry ≤ 1 := by
            obtain ⟨c, hc, he⟩ :=
              copy_openCount (getD_mem_of_lt defaultActivity hlen)
            have h2 : ((getActivitiesCopy p).getD i defaultActivity).log =
                some log := hlog
            have h3 : openCount ((getActivitiesCopy p).getD i defaultActivity) =
                log.countP isOpenEntry := by
              simp only [openCount]
              rw [h2]
              simp only [Option.getD_some]
            rw [h3] at he
            rw [he]
            exact hp c hc
          subst h1
          simp only [openCount, Option.getD_some]
          rw [List.countP_set _ _ _ _ hklt]
          have hclosed :
              isOpenEntry { log.getD k ⟨"", none⟩ with endTime := some n } =
                false := by
            simp only [isOpenEntry, isFalsyStr]
            exact beq_eq_false_iff_ne.mpr hn
          rw [hkopen, hclosed]
          have hz : (if (false = true) then 1 else 0 : Nat) = 0 := rfl
          have ho : (if (true = true) then 1 else 0 : Nat) = 1 := rfl
          rw [hz, ho]
          omega

/-- Claim C1 (amended): the system-wide at-most-one-open invariant fails
(see the counterexample), but the per-activity version holds: starting
from a collection in which every activity has at most one open entry,
any non-throwing sequence of `addOpenClock`/`clockOut` calls (with
non-empty clock timestamps and no attribute updates) leaves every
activity with at most one open log entry. -/
theorem clock_ops_keep_per_activity_at_most_one_open :
    ∀ (ops : List ClockOp) (p q : Props),
      (∀ op ∈ ops, ClockOp.now op ≠ "") →
      perActivityInv p →
      runClockOps p ops = .ok q →
      perActivityInv q := by
  intro ops
  induction ops with
  | nil =>
    intro p q _ hp h
    rw [← Except.ok.inj h]
    exact hp
  | cons op ops ih =>
    intro p q hnow hp h
    simp only [runClockOps] at h
    cases hop : applyClockOp p op with
    | error e => rw [hop] at h; exact absurd h (by simp [Except.bind])
    | ok p1 =>
      rw [hop] at h
      simp only [Except.bind] at h
      have hp1 : perActivityInv p1 := by
        cases op with
        | add t n0 => exact addOpenClock_preserves hp hop
        | out j n0 =>
          exact clockOut_preserves (hnow _ (List.mem_cons_self _ _)) hp hop
      exact ih p1 q (fun op' h' => hnow _ (List.mem_cons_of_mem _ h')) hp1 h

/-- Claim C1 counterexample: from the empty collection, two
`addOpenClock` calls with different task ids both succeed and leave two
open entries across the collection, so the system-wide at-most-one-open
invariant stated by the claim is false. -/
theorem addOpenClock_two_open_counterexample :
    ((addOpenClock emptyProps "t1" "2025-01-01T10:00:00Z").bind
      (fun p => addOpenClock p "t2" "2025-01-01T10:05:00Z")).map
        totalOpenCount = .ok 2 := rfl

/-- Witness for the amended C1 on a concrete call sequence. -/
theorem clock_ops_keep_per_activity_at_most_one_open_witness :
    runClockOps emptyProps
        [ClockOp.add "t1" "2025-01-01T10:00:00Z",
         ClockOp.out 0 "2025-01-01T11:00:00Z"] =
      .ok ⟨some [⟨"task",
            some [⟨"2025-01-01T10:00:00Z", some "2025-01-01T11:00:00Z"⟩],
            some ["t1"], none, none, []⟩], []⟩ ∧
    perActivityInv ⟨some [⟨"task",
        some [⟨"2025-01-01T10:00:00Z", some "2025-01-01T11:00:00Z"⟩],
        some ["t1"], none, none, []⟩], []⟩ :=
  ⟨rfl,
   clock_ops_keep_per_activity_at_most_one_open
     [ClockOp.add "t1" "2025-01-01T10:00:00Z",
      ClockOp.out 0 "2025-01-01T11:00:00Z"]
     emptyProps _
     (by intro op hop; fin_cases hop <;> simp [ClockOp.now])
     (by intro a ha; simp [emptyProps] at ha)
     rfl⟩

/-! ## C9 -/

/-- Claim C9 (amended): on collections in normal form (every activity
carries `taskIds` and `log` arrays), `cancelOpenClock` finds the first
activity linked to the task id with an open entry, removes exactly its
first open log entry (log length drops by one, no `end` is set), leaves
every other activity and every other field of the target untouched, and
signals "There is no open clock" when no such activity exists.  On raw
collections the untouched activities are additionally normalized
(missing `taskIds`/`log` become `[]`, see the counterexample). -/
theorem cancelOpenClock_removes_exactly_one_open_entry :
    ∀ (p : Props) (taskId : String),
      (∀ a ∈ p.activities.getD [], a.taskIds.isSome ∧ a.log.isSome) →
      ((∀ a ∈ p.activities.getD [],
          ((a.taskIds.getD []).contains taskId &&
            (a.log.getD []).any isOpenEntry) = false) →
        cancelOpenClock p taskId = .error "There is no open clock") ∧
      (∀ i, (p.activities.getD []).findIdx? (fun a =>
            (a.taskIds.getD []).contains taskId &&
              (a.log.getD []).any isOpenEntry) = some i →
        ∃ k,
          (((p.activities.getD []).getD i defaultActivity).log.getD
              []).findIdx? isOpenEntry = some k ∧
          isOpenEntry ((((p.activities.getD []).getD i
              defaultActivity).log.getD []).getD k ⟨"", none⟩) = true ∧
          cancelOpenClock p taskId = .ok
            ⟨some ((p.activities.getD []).set i
              { (p.activities.getD []).getD i defaultActivity with
                  log := some ((((p.activities.getD []).getD i
                    defaultActivity).log.getD []).eraseIdx k) }),
              p.extra⟩ ∧
          ((((p.activities.getD []).getD i defaultActivity).log.getD
              []).eraseIdx k).length + 1 =
            (((p.activities.getD []).getD i defaultActivity).log.getD
              []).length) := by
  intro p taskId hnorm
  have hcopy := getActivitiesCopy_of_normal hnorm
  constructor
  · intro hnone
    simp only [cancelOpenClock, hcopy]
    rw [List.findIdx?_eq_none_iff.mpr hnone]
  · intro i hfi
    obtain ⟨hlt, hpred, -⟩ := List.findIdx?_eq_some_iff_getElem.mp hfi
    have htarget : (p.activities.getD []).getD i defaultActivity =
        (p.activities.getD [])[i] := List.getD_eq_getElem _ _ hlt
    have hmem : (p.activities.getD []).getD i defaultActivity ∈
        p.activities.getD [] := getD_mem_of_lt defaultActivity hlt
    obtain ⟨-, hlogsome⟩ := hnorm _ hmem
    have hany : (((p.activities.getD []).getD i defaultActivity).log.getD
        []).any isOpenEntry = true := by
      rw [htarget]
      exact (Bool.and_eq_true _ _ |>.mp hpred).2
    have hksome : ((((p.activities.getD []).getD i
        defaultActivity).log.getD []).findIdx? isOpenEntry).isSome := by
      rw [List.findIdx?_isSome, hany]
    obtain ⟨k, hk⟩ := Option.isSome_iff_exists.mp hksome
    obtain ⟨hklt, hkopen, -⟩ := List.findIdx?_eq_some_iff_getElem.mp hk
    refine ⟨k, hk, ?_, ?_, ?_⟩
    · rw [List.getD_eq_getElem _ _ hklt]
      exact hkopen
    · cases hlog : ((p.activities.getD []).getD i defaultActivity).log with
      | none => rw [hlog] at hlogsome; simp at hlogsome
      | some l =>
        have hleq : ((p.activities.getD []).getD i defaultActivity).log.getD
            [] = l := by rw [hlog]; rfl
        rw [hleq] at hk
        have hlog' : (((p.activities).getD []).getD i
            (⟨"", none, none, none, none, []⟩ : Activity)).log = some l := hlog
        simp only [cancelOpenClock, hcopy, hfi, hlog', hk, hleq]
        rfl
    · rw [List.length_eraseIdx, if_pos hklt]
      omega

/-- Claim C9 counterexample: on a collection whose second activity has no
`log` field, `cancelOpenClock` targeting the first activity rewrites the
second one too — its missing `log` becomes `some []` — so "every other
activity is unchanged" fails as stated. -/
theorem cancelOpenClock_normalizes_other_activity_counterexample :
    (cancelOpenClock c9CounterProps "t1").map
        (fun q => ((q.activities.getD []).getD 1 defaultActivity).log) =
      .ok (some []) ∧
    ((c9CounterProps.activities.getD []).getD 1 defaultActivity).log = none ∧
    some ([] : List LogEntry) ≠ none := ⟨rfl, rfl, by simp⟩

/-- Witness for the amended C9 on a concrete collection. -/
theorem cancelOpenClock_removes_exactly_one_open_entry_witness :
    ∃ k,
      ((((⟨some [⟨"task", some [⟨"2025-01-01T10:00:00Z", none⟩],
            some ["t1"], none, none, []⟩], []⟩ : Props).activities.getD
          []).getD 0 defaultActivity).log.getD []).findIdx? isOpenEntry =
        some k ∧
      isOpenEntry (((((⟨some [⟨"task",
          some [⟨"2025-01-01T10:00:00Z", none⟩], some ["t1"], none, none,
          []⟩], []⟩ : Props).activities.getD []).getD 0
          defaultActivity).log.getD []).getD k ⟨"", none⟩) = true ∧
      cancelOpenClock (⟨some [⟨"task",
          some [⟨"2025-01-01T10:00:00Z", none⟩], some ["t1"], none, none,
          []⟩], []⟩ : Props) "t1" = .ok
        ⟨some (((⟨some [⟨"task", some [⟨"2025-01-01T10:00:00Z", none⟩],
            some ["t1"], none, none, []⟩], []⟩ : Props).activities.getD
            []).set 0
          { ((⟨some [⟨"task", some [⟨"2025-01-01T10:00:00Z", none⟩],
              some ["t1"], none, none, []⟩], []⟩ :
              Props).activities.getD []).getD 0 defaultActivity with
              log := some ((((((⟨some [⟨"task",
                some [⟨"2025-01-01T10:00:00Z", none⟩], some ["t1"], none,
                none, []⟩], []⟩ : Props).activities.getD []).getD 0
                defaultActivity)).log.getD []).eraseIdx k) }), []⟩ ∧
      ((((((⟨some [⟨"task", some [⟨"2025-01-01T10:00:00Z", none⟩],
          some ["t1"], none, none, []⟩], []⟩ : Props).activities.getD
          []).getD 0 defaultActivity)).log.getD []).eraseIdx k).length + 1 =
        (((((⟨some [⟨"task", some [⟨"2025-01-01T10:00:00Z", none⟩],
          some ["t1"], none, none, []⟩], []⟩ : Props).activities.getD
          []).getD 0 defaultActivity)).log.getD []).length :=
  (cancelOpenClock_removes_exactly_one_open_entry
    ⟨some [⟨"task", some [⟨"2025-01-01T10:00:00Z", none⟩], some ["t1"],
      none, none, []⟩], []⟩ "t1"
    (by decide)).2 0 (by decide)

/-! ## C2 -/

/-- Claim C2 (code bug): the aggregation skips every open entry and
builds its output solely from the duration map, so an activity whose
only entry is open — even one starting inside the range — is omitted
from the daily and weekly summaries instead of appearing with duration
0.  On the repository's own test input ("ignores entries outside the
week or without an end time"), the weekly summary contains only
"activity: piano", while the test asserts that "activity: Reading"
appears with 0 minutes. -/
theorem open_entry_activity_omitted_from_summaries :
    (calculateWeeklyActivityDurations [pianoTestAct, readingTestAct]
        1726012800000).map (fun r => (r.activity, r.duration)) =
      [("activity: piano", 1800000)] ∧
    calculateDailyActivityDurations [readingTestAct] 1725926400000 = [] := by
  exact ⟨rfl, rfl⟩

/-! ## C3 -/

theorem lookupField_append_none {fs gs : List (String × Yaml)} {k : String}
    (h : lookupField fs k = none) :
    lookupField (fs ++ gs) k = lookupField gs k := by
  simp only [lookupField, List.find?_append]
  simp only [lookupField] at h
  cases hf : fs.find? (fun kv => kv.1 == k) with
  | none => rfl
  | some v => rw [hf] at h; simp at h

theorem lookupField_none_of_keys {fs : List (String × Yaml)} {k : String}
    (h : ∀ kv ∈ fs, (kv.1 == k) = false) : lookupField fs k = none := by
  have hf : fs.find? (fun kv => kv.1 == k) = none := by
    rw [List.find?_eq_none]
    intro kv hkv
    simp [h kv hkv]
  simp [lookupField, hf]

/-- Claim C3 (amended): in the per-activity object that `toMarkdown`
hands to the YAML dumper, the `taskIds` key is omitted exactly when the
field is absent (`taskIds ? { taskIds } : {}` with an undefined
`taskIds`); a present sequence — empty or not — is serialized as a plain
list, because a JS array is truthy even when empty.  (The passthrough
bag is assumed not to shadow the `taskIds` key, as schema-parsed
activities never do.) -/
theorem toMarkdown_taskIds_key_iff_field_present :
    ∀ a : Activity, a.extra.all (fun kv => kv.1 != "taskIds") = true →
      (a.taskIds = none →
        lookupField (yamlObjFields (encodeActivity a)) "taskIds" = none) ∧
      (∀ ids, a.taskIds = some ids →
        lookupField (yamlObjFields (encodeActivity a)) "taskIds" =
          some (.arr (ids.map .str))) := by
  intro a hextra
  have hpre : lookupField
      ([("activity", Yaml.str a.activity)] ++
        (match a.log with
         | none => []
         | some ls => [("log", Yaml.arr (ls.map encodeLogEntry))]) ++
        (match a.notes with
         | none => []
         | some s => [("notes", Yaml.str s)]) ++
        (match a.quality with
         | none => []
         | some n => [("quality", Yaml.num n)]) ++
        a.extra) "taskIds" = none := by
    apply lookupField_none_of_keys
    intro kv hkv
    simp only [List.mem_append] at hkv
    rcases hkv with ((((h1 | h2) | h3) | h4) | h5)
    · rw [List.mem_singleton.mp h1]; rfl
    · cases hl : a.log with
      | none => rw [hl] at h2; simp at h2
      | some ls =>
        rw [hl] at h2
        rw [List.mem_singleton.mp h2]; rfl
    · cases hn : a.notes with
      | none => rw [hn] at h3; simp at h3
      | some s =>
        rw [hn] at h3
        rw [List.mem_singleton.mp h3]; rfl
    · cases hq : a.quality with
      | none => rw [hq] at h4; simp at h4
      | some n =>
        rw [hq] at h4
        rw [List.mem_singleton.mp h4]; rfl
    · have := List.all_eq_true.mp hextra kv h5
      simpa [bne] using this
  constructor
  · intro hnone
    simp only [encodeActivity, yamlObjFields, hnone, List.append_nil]
    exact hpre
  · intro ids hids
    simp only [encodeActivity, yamlObjFields, hids]
    rw [lookupField_append_none hpre]
    rfl

/-- Claim C3 counterexample: an activity with an empty `taskIds`
sequence still gets a `taskIds` key (serialized as the empty list),
because an empty array is truthy in JS — the key is only dropped when
the field is absent. -/
theorem empty_taskIds_still_serialized_counterexample :
    lookupField (yamlObjFields (encodeActivity
      ⟨"x", none, some [], none, none, []⟩)) "taskIds" =
      some (.arr []) := rfl

/-- Witness for the amended C3 at concrete activities. -/
theorem toMarkdown_taskIds_key_iff_field_present_witness :
    lookupField (yamlObjFields (encodeActivity
        ⟨"x", none, none, none, none, []⟩)) "taskIds" = none ∧
    lookupField (yamlObjFields (encodeActivity
        ⟨"y", none, some ["a", "b"], none, none, []⟩)) "taskIds" =
      some (.arr [.str "a", .str "b"]) :=
  ⟨(toMarkdown_taskIds_key_iff_field_present
      ⟨"x", none, none, none, none, []⟩ (by decide)).1 rfl,
   (toMarkdown_taskIds_key_iff_field_present
      ⟨"y", none, some ["a", "b"], none, none, []⟩ (by decide)).2
     ["a", "b"] rfl⟩

/-! ## Sorting and assoc-list lemmas (shared) -/

theorem insertLe_perm {α : Type} (le : α → α → Bool) (x : α) (l : List α) :
    (insertLe le x l).Perm (x :: l) := by
  induction l with
  | nil => exact List.Perm.refl _
  | cons y ys ih =>
    simp only [insertLe]
    split
    · exact List.Perm.refl _
    · exact (List.Perm.cons y ih).trans (List.Perm.swap x y ys)

theorem sortByLe_perm {α : Type} (le : α → α → Bool) (l : List α) :
    (sortByLe le l).Perm l := by
  induction l with
  | nil => exact List.Perm.refl _
  | cons x xs ih =>
    exact (insertLe_perm le x (sortByLe le xs)).trans (List.Perm.cons x ih)

theorem mem_of_mem_sortByLe {α : Type} {le : α → α → Bool} {l : List α}
    {x : α} (h : x ∈ sortByLe le l) : x ∈ l :=
  (sortByLe_perm le l).mem_iff.mp h

theorem lookupAssoc_mem {α : Type} {m : List (String × α)} {k : String}
    {v : α} (h : lookupAssoc m k = some v) : (k, v) ∈ m := by
  cases hf : m.find? (fun kv => kv.1 == k) with
  | none => exfalso; simp [lookupAssoc, hf] at h
  | some kv =>
    have hm := List.mem_of_find?_eq_some hf
    have hp := List.find?_some hf
    have h1 : kv.1 = k := by simpa using hp
    have h2 : kv.2 = v := by
      simp only [lookupAssoc, hf, Option.map_some] at h
      exact Option.some.inj h
    have hkv : kv = (k, v) := by
      rw [← h1, ← h2]
    rw [← hkv]
    exact hm

theorem lookupAssoc_append_right {α : Type} {m : List (String × α)}
    {k : String} (m' : List (String × α)) (h : lookupAssoc m k = none) :
    lookupAssoc (m ++ m') k = lookupAssoc m' k := by
  cases hf : m.find? (fun kv => kv.1 == k) with
  | none => simp [lookupAssoc, List.find?_append, hf]
  | some v => exfalso; simp [lookupAssoc, hf] at h

theorem lookupAssoc_self_singleton {α : Type} (k : String) (v : α) :
    lookupAssoc [(k, v)] k = some v := by
  simp [lookupAssoc]

/-! ## C7 lemmas -/

theorem entryContribution_closed {r1 r2 : Int} {e : LogEntry} {es : String}
    {s t : Int} (hend : e.endTime = some es) (hs : parseIso e.start = some s)
    (ht : parseIso es = some t) :
    entryContribution r1 r2 e =
      if min t r2 ≤ max s r1 then none else some (min t r2 - max s r1) := by
  have hne : es ≠ "" := by
    intro h
    rw [h] at ht
    rw [show parseIso "" = none from rfl] at ht
    exact Option.noConfusion ht
  have hfal : isFalsyStr e.endTime = false := by
    rw [hend]
    simpa [isFalsyStr] using hne
  have hgd : e.endTime.getD "" = es := by rw [hend]; rfl
  simp only [entryContribution, hfal, hgd, hs, ht]
  rfl

theorem entryContribution_outside {r1 r2 : Int} {e : LogEntry} {es : String}
    {s t : Int} (hend : e.endTime = some es) (hs : parseIso e.start = some s)
    (ht : parseIso es = some t) (hout : t ≤ r1 ∨ s ≥ r2) :
    entryContribution r1 r2 e = none := by
  rw [entryContribution_closed hend hs ht]
  have : min t r2 ≤ max s r1 := by
    rcases hout with h | h
    · exact le_trans (min_le_left _ _) (le_trans h (le_max_right _ _))
    · exact le_trans (min_le_right _ _) (le_trans h (le_max_left _ _))
  rw [if_pos this]

theorem foldEntries_single_key (r1 r2 : Int) (key : String) :
    ∀ (entries : List LogEntry) (s : Int),
      entries.foldl (aggEntryStep r1 r2 key) [(key, s)] =
        [(key, s + entryContributionTotal r1 r2 entries)] := by
  intro entries
  induction entries with
  | nil => intro s; simp [entryContributionTotal]
  | cons e es ih =>
    intro s
    cases hc : entryContribution r1 r2 e with
    | none =>
      simp only [List.foldl_cons, aggEntryStep, hc]
      rw [ih s]
      simp [entryContributionTotal, hc]
    | some d =>
      have hbump : bumpDuration [(key, s)] key d = [(key, s + d)] := by
        simp [bumpDuration, lookupAssoc_self_singleton, lookupAssoc]
      simp only [List.foldl_cons, aggEntryStep, hc]
      rw [hbump, ih (s + d)]
      simp only [entryContributionTotal, List.map_cons, List.sum_cons, hc,
        Option.getD_some]
      ring_nf

theorem foldEntries_from_empty (r1 r2 : Int) (key : String) :
    ∀ entries : List LogEntry,
      entries.foldl (aggEntryStep r1 r2 key) [] =
        if entries.all (fun e => (entryContribution r1 r2 e).isNone) then []
        else [(key, entryContributionTotal r1 r2 entries)] := by
  intro entries
  induction entries with
  | nil => simp
  | cons e es ih =>
    cases hc : entryContribution r1 r2 e with
    | none =>
      simp only [List.foldl_cons, aggEntryStep, hc]
      rw [ih]
      simp only [List.all_cons, hc, Option.isNone_none, Bool.true_and]
      split
      · rfl
      · simp [entryContributionTotal, hc]
    | some d =>
      have hbump : bumpDuration [] key d = [(key, d)] := by
        simp [bumpDuration, lookupAssoc]
      simp only [List.foldl_cons, aggEntryStep, hc]
      rw [hbump, foldEntries_single_key r1 r2 key es d]
      simp [entryContributionTotal, hc]

theorem foldEntries_mem {r1 r2 : Int} {key : String} :
    ∀ {entries : List LogEntry} {ds : List (String × Int)}
      {kd : String × Int},
      kd ∈ entries.foldl (aggEntryStep r1 r2 key) ds →
      kd ∈ ds ∨ (kd.1 = key ∧
        ∃ e ∈ entries, (entryContribution r1 r2 e).isSome) := by
  intro entries
  induction entries with
  | nil => intro ds kd h; exact Or.inl h
  | cons e es ih =>
    intro ds kd h
    cases hc : entryContribution r1 r2 e with
    | none =>
      simp only [List.foldl_cons, aggEntryStep, hc] at h
      rcases ih h with h1 | ⟨h1, e', he', hc'⟩
      · exact Or.inl h1
      · exact Or.inr ⟨h1, e', List.mem_cons_of_mem _ he', hc'⟩
    | some d =>
      simp only [List.foldl_cons, aggEntryStep, hc] at h
      rcases ih h with h1 | ⟨h1, e', he', hc'⟩
      · simp only [bumpDuration] at h1
        split at h1
        · obtain ⟨orig, ho, heq⟩ := List.mem_map.mp h1
          by_cases hk : (orig.1 == key) = true
          · rw [if_pos hk] at heq
            refine Or.inr ⟨?_, e, List.mem_cons_self _ _, by rw [hc]; rfl⟩
            rw [← heq]
            exact eq_of_beq hk
          · rw [if_neg hk] at heq
            exact Or.inl (heq ▸ ho)
        · rcases List.mem_append.mp h1 with h2 | h2
          · exact Or.inl h2
          · refine Or.inr ⟨?_, e, List.mem_cons_self _ _, by rw [hc]; rfl⟩
            rw [List.mem_singleton.mp h2]
      · exact Or.inr ⟨h1, e', List.mem_cons_of_mem _ he', hc'⟩

theorem aggFold_inv (r1 r2 : Int) (activities : List Activity) :
    ∀ (rem : List Activity) (st : AggState),
      (∀ b ∈ rem, b ∈ activities) →
      (∀ nl ∈ st.normToLabel, ∃ c ∈ activities,
        nl.1 = normalizeActivityName c.activity ∧
        nl.2 = sanitizeLabel c.activity) →
      (∀ kd ∈ st.durs, ∃ c ∈ activities, ∃ b ∈ activities,
        kd.1 = sanitizeLabel c.activity ∧
        normalizeActivityName c.activity = normalizeActivityName b.activity ∧
        ∃ e ∈ b.log.getD [], (entryContribution r1 r2 e).isSome) →
      ∀ kd ∈ (rem.foldl (aggStep r1 r2) st).durs,
        ∃ c ∈ activities, ∃ b ∈ activities,
          kd.1 = sanitizeLabel c.activity ∧
          normalizeActivityName c.activity = normalizeActivityName b.activity ∧
          ∃ e ∈ b.log.getD [], (entryContribution r1 r2 e).isSome := by
  intro rem
  induction rem with
  | nil => intro st _ _ hdurs kd hkd; exact hdurs kd hkd
  | cons b rem ih =>
    intro st hsub hntl hdurs
    have hb : b ∈ activities := hsub b (List.mem_cons_self _ _)
    have hsub' : ∀ c ∈ rem, c ∈ activities :=
      fun c hc => hsub c (List.mem_cons_of_mem _ hc)
    rw [List.foldl_cons]
    cases hl : lookupAssoc st.normToLabel (normalizeActivityName b.activity) with
    | some l0 =>
      have hstep : aggStep r1 r2 st b =
          ⟨st.normToLabel,
            (b.log.getD []).foldl (aggEntryStep r1 r2 l0) st.durs⟩ := by
        simp [aggStep, hl]
      rw [hstep]
      obtain ⟨c0, hc0, hn0, hl0⟩ := hntl _ (lookupAssoc_mem hl)
      refine ih _ hsub' hntl ?_
      intro kd hkd
      rcases foldEntries_mem hkd with h1 | ⟨h1, e, he, hce⟩
      · exact hdurs kd h1
      · exact ⟨c0, hc0, b, hb, by rw [h1]; exact hl0, hn0.symm, e, he, hce⟩
    | none =>
      have hkey : lookupAssoc
          (st.normToLabel ++ [(normalizeActivityName b.activity,
            sanitizeLabel b.activity)]) (normalizeActivityName b.activity) =
          some (sanitizeLabel b.activity) := by
        rw [lookupAssoc_append_right _ hl]
        exact lookupAssoc_self_singleton _ _
      have hstep : aggStep r1 r2 st b =
          ⟨st.normToLabel ++ [(normalizeActivityName b.activity,
              sanitizeLabel b.activity)],
            (b.log.getD []).foldl (aggEntryStep r1 r2
              (sanitizeLabel b.activity)) st.durs⟩ := by
        simp [aggStep, hl, hkey]
      rw [hstep]
      have hntl' : ∀ nl ∈ st.normToLabel ++
          [(normalizeActivityName b.activity, sanitizeLabel b.activity)],
          ∃ c ∈ activities, nl.1 = normalizeActivityName c.activity ∧
            nl.2 = sanitizeLabel c.activity := by
        intro nl hnl
        rcases List.mem_append.mp hnl with h1 | h1
        · exact hntl nl h1
        · rw [List.mem_singleton.mp h1]
          exact ⟨b, hb, rfl, rfl⟩
      refine ih _ hsub' hntl' ?_
      intro kd hkd
      rcases foldEntries_mem hkd with h1 | ⟨h1, e, he, hce⟩
      · exact hdurs kd h1
      · exact ⟨b, hb, b, hb, by rw [h1], rfl, e, he, hce⟩

/-! ## C7 -/

/-- Claim C7: the clamped-aggregation contract.  (1) A closed entry with
strictly-ISO endpoints contributes exactly
`max 0 (min end rangeEnd - max start rangeStart)`.  (2) For a single
activity the aggregate row is exactly the sum of those contributions,
present only when some contribution is positive.  (3) The entry
`[09:00Z, 11:00Z]` queried over `[10:00Z, 10:30Z)` on 2024-09-10
contributes exactly 30 minutes.  (4) An activity all of whose entries
lie entirely outside `[rangeStart, rangeEnd)` (and whose normalized name
is not shared) does not appear in the output at all. -/
theorem clamped_aggregation_with_cross_range_exclusion :
    (∀ (r1 r2 : Int) (e : LogEntry) (es : String) (s t : Int),
      e.endTime = some es → parseIso e.start = some s →
      parseIso es = some t →
      (entryContribution r1 r2 e).getD 0 = max 0 (min t r2 - max s r1)) ∧
    (∀ (r1 r2 : Int) (a : Activity),
      calculateActivityDurationsForRange [a] r1 r2 =
        if (a.log.getD []).all (fun e => (entryContribution r1 r2 e).isNone)
        then []
        else [⟨sanitizeLabel a.activity,
          entryContributionTotal r1 r2 (a.log.getD [])⟩]) ∧
    (calculateActivityDurationsForRange
        [⟨"piano", some [⟨"2024-09-10T09:00:00Z",
          some "2024-09-10T11:00:00Z"⟩], none, none, none, []⟩]
        1725962400000 1725964200000 = [⟨"piano", 1800000⟩]) ∧
    (∀ (r1 r2 : Int) (activities : List Activity) (a : Activity),
      a ∈ activities →
      (∀ b ∈ activities, normalizeActivityName b.activity =
        normalizeActivityName a.activity → b = a) →
      (∀ e ∈ a.log.getD [], ∃ es s t, e.endTime = some es ∧
        parseIso e.start = some s ∧ parseIso es = some t ∧
        (t ≤ r1 ∨ s ≥ r2)) →
      ∀ row ∈ calculateActivityDurationsForRange activities r1 r2,
        row.activity ≠ sanitizeLabel a.activity) := by
  refine ⟨?_, ?_, rfl, ?_⟩
  · intro r1 r2 e es s t hend hs ht
    rw [entryContribution_closed hend hs ht]
    split
    · rename_i hle
      simp only [Option.getD_none]
      omega
    · rename_i hgt
      simp only [Option.getD_some]
      omega
  · intro r1 r2 a
    have h0 : lookupAssoc ([] : List (String × String))
        (normalizeActivityName a.activity) = none := rfl
    have hstep : aggStep r1 r2 ⟨[], []⟩ a =
        ⟨[(normalizeActivityName a.activity, sanitizeLabel a.activity)],
          (a.log.getD []).foldl (aggEntryStep r1 r2
            (sanitizeLabel a.activity)) []⟩ := by
      simp [aggStep, h0, lookupAssoc_self_singleton]
    simp only [calculateActivityDurationsForRange, List.foldl_cons,
      List.foldl_nil, hstep, foldEntries_from_empty]
    split
    · rfl
    · simp [sortByLe, insertLe]
  · intro r1 r2 activities a ha hname houtside row hrow hEq
    have hrow' := mem_of_mem_sortByLe hrow
    obtain ⟨kd, hkd, hrowEq⟩ := List.mem_map.mp hrow'
    obtain ⟨c, hc, b, hb, hkey, hnorm, e, he, hce⟩ :=
      aggFold_inv r1 r2 activities activities ⟨[], []⟩ (fun b hb => hb)
        (by intro nl hnl; simp at hnl)
        (by intro kd hkd; simp at hkd) kd hkd
    have hlabel : row.activity = kd.1 := by rw [← hrowEq]
    have hsan : sanitizeLabel c.activity = sanitizeLabel a.activity := by
      rw [← hkey, ← hlabel, hEq]
    have hnca : normalizeActivityName c.activity =
        normalizeActivityName a.activity := by
      have : lowerS (sanitizeLabel c.activity) =
          lowerS (sanitizeLabel a.activity) := by rw [hsan]
      exact this
    have hba : b = a := hname b hb (by rw [← hnorm, hnca])
    rw [hba] at he
    obtain ⟨es, s, t, hend, hs, ht, hout⟩ := houtside e he
    rw [entryContribution_outside hend hs ht hout] at hce
    simp at hce

/-- Witness for the hypothesis-bearing conjuncts of C7 at concrete
inputs: the 30-minute clamp formula on the `[09:00Z, 11:00Z]` entry, and
the exclusion of a `walk` activity logged entirely before the queried
day. -/
theorem clamped_aggregation_with_cross_range_exclusion_witness :
    (entryContribution 1725962400000 1725964200000
        ⟨"2024-09-10T09:00:00Z", some "2024-09-10T11:00:00Z"⟩).getD 0 =
      max 0 (min 1725966000000 1725964200000 -
        max 1725958800000 1725962400000) ∧
    (∀ row ∈ calculateActivityDurationsForRange
        [⟨"walk", some [⟨"2024-09-01T10:00:00Z",
          some "2024-09-01T11:00:00Z"⟩], none, none, none, []⟩]
        1725926400000 1726012800000,
      row.activity ≠ sanitizeLabel "walk") :=
  ⟨clamped_aggregation_with_cross_range_exclusion.1
      1725962400000 1725964200000
      ⟨"2024-09-10T09:00:00Z", some "2024-09-10T11:00:00Z"⟩
      "2024-09-10T11:00:00Z" 1725958800000 1725966000000 rfl rfl rfl,
   clamped_aggregation_with_cross_range_exclusion.2.2.2
      1725926400000 1726012800000
      [⟨"walk", some [⟨"2024-09-01T10:00:00Z",
        some "2024-09-01T11:00:00Z"⟩], none, none, none, []⟩]
      ⟨"walk", some [⟨"2024-09-01T10:00:00Z",
        some "2024-09-01T11:00:00Z"⟩], none, none, none, []⟩
      (List.mem_singleton.mpr rfl)
      (fun b hb _ => List.mem_singleton.mp hb)
      (by
        intro e he
        rw [List.mem_singleton.mp he]
        exact ⟨"2024-09-01T11:00:00Z", 1725184800000, 1725188400000,
          rfl, rfl, rfl, Or.inl (by decide)⟩)⟩

/-! ## C8 lemmas -/

theorem beq_comm_str (a b : String) : (a == b) = (b == a) := by
  by_cases h : a = b
  · subst h; rfl
  · have h1 : (a == b) = false := beq_eq_false_iff_ne.mpr h
    have h2 : (b == a) = false := beq_eq_false_iff_ne.mpr (Ne.symm h)
    rw [h1, h2]

theorem lookupAssoc_singleton_ne {α : Type} {k k' : String} (v : α)
    (h : (k == k') = false) : lookupAssoc [(k, v)] k' = none := by
  simp [lookupAssoc, List.find?, h]

theorem buildGoalMap_aux :
    ∀ (goals : List ActivityGoal) (acc : List (String × ActivityGoal)),
      (∀ g ∈ goals, lookupAssoc acc (normalizeActivityName g.activity) = none) →
      (goals.map (fun g => normalizeActivityName g.activity)).Nodup →
      goals.foldl
        (fun m g =>
          let k := normalizeActivityName g.activity
          if (lookupAssoc m k).isSome then
            m.map (fun kv => if kv.1 == k then (k, g) else kv)
          else m ++ [(k, g)])
        acc =
        acc ++ goals.map (fun g => (normalizeActivityName g.activity, g)) := by
  intro goals
  induction goals with
  | nil => intro acc _ _; simp
  | cons g rest ih =>
    intro acc hnone hnd
    rw [List.map_cons, List.nodup_cons] at hnd
    obtain ⟨hg, hrest⟩ := hnd
    have h0 : lookupAssoc acc (normalizeActivityName g.activity) = none :=
      hnone g (List.mem_cons_self _ _)
    rw [List.foldl_cons]
    simp only [h0, Option.isSome_none, Bool.false_eq_true, if_false]
    rw [ih (acc ++ [(normalizeActivityName g.activity, g)]) ?_ hrest]
    · simp
    · intro g' hg'
      rw [lookupAssoc_append_right _ (hnone g' (List.mem_cons_of_mem _ hg'))]
      apply lookupAssoc_singleton_ne
      apply beq_eq_false_iff_ne.mpr
      intro hcontra
      exact hg (hcontra ▸ List.mem_map_of_mem _ hg')

theorem buildGoalMap_eq_of_nodup {goals : List ActivityGoal}
    (hnd : (goals.map (fun g => normalizeActivityName g.activity)).Nodup) :
    buildGoalMap goals =
      goals.map (fun g => (normalizeActivityName g.activity, g)) := by
  have := buildGoalMap_aux goals [] (by intro g _; rfl) hnd
  simpa [buildGoalMap] using this

theorem lookupAssoc_map_pair (goals : List ActivityGoal) (k : String) :
    lookupAssoc (goals.map (fun g => (normalizeActivityName g.activity, g)))
        k =
      goals.find? (fun g => normalizeActivityName g.activity == k) := by
  induction goals with
  | nil => rfl
  | cons g rest ih =>
    by_cases h : (normalizeActivityName g.activity == k) = true
    · simp [lookupAssoc, List.find?, h]
    · have h' : (normalizeActivityName g.activity == k) = false :=
        Bool.not_eq_true _ ▸ h
      simp only [List.map_cons, lookupAssoc, List.find?, h']
      exact ih

theorem lookupAssoc_cons_of_pos {α : Type} {kv : String × α}
    {k : String} (m : List (String × α)) (h : (kv.1 == k) = true) :
    lookupAssoc (kv :: m) k = some kv.2 := by
  unfold lookupAssoc
  rw [@List.find?_cons_of_pos _ (fun kv => kv.1 == k) kv m h]
  rfl

theorem lookupAssoc_cons_of_neg {α : Type} {kv : String × α}
    {k : String} (m : List (String × α)) (h : (kv.1 == k) = false) :
    lookupAssoc (kv :: m) k = lookupAssoc m k := by
  unfold lookupAssoc
  rw [@List.find?_cons_of_neg _ (fun kv => kv.1 == k) kv m
    (by show ¬(kv.1 == k) = true; rw [h]; exact Bool.false_ne_true)]

theorem lookupAssoc_filter_not_contains {α : Type}
    (M : List (String × α)) (ks : List String) (k : String) :
    lookupAssoc (M.filter (fun kv => !(ks.contains kv.1))) k =
      if ks.contains k then none else lookupAssoc M k := by
  induction M with
  | nil => simp [lookupAssoc]
  | cons kv M ih =>
    simp only [List.filter_cons]
    split
    · rename_i hkeep
      by_cases hk : (kv.1 == k) = true
      · have hcf : ks.contains k = false := by
          have h2 : ks.contains kv.1 = false := by
            cases hcc : ks.contains kv.1
            · rfl
            · rw [hcc] at hkeep; exact absurd hkeep (by simp)
          rw [← eq_of_beq hk]
          exact h2
        rw [lookupAssoc_cons_of_pos _ hk,
          if_neg (by rw [hcf]; exact Bool.false_ne_true),
          lookupAssoc_cons_of_pos _ hk]
      · have hk' : (kv.1 == k) = false := by
          cases hpq : (kv.1 == k)
          · rfl
          · exact absurd hpq hk
        rw [lookupAssoc_cons_of_neg _ hk', ih,
          lookupAssoc_cons_of_neg _ hk']
    · rename_i hdrop
      have hcv : ks.contains kv.1 = true := by
        cases hcc : ks.contains kv.1
        · exact absurd (show (!ks.contains kv.1) = true by rw [hcc]; rfl) hdrop
        · rfl
      rw [ih]
      by_cases hk : (kv.1 == k) = true
      · have hck : ks.contains k = true := by rw [← eq_of_beq hk]; exact hcv
        rw [if_pos hck, if_pos hck]
      · have hk' : (kv.1 == k) = false := by
          cases hpq : (kv.1 == k)
          · rfl
          · exact absurd hpq hk
        rw [lookupAssoc_cons_of_neg _ hk']

theorem contains_append_str (l1 l2 : List String) (x : String) :
    (l1 ++ l2).contains x = (l1.contains x || l2.contains x) := by
  induction l1 with
  | nil => simp
  | cons a as ih =>
    rw [List.cons_append, List.contains_cons, List.contains_cons, ih,
      Bool.or_assoc]

theorem lookupAssoc_none_keys {α : Type} {m : List (String × α)} {k : String}
    (h : lookupAssoc m k = none) : ∀ kv ∈ m, (kv.1 == k) = false := by
  intro kv hkv
  cases hf : m.find? (fun kv => kv.1 == k) with
  | some v => exfalso; simp [lookupAssoc, hf] at h
  | none =>
    have := List.find?_eq_none.mp hf kv hkv
    simpa using this

theorem filter_append_contains {α : Type} (M : List (String × α))
    (seen : List String) (k : String) :
    (M.filter (fun kv => !(seen.contains kv.1))).filter
        (fun kv => kv.1 != k) =
      M.filter (fun kv => !((seen ++ [k]).contains kv.1)) := by
  rw [List.filter_filter]
  apply List.filter_congr
  intro kv _
  rw [contains_append_str, List.contains_cons]
  cases h1 : seen.contains kv.1 <;> cases h2 : kv.1 == k <;>
    simp [bne, h1, h2]

theorem filter_no_key {α : Type} {M : List (String × α)}
    {seen : List String} {k : String}
    (h : lookupAssoc (M.filter (fun kv => !(seen.contains kv.1))) k = none) :
    M.filter (fun kv => !((seen ++ [k]).contains kv.1)) =
      M.filter (fun kv => !(seen.contains kv.1)) := by
  apply List.filter_congr
  intro kv hkv
  rw [contains_append_str]
  cases hc : seen.contains kv.1
  · have hmem : kv ∈ M.filter (fun kv => !(seen.contains kv.1)) :=
      List.mem_filter.mpr ⟨hkv, by
        show (!(seen.contains kv.1)) = true
        rw [hc]
        rfl⟩
    have hk' := lookupAssoc_none_keys h kv hmem
    rw [List.contains_cons, hk']
    rfl
  · rw [Bool.true_or]

theorem contains_mapKey (ds : List DurationRow) (x : String) :
    (ds.map durationRowKey).contains x =
      ds.any (fun d => durationRowKey d == x) := by
  induction ds with
  | nil => rfl
  | cons d ds ih =>
    rw [List.map_cons, List.contains_cons, List.any_cons, ih,
      beq_comm_str x (durationRowKey d)]

theorem mapPair_filter_synthetic (goals : List ActivityGoal)
    (ks : List String) :
    ((goals.map (fun g => (normalizeActivityName g.activity, g))).filter
        (fun kv => !(ks.contains kv.1))).map
      (fun kv => syntheticGoalRow kv.2) =
      (goals.filter (fun g =>
        !(ks.contains (normalizeActivityName g.activity)))).map
        syntheticGoalRow := by
  induction goals with
  | nil => rfl
  | cons g goals ih =>
    rw [List.map_cons, List.filter_cons, List.filter_cons]
    by_cases hc : (!(ks.contains (normalizeActivityName g.activity))) = true
    · rw [if_pos hc, if_pos hc, List.map_cons, ih, List.map_cons]
    · rw [if_neg hc, if_neg hc, ih]

theorem mergeFold_c8 (goals : List ActivityGoal) :
    ∀ (ds : List DurationRow) (rows : List MergedRow) (seen : List String),
      ds.foldl mergeStep
        (rows,
          (goals.map (fun g => (normalizeActivityName g.activity, g))).filter
            (fun kv => !(seen.contains kv.1))) =
      (rows ++ c8Rows goals seen ds,
        (goals.map (fun g => (normalizeActivityName g.activity, g))).filter
          (fun kv => !((seen ++ ds.map durationRowKey).contains kv.1))) := by
  intro ds
  induction ds with
  | nil => intro rows seen; simp [c8Rows]
  | cons e ds ih =>
    intro rows seen
    rw [List.foldl_cons]
    by_cases hc : seen.contains (durationRowKey e) = true
    · have hlz : lookupAssoc
          ((goals.map (fun g => (normalizeActivityName g.activity,
            g))).filter (fun kv => !(seen.contains kv.1)))
          (durationRowKey e) = none := by
        rw [lookupAssoc_filter_not_contains, if_pos hc]
      have hstep : mergeStep (rows,
          (goals.map (fun g => (normalizeActivityName g.activity, g))).filter
            (fun kv => !(seen.contains kv.1))) e =
          (rows ++ [⟨e.activity, e.activityKey, e.duration, none⟩],
            (goals.map (fun g => (normalizeActivityName g.activity,
              g))).filter (fun kv => !(seen.contains kv.1))) := by
        simp only [mergeStep]
        rw [hlz]
        rfl
      rw [hstep, ← filter_no_key hlz, ih]
      rw [Prod.mk.injEq]
      constructor
      · simp only [c8Rows]
        rw [if_pos hc, List.append_assoc, List.singleton_append]
      · simp only [List.map_cons, List.append_assoc, List.singleton_append]
    · cases hfind : goals.find? (fun g =>
          normalizeActivityName g.activity == durationRowKey e) with
      | none =>
        have hlz : lookupAssoc
            ((goals.map (fun g => (normalizeActivityName g.activity,
              g))).filter (fun kv => !(seen.contains kv.1)))
            (durationRowKey e) = none := by
          rw [lookupAssoc_filter_not_contains, if_neg hc,
            lookupAssoc_map_pair, hfind]
        have hstep : mergeStep (rows,
            (goals.map (fun g => (normalizeActivityName g.activity,
              g))).filter (fun kv => !(seen.contains kv.1))) e =
            (rows ++ [⟨e.activity, e.activityKey, e.duration, none⟩],
              (goals.map (fun g => (normalizeActivityName g.activity,
                g))).filter (fun kv => !(seen.contains kv.1))) := by
          simp only [mergeStep]
          rw [hlz]
          rfl
        rw [hstep, ← filter_no_key hlz, ih]
        rw [Prod.mk.injEq]
        constructor
        · simp only [c8Rows]
          rw [if_neg hc, hfind, List.append_assoc, List.singleton_append]
          rfl
        · simp only [List.map_cons, List.append_assoc, List.singleton_append]
      | some g =>
        have hls : lookupAssoc
            ((goals.map (fun g => (normalizeActivityName g.activity,
              g))).filter (fun kv => !(seen.contains kv.1)))
            (durationRowKey e) = some g := by
          rw [lookupAssoc_filter_not_contains, if_neg hc,
            lookupAssoc_map_pair, hfind]
        have hstep : mergeStep (rows,
            (goals.map (fun g => (normalizeActivityName g.activity,
              g))).filter (fun kv => !(seen.contains kv.1))) e =
            (rows ++ [⟨e.activity, e.activityKey, e.duration,
                some g.goal⟩],
              ((goals.map (fun g => (normalizeActivityName g.activity,
                g))).filter (fun kv => !(seen.contains kv.1))).filter
                  (fun kv => kv.1 != durationRowKey e)) := by
          simp only [mergeStep]
          rw [hls]
          rfl
        rw [hstep, filter_append_contains, ih]
        rw [Prod.mk.injEq]
        constructor
        · simp only [c8Rows]
          rw [if_neg hc, hfind, List.append_assoc, List.singleton_append]
          rfl
        · simp only [List.map_cons, List.append_assoc, List.singleton_append]

/-! ## C8 -/

/-- Claim C8 (amended): when the goals carry pairwise-distinct
normalized activity names, `mergeActivityDurationsWithGoals` behaves as
the join the spec describes — each duration row carries the goal whose
normalized name matches its key unless an earlier duration row with the
same key already consumed it (then `undefined`/`none`), rows with no
matching goal pass through with no goal, and every goal matched by no
duration row appears as a synthetic zero-duration row; the output is a
permutation (a re-sorting) of those rows.  With duplicate normalized
goal names the original claim fails: the `Map` constructor keeps only
the last goal per key, so the earlier duplicate goal is silently
dropped (see the counterexample). -/
theorem mergeActivityDurationsWithGoals_join_spec
    (durations : List DurationRow) (goals : List ActivityGoal)
    (hnd : (goals.map (fun g => normalizeActivityName g.activity)).Nodup) :
    (mergeActivityDurationsWithGoals durations goals).Perm
      (c8Rows goals [] durations ++ unmatchedGoalRows goals durations) := by
  have hfilter0 :
      (goals.map (fun g => (normalizeActivityName g.activity, g))).filter
        (fun kv => !((([] : List String)).contains kv.1)) =
      goals.map (fun g => (normalizeActivityName g.activity, g)) :=
    List.filter_eq_self.mpr (fun kv _ => rfl)
  have hfold := mergeFold_c8 goals durations [] []
  rw [hfilter0] at hfold
  simp only [List.nil_append] at hfold
  simp only [mergeActivityDurationsWithGoals]
  rw [buildGoalMap_eq_of_nodup hnd, hfold]
  refine (sortByLe_perm _ _).trans ?_
  show (c8Rows goals [] durations ++
      ((goals.map (fun g => (normalizeActivityName g.activity, g))).filter
        (fun kv =>
          !((durations.map durationRowKey).contains kv.1))).map
        (fun kv => syntheticGoalRow kv.2)).Perm _
  refine List.Perm.append_left _ ?_
  rw [mapPair_filter_synthetic]
  have hfe : goals.filter (fun g =>
      !((durations.map durationRowKey).contains
        (normalizeActivityName g.activity))) =
      goals.filter (fun g =>
        ¬ durations.any
          (fun d => durationRowKey d == normalizeActivityName g.activity)) := by
    apply List.filter_congr
    intro g _
    rw [contains_mapKey]
    cases hany : durations.any
        (fun d => durationRowKey d == normalizeActivityName g.activity)
    · rfl
    · rfl
  simp only [unmatchedGoalRows]
  rw [hfe]

/-- Claim C8 counterexample: two goals sharing the normalized name "a"
and no duration rows.  The goal with target 3600000 is matched by no
duration row, yet the output holds no synthetic row for it: the JS
`Map` built over the goals keeps only the last goal per key, so the
single output row carries the second goal (1800000). -/
theorem duplicate_goal_lost_counterexample :
    mergeActivityDurationsWithGoals []
        [⟨"a", 3600000⟩, ⟨"a", 1800000⟩] =
      [⟨"a", some "a", 0, some 1800000⟩] := by decide

/-- Witness for the amended C8 at a concrete join: one duration row
matching the first of two goals. -/
theorem mergeActivityDurationsWithGoals_join_spec_witness :
    (mergeActivityDurationsWithGoals [⟨"Piano", none, 60000⟩]
        [⟨"piano", 3600000⟩, ⟨"walk", 1800000⟩]).Perm
      (c8Rows [⟨"piano", 3600000⟩, ⟨"walk", 1800000⟩] []
          [⟨"Piano", none, 60000⟩] ++
        unmatchedGoalRows [⟨"piano", 3600000⟩, ⟨"walk", 1800000⟩]
          [⟨"Piano", none, 60000⟩]) :=
  mergeActivityDurationsWithGoals_join_spec [⟨"Piano", none, 60000⟩]
    [⟨"piano", 3600000⟩, ⟨"walk", 1800000⟩] (by decide)

theorem lookupField_as_assoc (fs : List (String × Yaml)) (k : String) :
    lookupField fs k = lookupAssoc fs k := rfl

theorem mapM_ok {α : Type} (g : α → Except String α) (xs : List α)
    (h : ∀ x ∈ xs, g x = Except.ok x) : xs.mapM g = Except.ok xs := by
  induction xs with
  | nil => rfl
  | cons x xs ih =>
    rw [List.mapM_cons, h x (List.mem_cons_self x xs),
      ih (fun y hy => h y (List.mem_cons_of_mem _ hy))]
    rfl

theorem mapM_map_ok {α β : Type} (f : α → β) (g : β → Except String α)
    (xs : List α) (h : ∀ x ∈ xs, g (f x) = Except.ok x) :
    (xs.map f).mapM g = Except.ok xs := by
  induction xs with
  | nil => rfl
  | cons x xs ih =>
    rw [List.map_cons, List.mapM_cons, h x (List.mem_cons_self x xs),
      ih (fun y hy => h y (List.mem_cons_of_mem _ hy))]
    rfl

theorem parseLogEntryY_encode {e : LogEntry} (h : validLogEntry e = true) :
    parseLogEntryY (encodeLogEntry e) = Except.ok e := by
  cases e with
  | mk s t =>
    cases t with
    | none =>
      have hs : isStrictIso s = true := by
        simpa [validLogEntry] using h
      simp [encodeLogEntry, parseLogEntryY, lookupField, List.find?, hs]
    | some en =>
      have hs : isStrictIso s = true ∧ isStrictIso en = true := by
        simpa [validLogEntry, Bool.and_eq_true] using h
      simp [encodeLogEntry, parseLogEntryY, lookupField, List.find?,
        hs.1, hs.2]

theorem attrSchemas_nodup :
    ∀ p ∈ activityAttributeSchemas, (p.2.map Prod.fst).Nodup := by decide

theorem assoc_lookup_of_nodup {α : Type} {fields : List (String × α)}
    (hnd : (fields.map Prod.fst).Nodup) {fk : String × α}
    (hmem : fk ∈ fields) : lookupAssoc fields fk.1 = some fk.2 := by
  induction fields with
  | nil => cases hmem
  | cons f fs ih =>
    rw [List.map_cons, List.nodup_cons] at hnd
    cases hmem with
    | head => exact lookupAssoc_cons_of_pos _ (by simp)
    | tail _ hm =>
      by_cases he : (f.1 == fk.1) = true
      · exfalso
        have : f.1 ∈ fs.map Prod.fst := by
          rw [eq_of_beq he]
          exact List.mem_map_of_mem Prod.fst hm
        exact hnd.1 this
      · rw [lookupAssoc_cons_of_neg _ (Bool.not_eq_true _ ▸ he)]
        exact ih hnd.2 hm

theorem parseExtraField_canonical {kv : String × Yaml}
    (h : canonicalExtraField kv = true) : parseExtraField kv = Except.ok kv := by
  have h2 := (Bool.and_eq_true _ _).mp ((by
    simpa only [canonicalExtraField] using h :
      (decide ¬ structuredActivityKey kv.1 = true &&
        (if kv.1 == "details" then
           (match kv.2 with
            | .obj _ => true
            | _ => false)
         else
           match lookupAssoc activityAttributeSchemas kv.1 with
           | some fields =>
             (match kv.2 with
              | .obj fs =>
                fs.all (fun f =>
                  match lookupAssoc fields f.1 with
                  | some kind => checkFieldKind kind f.2
                  | none => false)
              | _ => false)
           | none => true)) = true))
  have hbody := h2.2
  unfold parseExtraField
  by_cases hd : (kv.1 == "details") = true
  · rw [if_pos hd]
    rw [if_pos hd] at hbody
    cases hv : kv.2 with
    | obj fs => rfl
    | nul => rw [hv] at hbody; simp at hbody
    | bool b => rw [hv] at hbody; simp at hbody
    | num n => rw [hv] at hbody; simp at hbody
    | str s => rw [hv] at hbody; simp at hbody
    | arr xs => rw [hv] at hbody; simp at hbody
  · rw [if_neg hd]
    rw [if_neg hd] at hbody
    cases hl : lookupAssoc activityAttributeSchemas kv.1 with
    | none => rfl
    | some fields =>
      rw [hl] at hbody
      have hnd : (fields.map Prod.fst).Nodup :=
        attrSchemas_nodup _ (lookupAssoc_mem hl)
      cases hv : kv.2 with
      | obj fs =>
        rw [hv] at hbody
        have hbody2 : fs.all (fun f =>
            match lookupAssoc fields f.1 with
            | some kind => checkFieldKind kind f.2
            | none => false) = true := hbody
        have hall := List.all_eq_true.mp hbody2
        have hcond : fields.all (fun fk =>
            match lookupField fs fk.1 with
            | none => true
            | some v => checkFieldKind fk.2 v) = true := by
          rw [List.all_eq_true]
          intro fk hfk
          show (match lookupField fs fk.1 with
            | none => true
            | some v => checkFieldKind fk.2 v) = true
          cases hff : fs.find? (fun f => f.1 == fk.1) with
          | none =>
            have : lookupField fs fk.1 = none := by
              simp [lookupField, hff]
            rw [this]
          | some f0 =>
            have hlf : lookupField fs fk.1 = some f0.2 := by
              simp [lookupField, hff]
            rw [hlf]
            have hm0 := List.mem_of_find?_eq_some hff
            have hp0 : (f0.1 == fk.1) = true := by
              have t := List.find?_some hff
              exact t
            have hf0 := hall f0 hm0
            rw [eq_of_beq hp0] at hf0
            rw [assoc_lookup_of_nodup hnd hfk] at hf0
            exact hf0
        have hfilt : fs.filter
            (fun f => (lookupAssoc fields f.1).isSome) = fs := by
          apply List.filter_eq_self.mpr
          intro f hf
          have := hall f hf
          cases hla : lookupAssoc fields f.1 with
          | none => rw [hla] at this; simp at this
          | some kind => simp [hla]
        have hbag : checkAttrBag fields (Yaml.obj fs) =
            Except.ok (Yaml.obj fs) := by
          simp only [checkAttrBag]
          rw [if_pos hcond, hfilt]
        show (checkAttrBag fields (Yaml.obj fs)).map
            (fun v => (kv.1, v)) = Except.ok kv
        rw [hbag]
        rw [← hv]
        rfl
      | nul => rw [hv] at hbody; simp at hbody
      | bool b => rw [hv] at hbody; simp at hbody
      | num n => rw [hv] at hbody; simp at hbody
      | str s => rw [hv] at hbody; simp at hbody
      | arr xs => rw [hv] at hbody; simp at hbody

theorem except_ok_bind {α β : Type} (a : α) (f : α → Except String β) :
    (Except.ok a >>= f) = f a := rfl

theorem except_map_ok {α β : Type} (f : α → β) (a : α) :
    (Except.ok a : Except String α).map f = Except.ok (f a) := rfl

theorem canonical_first {kv : String × Yaml}
    (h : canonicalExtraField kv = true) :
    structuredActivityKey kv.1 = false := by
  unfold canonicalExtraField at h
  have h1 := ((Bool.and_eq_true _ _).mp h).1
  have h2 := of_decide_eq_true h1
  exact Bool.not_eq_true _ ▸ h2

theorem parseActivityY_encode {a : Activity}
    (h : schemaValidActivity a = true) :
    parseActivityY (encodeActivity a) = Except.ok a := by
  obtain ⟨act, log, tids, notes, qual, extra⟩ := a
  have h3 : (tids.isSome = true ∧ (log.getD []).all validLogEntry = true) ∧
      extra.all canonicalExtraField = true := by
    simpa [schemaValidActivity, Bool.and_eq_true] using h
  obtain ⟨⟨htids, hlogv⟩, hextv⟩ := h3
  cases tids with
  | none => simp at htids
  | some ids =>
    have hexcan := List.all_eq_true.mp hextv
    have hexparse : extra.mapM parseExtraField = Except.ok extra :=
      mapM_ok _ extra (fun kv hkv => parseExtraField_canonical (hexcan kv hkv))
    have hfex : extra.filter (fun kv => !structuredActivityKey kv.1) =
        extra := by
      apply List.filter_eq_self.mpr
      intro kv hkv
      simp [canonical_first (hexcan kv hkv)]
    have hexfind : ∀ k : String, structuredActivityKey k = true →
        extra.find? (fun kv => kv.1 == k) = none := by
      intro k hk
      rw [List.find?_eq_none]
      intro kv hkv hbeq
      have h1 := canonical_first (hexcan kv hkv)
      rw [eq_of_beq hbeq, hk] at h1
      exact Bool.noConfusion h1
    have htidp : (ids.map Yaml.str).mapM (fun (x : Yaml) =>
        match x with
        | .str s => Except.ok s
        | _ => Except.error "invalid task id") = Except.ok ids :=
      mapM_map_ok _ _ ids (fun x _ => rfl)
    have htidp2 : List.mapM.loop (fun (x : Yaml) =>
        match x with
        | .str s => Except.ok s
        | _ => Except.error "invalid task id") (ids.map Yaml.str) [] =
        Except.ok ids := htidp
    have hexparse2 : List.mapM.loop parseExtraField extra [] =
        Except.ok extra := hexparse
    have hsA : structuredActivityKey "activity" = true := rfl
    have hsL : structuredActivityKey "log" = true := rfl
    have hsT : structuredActivityKey "taskIds" = true := rfl
    have hsN : structuredActivityKey "notes" = true := rfl
    have hsQ : structuredActivityKey "quality" = true := rfl
    have hfA := hexfind "activity" (by decide)
    have hfL := hexfind "log" (by decide)
    have hfT := hexfind "taskIds" (by decide)
    have hfN := hexfind "notes" (by decide)
    have hfQ := hexfind "quality" (by decide)
    cases log with
    | none =>
      cases notes <;> cases qual <;>
        simp [encodeActivity, parseActivityY, lookupField,
          List.find?_append, hfA, hfL, hfT, hfN, hfQ, hexparse2, hfex,
          htidp2, except_ok_bind, except_map_ok, hsA, hsL, hsT, hsN, hsQ]
    | some ls =>
      have hlsv := List.all_eq_true.mp hlogv
      have hlsparse : (ls.map encodeLogEntry).mapM parseLogEntryY =
          Except.ok ls :=
        mapM_map_ok _ _ ls (fun e he => parseLogEntryY_encode (hlsv e he))
      have hlsparse2 : List.mapM.loop parseLogEntryY
          (ls.map encodeLogEntry) [] = Except.ok ls := hlsparse
      cases notes <;> cases qual <;>
        simp [encodeActivity, parseActivityY, lookupField,
          List.find?_append, hfA, hfL, hfT, hfN, hfQ, hexparse2, hfex,
          htidp2, hlsparse2, except_ok_bind, except_map_ok,
          hsA, hsL, hsT, hsN, hsQ]

theorem lookupAssoc_append_left {α : Type} {m : List (String × α)}
    {k : String} {v : α} (m' : List (String × α))
    (h : lookupAssoc m k = some v) : lookupAssoc (m ++ m') k = some v := by
  cases hf : m.find? (fun kv => kv.1 == k) with
  | none => exfalso; simp [lookupAssoc, hf] at h
  | some kv =>
    simp only [lookupAssoc, List.find?_append, hf] at h ⊢
    exact h

theorem normalizeActivities_id {fs : List (String × Yaml)}
    (h : ∀ v, lookupAssoc fs "planner" = some v → yamlTruthy v = false) :
    normalizeActivities (.obj fs) = .obj fs := by
  simp only [normalizeActivities, lookupField_as_assoc]
  cases hpl : lookupAssoc fs "planner" with
  | none => rfl
  | some v => simp [h v hpl]

/-- Claim C6 (amended): the round trip holds for collections in the
canonical schema image (`schemaValidProps`) with no truthy legacy
`planner` key: reparsing the serialized block content gives back the
collection exactly.  A collection carrying a truthy `planner`
passthrough key is rewritten by `normalizeActivities` before schema
validation, so its round trip is not the identity (see the
counterexample). -/
theorem roundTripProps_ok_of_schemaValid (p : Props)
    (hs : schemaValidProps p = true) (hp : noTruthyPlanner p = true) :
    roundTripProps p = Except.ok p := by
  obtain ⟨acts, extra⟩ := p
  have h2 : (acts.getD []).all schemaValidActivity = true ∧
      extra.all (fun kv => kv.1 != "activities") = true := by
    simpa [schemaValidProps, Bool.and_eq_true] using hs
  obtain ⟨hacts, hext⟩ := h2
  have hkeys : ∀ kv ∈ extra, (kv.1 == "activities") = false := by
    intro kv hkv
    have := List.all_eq_true.mp hext kv hkv
    simpa [bne] using this
  have hfilt : extra.filter (fun kv => kv.1 != "activities") = extra :=
    List.filter_eq_self.mpr (fun kv hkv => List.all_eq_true.mp hext kv hkv)
  have hexlook : lookupAssoc extra "activities" = none := by
    have h4 : lookupField extra "activities" = none :=
      lookupField_none_of_keys hkeys
    rw [lookupField_as_assoc] at h4
    exact h4
  have hplanner : ∀ v, lookupAssoc extra "planner" = some v →
      yamlTruthy v = false := by
    intro v hv
    simp only [noTruthyPlanner] at hp
    rw [show lookupAssoc extra "planner" = some v from hv] at hp
    have h5 := of_decide_eq_true hp
    exact Bool.not_eq_true _ ▸ h5
  cases acts with
  | none =>
    simp only [roundTripProps, toMarkdownYaml, List.append_nil]
    rw [normalizeActivities_id hplanner]
    simp only [parsePropsY, lookupField_as_assoc]
    rw [hexlook]
    show Except.ok (⟨none,
        extra.filter (fun kv => kv.1 != "activities")⟩ : Props) =
      Except.ok ⟨none, extra⟩
    rw [hfilt]
  | some as =>
    have hacts2 : as.all schemaValidActivity = true := hacts
    have hmapM : (as.map encodeActivity).mapM parseActivityY =
        Except.ok as :=
      mapM_map_ok _ _ as (fun a ha =>
        parseActivityY_encode (List.all_eq_true.mp hacts2 a ha))
    simp only [roundTripProps, toMarkdownYaml]
    have hplE : ∀ v, lookupAssoc
        (extra ++ [("activities", Yaml.arr (as.map encodeActivity))])
        "planner" = some v → yamlTruthy v = false := by
      intro v hv
      cases hpl : lookupAssoc extra "planner" with
      | none =>
        rw [lookupAssoc_append_right _ hpl] at hv
        exact absurd hv (by simp [lookupAssoc])
      | some w =>
        rw [lookupAssoc_append_left _ hpl] at hv
        cases hv
        exact hplanner _ hpl
    rw [normalizeActivities_id hplE]
    simp only [parsePropsY, lookupField_as_assoc]
    rw [lookupAssoc_append_right _ hexlook, lookupAssoc_self_singleton]
    show ((as.map encodeActivity).mapM parseActivityY).map
        (fun acts => (⟨some acts,
          (extra ++ [("activities", Yaml.arr (as.map encodeActivity))]).filter
            (fun kv => kv.1 != "activities")⟩ : Props)) =
      Except.ok ⟨some as, extra⟩
    rw [hmapM, except_map_ok, List.filter_append, hfilt]
    show Except.ok (⟨some as, extra ++ []⟩ : Props) =
      Except.ok ⟨some as, extra⟩
    rw [List.append_nil]

/-- Claim C6 counterexample: `plannerProps` is a schema-valid collection
with a (truthy) legacy `planner` passthrough key; `normalizeActivities`
consumes the key during reparsing, so the round trip drops it and the
reparse differs from the original collection. -/
theorem planner_key_not_round_tripped :
    schemaValidProps plannerProps = true ∧
      roundTripProps plannerProps ≠ Except.ok plannerProps := by
  refine ⟨by decide, ?_⟩
  intro h
  have heval : roundTripProps plannerProps =
      Except.ok (⟨some [], []⟩ : Props) := rfl
  rw [heval] at h
  injection h with h3
  have h4 := congrArg Props.extra h3
  exact List.noConfusion h4

/-- Witness for the amended C6 at the concrete collection `c6props`. -/
theorem roundTripProps_ok_of_schemaValid_witness :
    roundTripProps c6props = Except.ok c6props :=
  roundTripProps_ok_of_schemaValid c6props (by decide) (by decide)

theorem getD_last_append (l : List String) (x : String) :
    (l ++ [x]).getD ((l ++ [x]).length - 1) "" = x := by
  induction l with
  | nil => rfl
  | cons a as ih =>
    rw [List.cons_append]
    have hlen : ((a :: (as ++ [x])).length - 1) =
        ((as ++ [x]).length - 1) + 1 := by
      simp [List.length_append]
    rw [hlen, List.getD_cons_succ, ih]

theorem ensure_trailing_blank (lines : List String) :
    ∃ l', ensureActivitiesHeading lines = l' ++ [""] := by
  unfold ensureActivitiesHeading
  by_cases h0 : (lines.length == 0) = true
  · rw [if_pos h0]
    exact ⟨["# " ++ capFirst activitiesHeading], rfl⟩
  · rw [if_neg h0]
    by_cases h1 : (trimS (lines.getD (lines.length - 1) "")).length > 0
    · rw [if_pos h1]
      exact ⟨lines ++ ["", "# " ++ capFirst activitiesHeading], by simp⟩
    · rw [if_neg h1]
      exact ⟨lines ++ ["# " ++ capFirst activitiesHeading], by simp⟩

theorem insertBlock_at_end (W B : List String)
    (h : ∃ l', W = l' ++ [""]) :
    insertBlock W B W.length = W ++ B := by
  obtain ⟨l', rfl⟩ := h
  simp only [insertBlock]
  rw [List.take_length, List.drop_length, getD_last_append]
  simp [show trimS "" = "" from rfl]

theorem scanIdxP_empty (p : Nat → Bool) (n : Nat) : scanIdxP p n n = none := by
  unfold scanIdxP
  rw [Nat.sub_self]
  rfl

/-- Claim C4 (amended): when the document has no heading whose trimmed
text case-insensitively equals "activities", `findActivitiesSection`
returns the empty section at the end of the document — not the whole
document — so `findExistingBlock` never finds an existing block there,
and `upsertActivitiesBlock` always synthesizes the heading and appends
a fresh block built from `updateFn({})` at the end; an activities block
already present elsewhere in the document is neither parsed nor
replaced (see the counterexample). -/
theorem upsert_no_heading_appends (parseYamlS : String → Except String Yaml)
    (fileText : String) (updateFn : Props → Props)
    (h : (splitLines fileText).findIdx? isActivitiesHeadingLine = none) :
    findActivitiesSection (splitLines fileText) =
      ⟨(splitLines fileText).length, (splitLines fileText).length,
        none, none⟩ ∧
    findExistingBlock (splitLines fileText)
      (findActivitiesSection (splitLines fileText)) = none ∧
    upsertActivitiesBlock parseYamlS fileText updateFn =
      joinLines (ensureActivitiesHeading (splitLines fileText) ++
        splitLines (toMarkdown (updateFn emptyProps))) := by
  have hsec : findActivitiesSection (splitLines fileText) =
      ⟨(splitLines fileText).length, (splitLines fileText).length,
        none, none⟩ := by
    simp only [findActivitiesSection, h]
  have hfe : findExistingBlock (splitLines fileText)
      ⟨(splitLines fileText).length, (splitLines fileText).length,
        none, none⟩ = none := by
    simp only [findExistingBlock]
    rw [scanIdxP_empty]
  refine ⟨hsec, by rw [hsec]; exact hfe, ?_⟩
  simp only [upsertActivitiesBlock]
  rw [hsec, hfe]
  show joinLines
      (insertBlock (ensureActivitiesHeading (splitLines fileText))
        (splitLines (toMarkdown (updateFn emptyProps)))
        (ensureActivitiesHeading (splitLines fileText)).length) = _
  rw [insertBlock_at_end _ _ (ensure_trailing_blank _)]

/-- Claim C4 counterexample: `c4doc` has no activities heading but holds
a complete fenced activities block; the locator's fallback section is
empty, the block is not found, and the upsert appends a second block
under a synthesized heading instead of replacing the existing one. -/
theorem no_heading_existing_block_ignored_counterexample :
    (splitLines c4doc).findIdx? isActivitiesHeadingLine = none ∧
    countBlocksSeg (splitLines c4doc) = 1 ∧
    (findExistingBlock (splitLines c4doc)
      (findActivitiesSection (splitLines c4doc))).isNone = true ∧
    countBlocksSeg
      (splitLines (upsertActivitiesBlock c4parse c4doc id)) = 2 ∧
    (splitLines (upsertActivitiesBlock c4parse c4doc id)).countP
      isActivitiesHeadingLine = 1 := by decide

/-- Witness for the amended C4 on a concrete heading-less document. -/
theorem upsert_no_heading_appends_witness :
    (splitLines "hello").findIdx? isActivitiesHeadingLine = none ∧
    upsertActivitiesBlock c4parse "hello" id =
      joinLines (ensureActivitiesHeading (splitLines "hello") ++
        splitLines (toMarkdown (id emptyProps))) :=
  ⟨by decide,
    (upsert_no_heading_appends c4parse "hello" id (by decide)).2.2⟩

theorem bool_not_true {b : Bool} (h : ¬ b = true) : b = false := by
  cases b
  · rfl
  · exact absurd rfl h

theorem scanAux_none (p : Nat → Bool) (hi : Nat) :
    ∀ (fuel lo : Nat), (∀ j, lo ≤ j → j < hi → p j = false) →
      scanAux p hi fuel lo = none := by
  intro fuel
  induction fuel with
  | zero => intro lo _; rfl
  | succ fuel ih =>
    intro lo h
    unfold scanAux
    by_cases hlt : lo < hi
    · rw [if_pos hlt, h lo (Nat.le_refl lo) hlt, if_neg (by simp)]
      exact ih (lo + 1) (fun j hj1 hj2 => h j (Nat.le_of_succ_le hj1) hj2)
    · rw [if_neg hlt]

theorem scanAux_some (p : Nat → Bool) (hi j0 : Nat) (hp : p j0 = true) :
    ∀ (fuel lo : Nat), hi ≤ lo + fuel → lo ≤ j0 → j0 < hi →
      (∀ j, lo ≤ j → j < j0 → p j = false) →
      scanAux p hi fuel lo = some j0 := by
  intro fuel
  induction fuel with
  | zero =>
    intro lo hfuel h1 h2 _
    omega
  | succ fuel ih =>
    intro lo hfuel h1 h2 h3
    unfold scanAux
    rw [if_pos (Nat.lt_of_le_of_lt h1 h2)]
    by_cases heq : lo = j0
    · subst heq
      rw [hp, if_pos rfl]
    · have hlt : lo < j0 := Nat.lt_of_le_of_ne h1 heq
      rw [h3 lo (Nat.le_refl lo) hlt, if_neg (by simp)]
      exact ih (lo + 1) (by omega) hlt h2
        (fun j hj1 hj2 => h3 j (Nat.le_of_succ_le hj1) hj2)

theorem scanAux_some_inv (p : Nat → Bool) (hi : Nat) :
    ∀ (fuel lo j0 : Nat), scanAux p hi fuel lo = some j0 →
      lo ≤ j0 ∧ j0 < hi ∧ p j0 = true ∧
        ∀ j, lo ≤ j → j < j0 → p j = false := by
  intro fuel
  induction fuel with
  | zero => intro lo j0 h; exact absurd h (by simp [scanAux])
  | succ fuel ih =>
    intro lo j0 h
    unfold scanAux at h
    by_cases hlt : lo < hi
    · rw [if_pos hlt] at h
      by_cases hp : p lo = true
      · rw [hp, if_pos rfl] at h
        cases h
        exact ⟨Nat.le_refl _, hlt, hp, fun j hj1 hj2 => absurd hj2 (by omega)⟩
      · rw [bool_not_true hp, if_neg (by simp)] at h
        obtain ⟨ih1, ih2, ih3, ih4⟩ := ih (lo + 1) j0 h
        refine ⟨Nat.le_of_succ_le ih1, ih2, ih3, ?_⟩
        intro j hj1 hj2
        by_cases hj : lo = j
        · subst hj; exact bool_not_true hp
        · exact ih4 j (by omega) hj2
    · rw [if_neg hlt] at h; cases h

theorem scanAux_none_inv (p : Nat → Bool) (hi : Nat) :
    ∀ (fuel lo : Nat), hi ≤ lo + fuel → scanAux p hi fuel lo = none →
      ∀ j, lo ≤ j → j < hi → p j = false := by
  intro fuel
  induction fuel with
  | zero => intro lo hfuel _ j hj1 hj2; omega
  | succ fuel ih =>
    intro lo hfuel h j hj1 hj2
    unfold scanAux at h
    have hlt : lo < hi := Nat.lt_of_le_of_lt hj1 hj2
    rw [if_pos hlt] at h
    by_cases hp : p lo = true
    · rw [hp, if_pos rfl] at h; cases h
    · by_cases hj : lo = j
      · subst hj; exact bool_not_true hp
      · rw [bool_not_true hp, if_neg (by simp)] at h
        exact ih (lo + 1) (by omega) h j (by omega) hj2

theorem scanIdxP_none (p : Nat → Bool) (lo hi : Nat)
    (h : ∀ j, lo ≤ j → j < hi → p j = false) : scanIdxP p lo hi = none :=
  scanAux_none p hi (hi - lo) lo h

theorem scanIdxP_some (p : Nat → Bool) (lo hi j0 : Nat) (hp : p j0 = true)
    (h1 : lo ≤ j0) (h2 : j0 < hi)
    (h3 : ∀ j, lo ≤ j → j < j0 → p j = false) :
    scanIdxP p lo hi = some j0 :=
  scanAux_some p hi j0 hp (hi - lo) lo (by omega) h1 h2 h3

theorem scanIdxP_some_inv {p : Nat → Bool} {lo hi j0 : Nat}
    (h : scanIdxP p lo hi = some j0) :
    lo ≤ j0 ∧ j0 < hi ∧ p j0 = true ∧
      ∀ j, lo ≤ j → j < j0 → p j = false :=
  scanAux_some_inv p hi (hi - lo) lo j0 h

theorem scanIdxP_none_inv {p : Nat → Bool} {lo hi : Nat}
    (h : scanIdxP p lo hi = none) :
    ∀ j, lo ≤ j → j < hi → p j = false := by
  intro j hj1 hj2
  have hlo : lo < hi := Nat.lt_of_le_of_lt hj1 hj2
  exact scanAux_none_inv p hi (hi - lo) lo (by omega) h j hj1 hj2

theorem findIdx?_as_scan (p : String → Bool) (lines : List String) :
    lines.findIdx? p =
      scanIdxP (fun j => p (lines.getD j "")) 0 lines.length := by
  cases hf : lines.findIdx? p with
  | none =>
    have hall := List.findIdx?_eq_none_iff.mp hf
    symm
    apply scanIdxP_none
    intro j _ hj
    rw [List.getD_eq_getElem lines "" hj]
    exact hall _ (List.getElem_mem hj)
  | some i =>
    obtain ⟨hi, hpi, hprev⟩ := List.findIdx?_eq_some_iff_getElem.mp hf
    symm
    apply scanIdxP_some
    · rw [List.getD_eq_getElem lines "" hi]
      exact hpi
    · exact Nat.zero_le i
    · exact hi
    · intro j _ hj
      rw [List.getD_eq_getElem lines "" (Nat.lt_trans hj hi)]
      have := hprev j hj
      simpa using this

theorem getD_append_sides (l1 l2 : List String) (j : Nat) :
    (l1 ++ l2).getD j "" =
      if j < l1.length then l1.getD j "" else l2.getD (j - l1.length) "" := by
  rw [List.getD_eq_getElem?_getD, List.getElem?_append]
  split
  · rw [List.getD_eq_getElem?_getD]
  · rw [List.getD_eq_getElem?_getD]

theorem getD_take_lt (lines : List String) (a j : Nat) (h : j < a) :
    (lines.take a).getD j "" = lines.getD j "" := by
  rw [List.getD_eq_getElem?_getD, List.getElem?_take, if_pos h,
    ← List.getD_eq_getElem?_getD]

theorem getD_drop_add (lines : List String) (b m : Nat) :
    (lines.drop b).getD m "" = lines.getD (b + m) "" := by
  rw [List.getD_eq_getElem?_getD, List.getElem?_drop,
    ← List.getD_eq_getElem?_getD]

theorem regionN_length {lines ins : List String} {a b : Nat}
    (ha : a ≤ lines.length) :
    (lines.take a ++ ins ++ lines.drop b).length =
      a + ins.length + (lines.length - b) := by
  simp [List.length_append, List.length_take, List.length_drop]
  omega

theorem regionN_getD_lt {lines ins : List String} {a b j : Nat}
    (ha : a ≤ lines.length) (hj : j < a) :
    (lines.take a ++ ins ++ lines.drop b).getD j "" = lines.getD j "" := by
  rw [getD_append_sides, if_pos (by simp [List.length_append]; omega),
    getD_append_sides, if_pos (by simp [List.length_take]; omega),
    getD_take_lt lines a j hj]

theorem regionN_getD_mid {lines ins : List String} {a b j : Nat}
    (ha : a ≤ lines.length) (h1 : a ≤ j) (h2 : j < a + ins.length) :
    (lines.take a ++ ins ++ lines.drop b).getD j "" =
      ins.getD (j - a) "" := by
  rw [getD_append_sides, if_pos (by simp [List.length_append]; omega),
    getD_append_sides, if_neg (by simp [List.length_take]; omega)]
  congr 1
  simp [List.length_take]
  omega

theorem regionN_getD_right {lines ins : List String} {a b j : Nat}
    (ha : a ≤ lines.length) (h : a + ins.length ≤ j) :
    (lines.take a ++ ins ++ lines.drop b).getD j "" =
      lines.getD (j - a - ins.length + b) "" := by
  rw [getD_append_sides,
    if_neg (by simp [List.length_append, List.length_take]; omega),
    getD_drop_add]
  congr 1
  simp [List.length_append, List.length_take]
  omega

theorem countFold_shift (L : List String) : ∀ (s : Bool) (c : Nat),
    L.foldl countBlockStep (s, c) =
      ((L.foldl countBlockStep (s, 0)).1,
        c + (L.foldl countBlockStep (s, 0)).2) := by
  induction L with
  | nil => intro s c; simp
  | cons l L ih =>
    intro s c
    rw [List.foldl_cons, List.foldl_cons]
    cases s
    · by_cases ho : isFenceOpenLine l = true
      · have e1 : countBlockStep (false, c) l = (true, c) := by
          simp [countBlockStep, ho]
        have e2 : countBlockStep (false, 0) l = (true, 0) := by
          simp [countBlockStep, ho]
        rw [e1, e2, ih true c]
      · have e1 : countBlockStep (false, c) l = (false, c) := by
          simp [countBlockStep, bool_not_true ho]
        have e2 : countBlockStep (false, 0) l = (false, 0) := by
          simp [countBlockStep, bool_not_true ho]
        rw [e1, e2, ih false c]
    · by_cases hf : isFenceLine l = true
      · have e1 : countBlockStep (true, c) l = (false, c + 1) := by
          simp [countBlockStep, hf]
        have e2 : countBlockStep (true, 0) l = (false, 1) := by
          simp [countBlockStep, hf]
        rw [e1, e2, ih false (c + 1), ih false 1, Nat.add_assoc]
      · have e1 : countBlockStep (true, c) l = (true, c) := by
          simp [countBlockStep, bool_not_true hf]
        have e2 : countBlockStep (true, 0) l = (true, 0) := by
          simp [countBlockStep, bool_not_true hf]
        rw [e1, e2, ih true c]

theorem countBlocksSeg_append (X Y : List String)
    (h : (X.foldl countBlockStep (false, 0)).1 = false) :
    countBlocksSeg (X ++ Y) = countBlocksSeg X + countBlocksSeg Y := by
  unfold countBlocksSeg
  rw [List.foldl_append]
  rw [show X.foldl countBlockStep (false, 0) =
    ((X.foldl countBlockStep (false, 0)).1,
      (X.foldl countBlockStep (false, 0)).2) from rfl, h]
  rw [countFold_shift Y false (X.foldl countBlockStep (false, 0)).2]

theorem countFold_no_open (X : List String)
    (h : ∀ l ∈ X, isFenceOpenLine l = false) :
    X.foldl countBlockStep (false, 0) = (false, 0) := by
  induction X with
  | nil => rfl
  | cons l L ih =>
    rw [List.foldl_cons]
    have e : countBlockStep (false, 0) l = (false, 0) := by
      simp [countBlockStep, h l (List.mem_cons_self _ _)]
    rw [e]
    exact ih (fun x hx => h x (List.mem_cons_of_mem _ hx))

theorem countFold_no_fence (X : List String)
    (h : ∀ l ∈ X, isFenceLine l = false) :
    ∀ c : Nat, X.foldl countBlockStep (true, c) = (true, c) := by
  induction X with
  | nil => intro c; rfl
  | cons l L ih =>
    intro c
    rw [List.foldl_cons]
    have e : countBlockStep (true, c) l = (true, c) := by
      simp [countBlockStep, h l (List.mem_cons_self _ _)]
    rw [e]
    exact ih (fun x hx => h x (List.mem_cons_of_mem _ hx)) c

theorem fence_open_is_fence {l : String} (h : isFenceOpenLine l = true) :
    isFenceLine l = true := by
  unfold isFenceOpenLine at h
  unfold isFenceLine
  unfold startsWithS at h ⊢
  rw [List.isPrefixOf_iff_prefix] at h ⊢
  exact List.IsPrefix.trans ⟨"activities".data, rfl⟩ h

theorem digitChar_ok {k : Nat} (h : k ≤ 9) : safeChar (digitChar k) = true := by
  interval_cases k <;> decide

theorem digitsAux_ok : ∀ (fuel n : Nat), n ≤ fuel + 9 →
    (digitsAux fuel n).all safeChar = true := by
  intro fuel
  induction fuel with
  | zero =>
    intro n h
    have hd : safeChar (digitChar n) = true := digitChar_ok h
    show List.all [digitChar n] safeChar = true
    simp [hd]
  | succ fuel ih =>
    intro n h
    unfold digitsAux
    by_cases hn : n < 10
    · rw [if_pos hn]
      have hd : safeChar (digitChar n) = true := digitChar_ok (by omega)
      simp [hd]
    · rw [if_neg hn]
      rw [List.all_append]
      have h1 := ih (n / 10) (by omega)
      have h2 : safeChar (digitChar (n % 10)) = true :=
        digitChar_ok (by omega)
      simp [h1, h2]

theorem intChars_ok (n : Int) : (intChars n).all safeChar = true := by
  unfold intChars natDigitChars
  by_cases hn : n < 0
  · rw [if_pos hn]
    rw [List.all_cons]
    have h1 := digitsAux_ok n.natAbs n.natAbs (by omega)
    have h2 : safeChar '-' = true := by decide
    simp [h1, h2]
  · rw [if_neg hn]
    exact digitsAux_ok n.natAbs n.natAbs (by omega)

theorem ws_ne_hash {c : Char} (h : wsChar c = true) : (c == '#') = false := by
  simp [wsChar] at h
  rcases h with ((rfl | rfl) | rfl) | rfl <;> decide

theorem safeChars_rendOk {cs : List Char} (h : cs.all safeChar = true) :
    rendOk (String.mk cs) = true := by
  cases cs with
  | nil => decide
  | cons c rest =>
    rw [List.all_cons, Bool.and_eq_true] at h
    obtain ⟨hc, hrest⟩ := h
    have hsafe := (Bool.and_eq_true _ _).mp hc
    have hsafe2 := (Bool.and_eq_true _ _).mp hsafe.1
    have hsafe3 := (Bool.and_eq_true _ _).mp hsafe2.1
    -- hsafe3.1 : !wsChar c; hsafe3.2 : c != backtick; hsafe2.2 : c != hash
    -- hsafe.2 : c != newline
    have hws : wsChar c = false := by
      have := hsafe3.1
      cases hq : wsChar c
      · rfl
      · rw [hq] at this; exact absurd this (by decide)
    unfold rendOk safeLine noNl trimStartS
    show ((match (String.mk ((c :: rest).dropWhile wsChar)).data with
      | [] => true
      | c :: _ => c != '`' && c != '#') &&
      (c :: rest).all (fun x => x != '\n')) = true
    rw [List.dropWhile_cons, hws, if_neg (by decide)]
    show ((c != '`' && c != '#') && (c :: rest).all (fun x => x != '\n')) = true
    rw [List.all_cons]
    have hnl : (c != '\n') = true := hsafe.2
    have hall : rest.all (fun x => x != '\n') = true := by
      rw [List.all_eq_true]
      intro x hx
      have := List.all_eq_true.mp hrest x hx
      have h4 := (Bool.and_eq_true _ _).mp this
      exact h4.2
    simp [hsafe3.2, hsafe2.2, hnl, hall]

theorem escapeChar_noNl (c : Char) :
    (escapeChar c).all (fun x => x != '\n') = true := by
  unfold escapeChar
  by_cases h1 : c = '\n'
  · rw [if_pos h1]; decide
  · rw [if_neg h1]
    by_cases h2 : c = '\r'
    · rw [if_pos h2]; decide
    · rw [if_neg h2]
      by_cases h3 : c = '\t'
      · rw [if_pos h3]; decide
      · rw [if_neg h3]
        by_cases h4 : c = '\\'
        · rw [if_pos h4]; decide
        · rw [if_neg h4]
          by_cases h5 : c = '"'
          · rw [if_pos h5]; decide
          · rw [if_neg h5]
            show ((c != '\n') && true) = true
            simp [bne, h1]

theorem noNl_quoteStr (s : String) : noNl (quoteStr s) = true := by
  unfold noNl quoteStr
  show ('"' :: (s.data.flatMap escapeChar ++ ['"'])).all
    (fun x => x != '\n') = true
  rw [List.all_cons, List.all_append]
  have hmid : (s.data.flatMap escapeChar).all (fun x => x != '\n') = true := by
    rw [List.all_eq_true]
    intro x hx
    obtain ⟨c, _, hc⟩ := List.mem_flatMap.mp hx
    exact List.all_eq_true.mp (escapeChar_noNl c) x hc
  simp [hmid]

theorem safeLine_quote_head (rest : List Char) :
    safeLine (String.mk ('"' :: rest)) = true := by
  unfold safeLine trimStartS
  show (match ('"' :: rest).dropWhile wsChar with
    | [] => true
    | c :: _ => c != '`' && c != '#') = true
  rw [List.dropWhile_cons]
  rw [show wsChar '"' = false from rfl, if_neg (by decide)]
  rfl

theorem rendOk_quoteStr (s : String) : rendOk (quoteStr s) = true := by
  unfold rendOk
  rw [noNl_quoteStr]
  have h := safeLine_quote_head (s.data.flatMap escapeChar ++ ['"'])
  rw [show quoteStr s = String.mk
    ('"' :: (s.data.flatMap escapeChar ++ ['"'])) from rfl, h]
  rfl

theorem scalarText_ok {v : Yaml} {t : String} (h : scalarText v = some t) :
    rendOk t = true := by
  cases v with
  | nul => cases h; decide
  | bool b => cases b <;> (cases h; decide)
  | num n =>
    cases h
    exact safeChars_rendOk (intChars_ok n)
  | str s => cases h; exact rendOk_quoteStr s
  | arr xs =>
    cases xs with
    | nil => cases h; decide
    | cons x xs => exact absurd h (by simp [scalarText])
  | obj fs =>
    cases fs with
    | nil => cases h; decide
    | cons f fs => exact absurd h (by simp [scalarText])

theorem rendOk_indent {l : String} (h : rendOk l = true) :
    rendOk ("  " ++ l) = true := by
  have he : rendOk ("  " ++ l) = rendOk l := rfl
  rw [he, h]

theorem rendOk_dash {l : String} (h : noNl l = true) :
    rendOk ("- " ++ l) = true := by
  have he : rendOk ("- " ++ l) = noNl l := rfl
  rw [he, h]

theorem rendOk_noNl {l : String} (h : rendOk l = true) : noNl l = true :=
  ((Bool.and_eq_true _ _).mp h).2

theorem rendOk_safeLine {l : String} (h : rendOk l = true) :
    safeLine l = true :=
  ((Bool.and_eq_true _ _).mp h).1

theorem prefixFirst_ok {ls : List String}
    (h : ∀ l ∈ ls, rendOk l = true) :
    ∀ l ∈ prefixFirst "- " "  " ls, rendOk l = true := by
  cases ls with
  | nil => intro l hl; cases hl
  | cons x xs =>
    intro l hl
    unfold prefixFirst at hl
    rcases List.mem_cons.mp hl with rfl | hl2
    · exact rendOk_dash (rendOk_noNl (h x (List.mem_cons_self _ _)))
    · obtain ⟨y, hy, rfl⟩ := List.mem_map.mp hl2
      exact rendOk_indent (h y (List.mem_cons_of_mem _ hy))

theorem rendOk_obj_scalar_line (k : String) (t : String)
    (ht : rendOk t = true) : rendOk (quoteStr k ++ ": " ++ t) = true := by
  have hq : ∃ rest, (quoteStr k ++ ": " ++ t).data = '"' :: rest := by
    refine ⟨(k.data.flatMap escapeChar ++ ['"']) ++ ": ".data ++ t.data, ?_⟩
    show (('"' :: (k.data.flatMap escapeChar ++ ['"'])) ++ ": ".data ++
      t.data : List Char) = _
    simp
  obtain ⟨rest, hrest⟩ := hq
  unfold rendOk
  have hsl : safeLine (quoteStr k ++ ": " ++ t) = true := by
    unfold safeLine trimStartS
    rw [hrest]
    show (match ('"' :: rest).dropWhile wsChar with
      | [] => true
      | c :: _ => c != '`' && c != '#') = true
    rw [List.dropWhile_cons, show wsChar '"' = false from rfl,
      if_neg (by decide)]
    rfl
  have hnl : noNl (quoteStr k ++ ": " ++ t) = true := by
    unfold noNl
    rw [hrest]
    rw [show rest = (k.data.flatMap escapeChar ++ ['"']) ++ ": ".data ++
      t.data from by
        have := hrest
        rw [show (quoteStr k ++ ": " ++ t).data =
          ('"' :: (k.data.flatMap escapeChar ++ ['"'])) ++ ": ".data ++
            t.data from by simp [quoteStr]] at this
        exact (List.cons.injEq _ _ _ _).mp this |>.2.symm]
    rw [List.all_cons, List.all_append, List.all_append]
    have h1 : (k.data.flatMap escapeChar ++ ['"']).all
        (fun x => x != '\n') = true := by
      rw [List.all_append]
      have hmid : (k.data.flatMap escapeChar).all
          (fun x => x != '\n') = true := by
        rw [List.all_eq_true]
        intro x hx
        obtain ⟨c, _, hc⟩ := List.mem_flatMap.mp hx
        exact List.all_eq_true.mp (escapeChar_noNl c) x hc
      simp [hmid]
    have h2 : noNl t = true := ht |> rendOk_noNl
    unfold noNl at h2
    simp [h1, h2]
  rw [hsl, hnl]
  rfl

theorem rendOk_obj_key_line (k : String) :
    rendOk (quoteStr k ++ ":") = true := by
  have hrest : (quoteStr k ++ ":").data =
      '"' :: ((k.data.flatMap escapeChar ++ ['"']) ++ ":".data) := by
    show (('"' :: (k.data.flatMap escapeChar ++ ['"'])) ++ ":".data :
      List Char) = _
    simp
  unfold rendOk
  have hsl : safeLine (quoteStr k ++ ":") = true := by
    unfold safeLine trimStartS
    rw [hrest]
    rw [List.dropWhile_cons, show wsChar '"' = false from rfl,
      if_neg (by decide)]
    rfl
  have hnl : noNl (quoteStr k ++ ":") = true := by
    unfold noNl
    rw [hrest, List.all_cons, List.all_append, List.all_append]
    have hmid : (k.data.flatMap escapeChar).all
        (fun x => x != '\n') = true := by
      rw [List.all_eq_true]
      intro x hx
      obtain ⟨c, _, hc⟩ := List.mem_flatMap.mp hx
      exact List.all_eq_true.mp (escapeChar_noNl c) x hc
    simp [hmid]
  rw [hsl, hnl]
  rfl

theorem yamlLines_ok : ∀ y : Yaml,
    (∀ l ∈ yamlLines y, rendOk l = true) ∧ yamlLines y ≠ [] := by
  refine yamlLines.induct
    (fun y => (∀ l ∈ yamlLines y, rendOk l = true) ∧ yamlLines y ≠ [])
    (fun fs => ∀ l ∈ objLines fs, rendOk l = true)
    (fun xs => (∀ l ∈ arrLines xs, rendOk l = true) ∧
      (xs ≠ [] → arrLines xs ≠ []))
    ?_ ?_ ?_ ?_ ?_ ?_ ?_
  · intro x xs h
    exact ⟨h.1, h.2 (by simp)⟩
  · intro k v fs h
    refine ⟨h, ?_⟩
    show objLines ((k, v) :: fs) ≠ []
    cases hs : scalarText v <;> simp [objLines, hs]
  · intro y h1 h2
    cases y with
    | nul =>
      exact ⟨fun l hl => by rcases List.mem_singleton.mp hl with rfl; decide,
        List.cons_ne_nil _ _⟩
    | bool b =>
      cases b
      · exact ⟨fun l hl => by
          rcases List.mem_singleton.mp hl with rfl; decide,
          List.cons_ne_nil _ _⟩
      · exact ⟨fun l hl => by
          rcases List.mem_singleton.mp hl with rfl; decide,
          List.cons_ne_nil _ _⟩
    | num n =>
      exact ⟨fun l hl => by
        rcases List.mem_singleton.mp hl with rfl
        exact safeChars_rendOk (intChars_ok n),
        List.cons_ne_nil _ _⟩
    | str s =>
      exact ⟨fun l hl => by
        rcases List.mem_singleton.mp hl with rfl
        exact rendOk_quoteStr s,
        List.cons_ne_nil _ _⟩
    | arr xs =>
      cases xs with
      | nil =>
        exact ⟨fun l hl => by
          rcases List.mem_singleton.mp hl with rfl; decide,
          List.cons_ne_nil _ _⟩
      | cons x xs => exact (h1 x xs rfl).elim
    | obj fs =>
      cases fs with
      | nil =>
        exact ⟨fun l hl => by
          rcases List.mem_singleton.mp hl with rfl; decide,
          List.cons_ne_nil _ _⟩
      | cons f fs =>
        obtain ⟨k, v⟩ := f
        exact (h2 k v fs rfl).elim
  · exact ⟨fun l hl => absurd hl (List.not_mem_nil l),
      fun h => absurd rfl h⟩
  · intro x xs h1 h2
    constructor
    · intro l hl
      have hl2 : l ∈ prefixFirst "- " "  " (yamlLines x) ++ arrLines xs := hl
      rcases List.mem_append.mp hl2 with hm | hm
      · exact prefixFirst_ok h1.1 l hm
      · exact h2.1 l hm
    · intro _
      show prefixFirst "- " "  " (yamlLines x) ++ arrLines xs ≠ []
      cases hyl : yamlLines x with
      | nil => exact absurd hyl h1.2
      | cons a as => simp [prefixFirst]
  · exact fun l hl => absurd hl (List.not_mem_nil l)
  · intro k v fs h1 h2
    intro l hl
    have hl2 : l ∈ (match scalarText v with
      | some t => [quoteStr k ++ ": " ++ t]
      | none => (quoteStr k ++ ":") ::
          (yamlLines v).map (fun x => "  " ++ x)) ++ objLines fs := hl
    rcases List.mem_append.mp hl2 with hm | hm
    · cases hs : scalarText v with
      | some t =>
        rw [hs] at hm
        rcases List.mem_singleton.mp hm with rfl
        exact rendOk_obj_scalar_line k t (scalarText_ok hs)
      | none =>
        rw [hs] at hm
        rcases List.mem_cons.mp hm with rfl | hm2
        · exact rendOk_obj_key_line k
        · obtain ⟨y0, hy0, rfl⟩ := List.mem_map.mp hm2
          exact rendOk_indent (h1.1 y0 hy0)
    · exact h2 l hm

theorem intercalate_nl_cons_cons (a b : List Char) (l : List (List Char)) :
    List.intercalate ['\n'] (a :: b :: l) =
      a ++ '\n' :: List.intercalate ['\n'] (b :: l) := by
  simp [List.intercalate, List.intersperse]

theorem intercalate_nl_singleton (a : List Char) :
    List.intercalate ['\n'] [a] = a := by
  simp [List.intercalate]

theorem splitOnNl_cons (c : Char) (cs : List Char) :
    splitOnNl (c :: cs) =
      match splitOnNl cs with
      | [] => [[c]]
      | l :: ls => if c = '\n' then [] :: l :: ls else (c :: l) :: ls := rfl

theorem splitOnNl_ne_nil : ∀ cs : List Char, splitOnNl cs ≠ [] := by
  intro cs
  induction cs with
  | nil => simp [splitOnNl]
  | cons c rest ih =>
    rw [splitOnNl_cons]
    cases hs : splitOnNl rest with
    | nil => simp
    | cons l ls =>
      show (if c = '\n' then [] :: l :: ls else (c :: l) :: ls) ≠ []
      by_cases hc : c = '\n'
      · rw [if_pos hc]; simp
      · rw [if_neg hc]; simp

theorem splitOnNl_no_nl : ∀ cs : List Char, (∀ c ∈ cs, c ≠ '\n') →
    splitOnNl cs = [cs] := by
  intro cs
  induction cs with
  | nil => intro _; rfl
  | cons c rest ih =>
    intro h
    rw [splitOnNl_cons, ih (fun x hx => h x (List.mem_cons_of_mem _ hx))]
    show (if c = '\n' then [] :: rest :: ([] : List (List Char))
      else [c :: rest]) = [c :: rest]
    rw [if_neg (h c (List.mem_cons_self _ _))]

theorem splitOnNl_append_nl : ∀ (d rest : List Char), (∀ c ∈ d, c ≠ '\n') →
    splitOnNl (d ++ '\n' :: rest) = d :: splitOnNl rest := by
  intro d
  induction d with
  | nil =>
    intro rest _
    show splitOnNl ('\n' :: rest) = [] :: splitOnNl rest
    rw [splitOnNl_cons]
    cases hs : splitOnNl rest with
    | nil => exact absurd hs (splitOnNl_ne_nil rest)
    | cons l ls =>
      show (if ('\n' : Char) = '\n' then [] :: l :: ls
        else ('\n' :: l) :: ls) = [] :: l :: ls
      rw [if_pos rfl]
  | cons c d ih =>
    intro rest h
    show splitOnNl (c :: (d ++ '\n' :: rest)) = (c :: d) :: splitOnNl rest
    rw [splitOnNl_cons, ih rest (fun x hx => h x (List.mem_cons_of_mem _ hx))]
    show (if c = '\n' then [] :: d :: splitOnNl rest
      else (c :: d) :: splitOnNl rest) = (c :: d) :: splitOnNl rest
    rw [if_neg (h c (List.mem_cons_self _ _))]

theorem splitOnNl_intercalate : ∀ ds : List (List Char), ds ≠ [] →
    (∀ d ∈ ds, ∀ c ∈ d, c ≠ '\n') →
    splitOnNl (List.intercalate ['\n'] ds) = ds := by
  intro ds
  induction ds with
  | nil => intro h _; exact absurd rfl h
  | cons d ds ih =>
    intro _ h
    cases ds with
    | nil =>
      rw [intercalate_nl_singleton]
      exact splitOnNl_no_nl d (h d (List.mem_cons_self _ _))
    | cons e ds2 =>
      rw [intercalate_nl_cons_cons]
      rw [splitOnNl_append_nl d _ (h d (List.mem_cons_self _ _))]
      rw [ih (by simp) (fun x hx => h x (List.mem_cons_of_mem _ hx))]

theorem noNl_chars {l : String} (h : noNl l = true) :
    ∀ c ∈ l.data, c ≠ '\n' := by
  intro c hc heq
  have := List.all_eq_true.mp h c hc
  rw [heq] at this
  exact absurd this (by decide)

theorem map_mk_data (ls : List String) :
    (ls.map String.data).map String.mk = ls := by
  rw [List.map_map]
  have : (String.mk ∘ String.data) = fun l : String => l := by
    funext l
    rfl
  rw [this]
  exact List.map_id ls

theorem splitLines_joinLines (ls : List String) (hne : ls ≠ [])
    (h : ∀ l ∈ ls, noNl l = true) : splitLines (joinLines ls) = ls := by
  show (splitOnNl (List.intercalate ['\n'] (ls.map String.data))).map
    String.mk = ls
  rw [splitOnNl_intercalate (ls.map String.data)
    (by simpa using hne)
    (by
      intro d hd
      obtain ⟨l, hl, rfl⟩ := List.mem_map.mp hd
      exact noNl_chars (h l hl))]
  exact map_mk_data ls

theorem intercalate_nl_append_singleton :
    ∀ (ds : List (List Char)) (e : List Char), ds ≠ [] →
      List.intercalate ['\n'] (ds ++ [e]) =
        List.intercalate ['\n'] ds ++ '\n' :: e := by
  intro ds
  induction ds with
  | nil => intro e h; exact absurd rfl h
  | cons d ds ih =>
    intro e _
    cases ds with
    | nil =>
      rw [List.cons_append, List.nil_append, intercalate_nl_cons_cons,
        intercalate_nl_singleton, intercalate_nl_singleton]
    | cons d2 ds2 =>
      show List.intercalate ['\n'] (d :: d2 :: (ds2 ++ [e])) =
        List.intercalate ['\n'] (d :: d2 :: ds2) ++ '\n' :: e
      rw [intercalate_nl_cons_cons, intercalate_nl_cons_cons]
      show d ++ '\n' :: List.intercalate ['\n'] ((d2 :: ds2) ++ [e]) =
        (d ++ '\n' :: List.intercalate ['\n'] (d2 :: ds2)) ++ '\n' :: e
      rw [ih e (by simp), List.append_assoc]
      rfl

theorem intercalate_nl_cons_ne (X : List Char) (T : List (List Char))
    (h : T ≠ []) :
    List.intercalate ['\n'] (X :: T) =
      X ++ '\n' :: List.intercalate ['\n'] T := by
  cases T with
  | nil => exact absurd rfl h
  | cons Y T2 => rw [intercalate_nl_cons_cons]

theorem joinLines_flatten (f1 f2 : String) (m : List String) (hm : m ≠ []) :
    joinLines [f1, joinLines m, f2] = joinLines (f1 :: (m ++ [f2])) := by
  show String.mk (List.intercalate ['\n']
      [f1.data, (joinLines m).data, f2.data]) =
    String.mk (List.intercalate ['\n'] ((f1 :: (m ++ [f2])).map String.data))
  congr 1
  rw [intercalate_nl_cons_cons, intercalate_nl_cons_cons,
    intercalate_nl_singleton]
  show f1.data ++ '\n' ::
      (List.intercalate ['\n'] (m.map String.data) ++ '\n' :: f2.data) = _
  rw [← intercalate_nl_append_singleton (m.map String.data) f2.data
    (by simpa using hm)]
  rw [List.map_cons, List.map_append]
  rw [intercalate_nl_cons_ne _ _ (by simp [hm])]
  rfl

theorem splitLines_toMarkdown (p : Props) :
    splitLines (toMarkdown p) =
      (codeFence ++ "activities") ::
        (yamlLines (toMarkdownYaml p) ++ [codeFence]) := by
  obtain ⟨hok, hne⟩ := yamlLines_ok (toMarkdownYaml p)
  have h1 : toMarkdown p = joinLines ((codeFence ++ "activities") ::
      (yamlLines (toMarkdownYaml p) ++ [codeFence])) := by
    show joinLines [codeFence ++ "activities",
      joinLines (yamlLines (toMarkdownYaml p)), codeFence] = _
    exact joinLines_flatten _ _ _ hne
  rw [h1]
  apply splitLines_joinLines
  · simp
  · intro l hl
    rcases List.mem_cons.mp hl with rfl | hl2
    · decide
    · rcases List.mem_append.mp hl2 with hm | hm
      · exact rendOk_noNl (hok l hm)
      · rcases List.mem_singleton.mp hm with rfl
        decide

theorem createIndentedBlock_eq (ind : String) (p : Props) :
    createIndentedBlock ind p =
      (splitLines (toMarkdown p)).map (fun l => ind ++ l) := by
  simp only [createIndentedBlock]
  by_cases h : (ind == "") = true
  · rw [if_pos h, eq_of_beq h]
    have he : (fun l : String => "" ++ l) = fun l : String => l :=
      funext (fun l => rfl)
    rw [he]
    exact (List.map_id _).symm
  · rw [if_neg h]

theorem blockLines_struct (ind : String) (p : Props) :
    createIndentedBlock ind p =
      (ind ++ (codeFence ++ "activities")) ::
        ((yamlLines (toMarkdownYaml p)).map (fun l => ind ++ l) ++
          [ind ++ codeFence]) := by
  rw [createIndentedBlock_eq, splitLines_toMarkdown, List.map_cons,
    List.map_append]
  rfl

theorem dropWhile_ws_append : ∀ (d : List Char), d.all wsChar = true →
    ∀ cs, List.dropWhile wsChar (d ++ cs) = List.dropWhile wsChar cs := by
  intro d
  induction d with
  | nil => intro _ cs; rfl
  | cons c d ih =>
    intro h cs
    rw [List.all_cons, Bool.and_eq_true] at h
    rw [List.cons_append, List.dropWhile_cons, h.1, if_pos rfl]
    exact ih h.2 cs

theorem trimStart_ws_append {ind : String} (hws : ind.data.all wsChar = true)
    (l : String) : trimStartS (ind ++ l) = trimStartS l := by
  show String.mk (List.dropWhile wsChar (ind.data ++ l.data)) = _
  rw [dropWhile_ws_append ind.data hws l.data]
  rfl

theorem isFenceOpen_ind {ind : String} (hws : ind.data.all wsChar = true) :
    isFenceOpenLine (ind ++ (codeFence ++ "activities")) = true := by
  unfold isFenceOpenLine
  rw [trimStart_ws_append hws]
  decide

theorem isFence_ind_close {ind : String} (hws : ind.data.all wsChar = true) :
    isFenceLine (ind ++ codeFence) = true := by
  unfold isFenceLine
  rw [trimStart_ws_append hws]
  decide

theorem safeLine_not_fence {l : String} (h : safeLine l = true) :
    isFenceLine l = false := by
  unfold isFenceLine startsWithS
  unfold safeLine at h
  cases hd : (trimStartS l).data with
  | nil => rfl
  | cons c rest =>
    rw [hd] at h
    have h2 : (c != '`' && c != '#') = true := h
    have hcb : (c != '`') = true := ((Bool.and_eq_true _ _).mp h2).1
    have hne : ¬ c = '`' := by
      intro heq
      rw [heq] at hcb
      exact absurd hcb (by decide)
    show codeFence.data.isPrefixOf (c :: rest) = false
    show (('`' == c) && ("``".data.isPrefixOf rest)) = false
    rw [beq_eq_false_iff_ne.mpr (Ne.symm hne)]
    rfl

theorem safeLine_not_fence_ind {ind l : String}
    (hws : ind.data.all wsChar = true) (h : safeLine l = true) :
    isFenceLine (ind ++ l) = false := by
  unfold isFenceLine
  rw [trimStart_ws_append hws]
  exact safeLine_not_fence h

theorem safeLine_notHash {l : String} (h : safeLine l = true) :
    notHashLine l = true := by
  unfold safeLine at h
  unfold notHashLine
  cases hd : (trimStartS l).data with
  | nil => rfl
  | cons c rest =>
    rw [hd] at h
    have h2 : (c != '`' && c != '#') = true := h
    exact ((Bool.and_eq_true _ _).mp h2).2

theorem headingTokens_eq_none_of_head {m : String}
    (h : ∀ c, m.data.head? = some c → (c == '#') = false) :
    headingTokens m = none := by
  cases hm : m.data with
  | nil => simp [headingTokens, hm]
  | cons c rest =>
    have hc := h c (by rw [hm]; rfl)
    simp [headingTokens, hm, List.takeWhile_cons, hc]

theorem heading_none_ws_notHash {ind l : String}
    (hws : ind.data.all wsChar = true) (h : notHashLine l = true) :
    headingTokens (ind ++ l) = none := by
  apply headingTokens_eq_none_of_head
  intro c hc
  have hdata : (ind ++ l).data = ind.data ++ l.data := rfl
  rw [hdata] at hc
  cases hind : ind.data with
  | cons d ds =>
    rw [hind] at hc
    have hd : wsChar d = true := by
      rw [hind, List.all_cons, Bool.and_eq_true] at hws
      exact hws.1
    rw [List.cons_append] at hc
    cases hc
    exact ws_ne_hash hd
  | nil =>
    rw [hind, List.nil_append] at hc
    cases hl : l.data with
    | nil => rw [hl] at hc; cases hc
    | cons c0 rest =>
      rw [hl] at hc
      cases hc
      by_cases hw : wsChar c = true
      · exact ws_ne_hash hw
      · have htrim : (trimStartS l).data = c :: rest := by
          show (l.data.dropWhile wsChar) = c :: rest
          rw [hl, List.dropWhile_cons, bool_not_true hw, if_neg (by decide)]
        unfold notHashLine at h
        rw [htrim] at h
        have : ¬ c = '#' := by
          intro heq
          rw [heq] at h
          have h3 : (('#' : Char) != '#') = true := h
          exact absurd h3 (by decide)
        exact beq_eq_false_iff_ne.mpr this

theorem createIndentedBlock_empty (p : Props) :
    createIndentedBlock "" p = splitLines (toMarkdown p) := by
  rw [createIndentedBlock_eq]
  have he : (fun l : String => "" ++ l) = fun l : String => l :=
    funext (fun l => rfl)
  rw [he]
  exact List.map_id _

theorem blockLines_fold {ind : String} (p : Props)
    (hws : ind.data.all wsChar = true) :
    (createIndentedBlock ind p).foldl countBlockStep (false, 0) =
      (false, 1) := by
  rw [blockLines_struct]
  rw [List.foldl_cons]
  have e1 : countBlockStep (false, 0) (ind ++ (codeFence ++ "activities")) =
      (true, 0) := by
    simp [countBlockStep, isFenceOpen_ind hws]
  rw [e1, List.foldl_append]
  have e2 : ((yamlLines (toMarkdownYaml p)).map
      (fun l => ind ++ l)).foldl countBlockStep (true, 0) = (true, 0) := by
    apply countFold_no_fence
    intro l hl
    obtain ⟨y0, hy0, rfl⟩ := List.mem_map.mp hl
    exact safeLine_not_fence_ind hws
      (rendOk_safeLine ((yamlLines_ok _).1 y0 hy0))
  rw [e2, List.foldl_cons, List.foldl_nil]
  simp [countBlockStep, isFence_ind_close hws]

theorem blockLines_heading_free {ind : String} (p : Props)
    (hws : ind.data.all wsChar = true) :
    ∀ l ∈ createIndentedBlock ind p, headingTokens l = none := by
  rw [blockLines_struct]
  intro l hl
  rcases List.mem_cons.mp hl with rfl | hl2
  · exact heading_none_ws_notHash hws (by decide)
  · rcases List.mem_append.mp hl2 with hm | hm
    · obtain ⟨y0, hy0, rfl⟩ := List.mem_map.mp hm
      exact heading_none_ws_notHash hws
        (safeLine_notHash (rendOk_safeLine ((yamlLines_ok _).1 y0 hy0)))
    · rcases List.mem_singleton.mp hm with rfl
      exact heading_none_ws_notHash hws (by decide)

theorem findExistingBlock_some_inv {lines : List String} {sec : SectionT}
    {b : ExistingBlockT} (h : findExistingBlock lines sec = some b) :
    sec.startLine ≤ b.startLine ∧ b.startLine < sec.endLine ∧
    isFenceOpenLine (lines.getD b.startLine "") = true ∧
    (∀ j, sec.startLine ≤ j → j < b.startLine →
      isFenceOpenLine (lines.getD j "") = false) ∧
    b.startLine + 1 ≤ b.endLine ∧ b.endLine < sec.endLine ∧
    isFenceLine (lines.getD b.endLine "") = true ∧
    (∀ j, b.startLine + 1 ≤ j → j < b.endLine →
      isFenceLine (lines.getD j "") = false) ∧
    b.indentation =
      String.mk ((lines.getD b.startLine "").data.takeWhile wsChar) := by
  unfold findExistingBlock at h
  cases h1 : scanIdxP (fun j => isFenceOpenLine (lines.getD j ""))
      sec.startLine sec.endLine with
  | none => rw [h1] at h; cases h
  | some i =>
    rw [h1] at h
    have h2 : (match scanIdxP (fun j => isFenceLine (lines.getD j ""))
        (i + 1) sec.endLine with
      | none => (none : Option ExistingBlockT)
      | some c =>
        some ⟨i, c, String.mk ((lines.getD i "").data.takeWhile wsChar)⟩) =
        some b := h
    cases h2c : scanIdxP (fun j => isFenceLine (lines.getD j ""))
        (i + 1) sec.endLine with
    | none => rw [h2c] at h2; cases h2
    | some c =>
      rw [h2c] at h2
      have h3 : some (⟨i, c,
          String.mk ((lines.getD i "").data.takeWhile wsChar)⟩ :
          ExistingBlockT) = some b := h2
      cases h3
      obtain ⟨ha1, ha2, ha3, ha4⟩ := scanIdxP_some_inv h1
      obtain ⟨hb1, hb2, hb3, hb4⟩ := scanIdxP_some_inv h2c
      exact ⟨ha1, ha2, ha3, ha4, hb1, hb2, hb3, hb4, rfl⟩

theorem seg_mem_index {lines : List String} {lo hi : Nat} {l : String}
    (hl : l ∈ (lines.drop lo).take (hi - lo)) :
    ∃ j, lo ≤ j ∧ j < hi ∧ j < lines.length ∧ l = lines.getD j "" := by
  obtain ⟨k, hk, hkeq⟩ := List.mem_iff_getElem.mp hl
  have hk1 : k < hi - lo := by
    have := hk
    rw [List.length_take] at this
    omega
  have hk2 : lo + k < lines.length := by
    have := hk
    rw [List.length_take, List.length_drop] at this
    omega
  refine ⟨lo + k, by omega, by omega, hk2, ?_⟩
  have e1 : ((lines.drop lo).take (hi - lo)).getD k "" = l := by
    rw [List.getD_eq_getElem _ _ hk, hkeq]
  rw [← e1, getD_take_lt _ _ _ hk1, getD_drop_add]

theorem countBlocksSeg_zero_of_no_block {lines : List String}
    {sec : SectionT}
    (h : findExistingBlock lines sec = none)
    (hlen : sec.endLine ≤ lines.length) :
    countBlocksSeg ((lines.drop sec.startLine).take
      (sec.endLine - sec.startLine)) = 0 := by
  unfold findExistingBlock at h
  cases h1 : scanIdxP (fun j => isFenceOpenLine (lines.getD j ""))
      sec.startLine sec.endLine with
  | none =>
    have hall := scanIdxP_none_inv h1
    unfold countBlocksSeg
    rw [countFold_no_open]
    intro l hl
    obtain ⟨j, hj1, hj2, _, rfl⟩ := seg_mem_index hl
    exact hall j hj1 hj2
  | some i =>
    rw [h1] at h
    have h2 : (match scanIdxP (fun j => isFenceLine (lines.getD j ""))
        (i + 1) sec.endLine with
      | none => (none : Option ExistingBlockT)
      | some c =>
        some ⟨i, c, String.mk ((lines.getD i "").data.takeWhile wsChar)⟩) =
        none := h
    cases h2c : scanIdxP (fun j => isFenceLine (lines.getD j ""))
        (i + 1) sec.endLine with
    | some c => rw [h2c] at h2; cases h2
    | none =>
      obtain ⟨ha1, ha2, ha3, ha4⟩ := scanIdxP_some_inv h1
      have hnofence := scanIdxP_none_inv h2c
      -- section = [start, i) ++ [line i] ++ (i+1, end)
      have hsplit1 : (lines.drop sec.startLine).take
          (sec.endLine - sec.startLine) =
          (lines.drop sec.startLine).take (i - sec.startLine) ++
          (lines.drop i).take (sec.endLine - i) := by
        have he : sec.endLine - sec.startLine =
            (i - sec.startLine) + (sec.endLine - i) := by omega
        rw [he, List.take_add]
        congr 1
        rw [List.drop_drop,
          show sec.startLine + (i - sec.startLine) = i from by omega]
      have hsplit2 : (lines.drop i).take (sec.endLine - i) =
          [lines.getD i ""] ++ (lines.drop (i + 1)).take
            (sec.endLine - (i + 1)) := by
        have hi : i < lines.length := by omega
        rw [List.drop_eq_getElem_cons hi]
        rw [show sec.endLine - i = (sec.endLine - (i + 1)) + 1 by omega]
        rw [List.take_succ_cons]
        rw [List.getD_eq_getElem _ _ hi]
        rfl
      have hP : ∀ l ∈ (lines.drop sec.startLine).take (i - sec.startLine),
          isFenceOpenLine l = false := by
        intro l hl
        obtain ⟨j, hj1, hj2, _, rfl⟩ := seg_mem_index hl
        exact ha4 j hj1 hj2
      have hS : ∀ l ∈ (lines.drop (i + 1)).take (sec.endLine - (i + 1)),
          isFenceLine l = false := by
        intro l hl
        obtain ⟨j, hj1, hj2, _, rfl⟩ := seg_mem_index hl
        exact hnofence j hj1 hj2
      unfold countBlocksSeg
      rw [hsplit1, hsplit2, List.foldl_append, countFold_no_open _ hP]
      rw [List.singleton_append, List.foldl_cons]
      have ex : countBlockStep (false, 0) (lines.getD i "") = (true, 0) := by
        show (if isFenceOpenLine (lines.getD i "") = true
          then ((true, 0) : Bool × Nat) else (false, 0)) = (true, 0)
        rw [ha3, if_pos rfl]
      rw [ex, countFold_no_fence _ hS 0]

theorem splitLines_ne_nil (s : String) : splitLines s ≠ [] := by
  unfold splitLines
  intro h
  rw [List.map_eq_nil_iff] at h
  exact splitOnNl_ne_nil s.data h

theorem getD_append_shift (P R : List String) (m : Nat) :
    (P ++ R).getD (P.length + m) "" = R.getD m "" := by
  rw [getD_append_sides, if_neg (by omega)]
  congr 1
  omega

theorem take_append_exact (P R : List String) (k : Nat) :
    (P ++ R).take (P.length + k) = P ++ R.take k := by
  rw [List.take_add, List.take_left, List.drop_left]

theorem findIdx?_getD_inv {lines : List String} {p : String → Bool} {i : Nat}
    (h : lines.findIdx? p = some i) :
    i < lines.length ∧ p (lines.getD i "") = true ∧
      ∀ j, j < i → p (lines.getD j "") = false := by
  obtain ⟨hi, hpi, hprev⟩ := List.findIdx?_eq_some_iff_getElem.mp h
  refine ⟨hi, ?_, ?_⟩
  · rw [List.getD_eq_getElem lines "" hi]
    exact hpi
  · intro j hj
    rw [List.getD_eq_getElem lines "" (Nat.lt_trans hj hi)]
    have := hprev j hj
    simpa using this

theorem findIdx?_none_getD {lines : List String} {p : String → Bool}
    (h : lines.findIdx? p = none) :
    ∀ j, j < lines.length → p (lines.getD j "") = false := by
  intro j hj
  rw [List.getD_eq_getElem lines "" hj]
  exact List.findIdx?_eq_none_iff.mp h _ (List.getElem_mem hj)

theorem ensure_append (L : List String) (hne : L ≠ []) :
    ∃ E', ensureActivitiesHeading L = L ++ E' ∧
      (E' = ["", "# " ++ capFirst activitiesHeading, ""] ∨
       E' = ["# " ++ capFirst activitiesHeading, ""]) := by
  unfold ensureActivitiesHeading
  have h0 : (L.length == 0) = false := by
    cases L with
    | nil => exact absurd rfl hne
    | cons a l => rfl
  rw [h0, if_neg (by decide)]
  by_cases h1 : (trimS (L.getD (L.length - 1) "")).length > 0
  · rw [if_pos h1]
    exact ⟨["", "# " ++ capFirst activitiesHeading, ""], rfl, Or.inl rfl⟩
  · rw [if_neg h1]
    exact ⟨["# " ++ capFirst activitiesHeading, ""], rfl, Or.inr rfl⟩

theorem countBlocksSeg_blank_block (p : Props) :
    countBlocksSeg ("" :: createIndentedBlock "" p) = 1 := by
  unfold countBlocksSeg
  rw [List.foldl_cons]
  have e0 : countBlockStep (false, 0) "" = (false, 0) := by decide
  rw [e0, @blockLines_fold "" p rfl]

theorem c5_count_after_append (L pre0 : List String) (p : Props)
    (hfi : L.findIdx? isActivitiesHeadingLine = none)
    (hpre : ∀ l ∈ pre0, isActivitiesHeadingLine l = false ∧
      headingTokens l = none) :
    countBlocksSeg (sectionSeg
      (L ++ pre0 ++ ("# " ++ capFirst activitiesHeading) ::
        ("" :: createIndentedBlock "" p))
      (findActivitiesSection
        (L ++ pre0 ++ ("# " ++ capFirst activitiesHeading) ::
          ("" :: createIndentedBlock "" p)))) = 1 := by
  have hH1 : isActivitiesHeadingLine ("# " ++ capFirst activitiesHeading) =
      true := by decide
  have hH2 : headingTokens ("# " ++ capFirst activitiesHeading) =
      some 1 := by decide
  have hlenLp : (L ++ pre0).length = L.length + pre0.length :=
    List.length_append L pre0
  have hgetH : ((L ++ pre0) ++ ("# " ++ capFirst activitiesHeading) ::
      ("" :: createIndentedBlock "" p)).getD (L ++ pre0).length "" =
      "# " ++ capFirst activitiesHeading := by
    have := getD_append_shift (L ++ pre0)
      (("# " ++ capFirst activitiesHeading) ::
        ("" :: createIndentedBlock "" p)) 0
    simpa using this
  have hfiOut : ((L ++ pre0) ++ ("# " ++ capFirst activitiesHeading) ::
      ("" :: createIndentedBlock "" p)).findIdx? isActivitiesHeadingLine =
      some (L ++ pre0).length := by
    rw [findIdx?_as_scan]
    apply scanIdxP_some
    · rw [hgetH]
      exact hH1
    · exact Nat.zero_le _
    · simp only [List.length_append, List.length_cons]
      omega
    · intro j _ hj
      rw [getD_append_sides, if_pos hj]
      rw [getD_append_sides]
      by_cases hjL : j < L.length
      · rw [if_pos hjL]
        exact findIdx?_none_getD hfi j hjL
      · rw [if_neg hjL]
        have hjb : j - L.length < pre0.length := by
          rw [hlenLp] at hj
          omega
        exact (hpre _ (getD_mem_of_lt "" hjb)).1
  have hrest : ∀ m, 1 ≤ m →
      headingTokens ((("# " ++ capFirst activitiesHeading) ::
        ("" :: createIndentedBlock "" p)).getD m "") = none := by
    intro m hm
    cases m with
    | zero => omega
    | succ m0 =>
      rw [List.getD_cons_succ]
      cases m0 with
      | zero =>
        rw [List.getD_cons_zero]
        decide
      | succ m1 =>
        rw [List.getD_cons_succ]
        by_cases hb : m1 < (createIndentedBlock "" p).length
        · exact @blockLines_heading_free "" p rfl _ (getD_mem_of_lt "" hb)
        · have hd : (createIndentedBlock "" p).getD m1 "" = "" := by
            rw [List.getD_eq_getElem?_getD, List.getElem?_eq_none (by omega)]
            rfl
          rw [hd]
          decide
  have hscan2 : scanIdxP (fun j =>
      match headingTokens (((L ++ pre0) ++
        ("# " ++ capFirst activitiesHeading) ::
          ("" :: createIndentedBlock "" p)).getD j "") with
      | some k => decide (k ≤ 1)
      | none => false) ((L ++ pre0).length + 1)
      ((L ++ pre0) ++ ("# " ++ capFirst activitiesHeading) ::
        ("" :: createIndentedBlock "" p)).length = none := by
    apply scanIdxP_none
    intro j hj1 _
    have hjeq : j = (L ++ pre0).length + (j - (L ++ pre0).length) := by omega
    rw [hjeq, getD_append_shift]
    rw [hrest (j - (L ++ pre0).length) (by omega)]
  have hsec : findActivitiesSection ((L ++ pre0) ++
      ("# " ++ capFirst activitiesHeading) ::
        ("" :: createIndentedBlock "" p)) =
      ⟨(L ++ pre0).length + 1,
       ((L ++ pre0) ++ ("# " ++ capFirst activitiesHeading) ::
         ("" :: createIndentedBlock "" p)).length,
       some (L ++ pre0).length, some 1⟩ := by
    simp only [findActivitiesSection, hfiOut, hgetH, hH2, Option.getD_some]
    rw [hscan2]
    rfl
  rw [hsec]
  show countBlocksSeg ((((L ++ pre0) ++
      ("# " ++ capFirst activitiesHeading) ::
        ("" :: createIndentedBlock "" p)).drop ((L ++ pre0).length + 1)).take
      (((L ++ pre0) ++ ("# " ++ capFirst activitiesHeading) ::
        ("" :: createIndentedBlock "" p)).length -
        ((L ++ pre0).length + 1))) = 1
  have hsplit : (L ++ pre0) ++ ("# " ++ capFirst activitiesHeading) ::
      ("" :: createIndentedBlock "" p) =
      ((L ++ pre0) ++ ["# " ++ capFirst activitiesHeading]) ++
        ("" :: createIndentedBlock "" p) := by
    rw [List.append_cons]
  rw [hsplit]
  have hlen2 : ((L ++ pre0) ++
      ["# " ++ capFirst activitiesHeading]).length =
      (L ++ pre0).length + 1 := by
    simp
    omega
  rw [← hlen2, List.drop_left]
  have hlen3 : (((L ++ pre0) ++ ["# " ++ capFirst activitiesHeading]) ++
      ("" :: createIndentedBlock "" p)).length -
      ((L ++ pre0) ++ ["# " ++ capFirst activitiesHeading]).length =
      ("" :: createIndentedBlock "" p).length := by
    rw [List.length_append]
    omega
  rw [hlen3, List.take_length]
  exact countBlocksSeg_blank_block p

theorem seg_split (lines : List String) (lo mid hi : Nat) (h1 : lo ≤ mid) :
    (lines.drop lo).take (hi - lo) =
      (lines.drop lo).take (mid - lo) ++ (lines.drop mid).take (hi - mid) ∨
    hi ≤ mid := by
  by_cases h2 : hi ≤ mid
  · exact Or.inr h2
  · left
    have he : hi - lo = (mid - lo) + (hi - mid) := by omega
    rw [he, List.take_add]
    congr 1
    rw [List.drop_drop,
      show lo + (mid - lo) = mid from by omega]

theorem seg_split_le (lines : List String) (lo mid hi : Nat) (h1 : lo ≤ mid)
    (h2 : mid ≤ hi) :
    (lines.drop lo).take (hi - lo) =
      (lines.drop lo).take (mid - lo) ++ (lines.drop mid).take (hi - mid) := by
  by_cases h3 : mid = hi
  · subst h3
    rw [Nat.sub_self]
    simp
  · rcases seg_split lines lo mid hi h1 with h | h
    · exact h
    · omega

theorem seg_cons (lines : List String) (lo hi : Nat) (h1 : lo < hi)
    (hlen : lo < lines.length) :
    (lines.drop lo).take (hi - lo) =
      lines.getD lo "" :: (lines.drop (lo + 1)).take (hi - (lo + 1)) := by
  rw [List.drop_eq_getElem_cons hlen,
    show hi - lo = (hi - (lo + 1)) + 1 from by omega, List.take_succ_cons,
    List.getD_eq_getElem _ _ hlen]

theorem blank_block_fold (p : Props) :
    ("" :: createIndentedBlock "" p).foldl countBlockStep (false, 0) =
      (false, 1) := by
  rw [List.foldl_cons]
  have e0 : countBlockStep (false, 0) "" = (false, 0) := by decide
  rw [e0, @blockLines_fold "" p rfl]

theorem blank_block_heading_getD (p : Props) :
    ∀ m, headingTokens (("" :: createIndentedBlock "" p).getD m "") =
      none := by
  intro m
  cases m with
  | zero => rw [List.getD_cons_zero]; decide
  | succ m1 =>
    rw [List.getD_cons_succ]
    by_cases hb : m1 < (createIndentedBlock "" p).length
    · exact @blockLines_heading_free "" p rfl _ (getD_mem_of_lt "" hb)
    · have hd : (createIndentedBlock "" p).getD m1 "" = "" := by
        rw [List.getD_eq_getElem?_getD, List.getElem?_eq_none (by omega)]
        rfl
      rw [hd]
      decide

theorem blockLines_heading_getD {ind : String} (p : Props)
    (hws : ind.data.all wsChar = true) :
    ∀ m, headingTokens ((createIndentedBlock ind p).getD m "") = none := by
  intro m
  by_cases hb : m < (createIndentedBlock ind p).length
  · exact blockLines_heading_free p hws _ (getD_mem_of_lt "" hb)
  · have hd : (createIndentedBlock ind p).getD m "" = "" := by
      rw [List.getD_eq_getElem?_getD, List.getElem?_eq_none (by omega)]
      rfl
    rw [hd]
    decide

theorem findActivitiesSection_of_some {L : List String} {hIdx : Nat}
    (hfi : L.findIdx? isActivitiesHeadingLine = some hIdx) :
    findActivitiesSection L =
      ⟨hIdx + 1,
       (scanIdxP (fun j =>
         match headingTokens (L.getD j "") with
         | some k => decide (k ≤ (headingTokens (L.getD hIdx "")).getD 1)
         | none => false) (hIdx + 1) L.length).getD L.length,
       some hIdx, some ((headingTokens (L.getD hIdx "")).getD 1)⟩ := by
  simp only [findActivitiesSection, hfi]

theorem c5_insert_core (L : List String) (p : Props) (hIdx : Nat)
    (hfi : L.findIdx? isActivitiesHeadingLine = some hIdx)
    (hfe : findExistingBlock L (findActivitiesSection L) = none) :
    countBlocksSeg (sectionSeg
      (L.take (hIdx + 1) ++ ("" :: createIndentedBlock "" p) ++
        L.drop (hIdx + 1))
      (findActivitiesSection
        (L.take (hIdx + 1) ++ ("" :: createIndentedBlock "" p) ++
          L.drop (hIdx + 1)))) = 1 := by
  obtain ⟨hIdxLt, hHead, hPrev⟩ := findIdx?_getD_inv hfi
  have ha : hIdx + 1 ≤ L.length := hIdxLt
  have hOL : (L.take (hIdx + 1) ++ ("" :: createIndentedBlock "" p) ++
      L.drop (hIdx + 1)).length =
      (hIdx + 1) + ("" :: createIndentedBlock "" p).length +
        (L.length - (hIdx + 1)) := regionN_length ha
  have hfiOUT : (L.take (hIdx + 1) ++ ("" :: createIndentedBlock "" p) ++
      L.drop (hIdx + 1)).findIdx? isActivitiesHeadingLine = some hIdx := by
    rw [findIdx?_as_scan]
    apply scanIdxP_some
    · rw [regionN_getD_lt ha (by omega)]
      exact hHead
    · exact Nat.zero_le _
    · rw [hOL]
      omega
    · intro j _ hj
      rw [regionN_getD_lt ha (by omega)]
      exact hPrev j hj
  have hsecOUT0 := findActivitiesSection_of_some hfiOUT
  have hgHidx : (L.take (hIdx + 1) ++ ("" :: createIndentedBlock "" p) ++
      L.drop (hIdx + 1)).getD hIdx "" = L.getD hIdx "" :=
    regionN_getD_lt ha (by omega)
  simp only [hgHidx] at hsecOUT0
  rw [findActivitiesSection_of_some hfi] at hfe
  have hXlen : (L.take (hIdx + 1)).length = hIdx + 1 := by
    rw [List.length_take]
    omega
  have hdrop : (L.take (hIdx + 1) ++ (("" :: createIndentedBlock "" p) ++
      L.drop (hIdx + 1))).drop (hIdx + 1) =
      ("" :: createIndentedBlock "" p) ++ L.drop (hIdx + 1) := by
    rw [List.drop_append_of_le_length (by rw [hXlen])]
    rw [List.drop_take, Nat.sub_self, List.take_zero, List.nil_append]
  cases hscanL : scanIdxP (fun j =>
      match headingTokens (L.getD j "") with
      | some k => decide (k ≤ (headingTokens (L.getD hIdx "")).getD 1)
      | none => false) (hIdx + 1) L.length with
  | some endL =>
    rw [hscanL] at hfe
    obtain ⟨hs1, hs2, hs3, hs4⟩ := scanIdxP_some_inv hscanL
    have hfe' : findExistingBlock L ⟨hIdx + 1, endL, some hIdx,
        some ((headingTokens (L.getD hIdx "")).getD 1)⟩ = none := hfe
    have hzero : countBlocksSeg ((L.drop (hIdx + 1)).take
        (endL - (hIdx + 1))) = 0 :=
      countBlocksSeg_zero_of_no_block hfe' (Nat.le_of_lt hs2)
    have hscanOUT : scanIdxP (fun j =>
        match headingTokens ((L.take (hIdx + 1) ++
          ("" :: createIndentedBlock "" p) ++
            L.drop (hIdx + 1)).getD j "") with
        | some k => decide (k ≤ (headingTokens (L.getD hIdx "")).getD 1)
        | none => false) (hIdx + 1)
        (L.take (hIdx + 1) ++ ("" :: createIndentedBlock "" p) ++
          L.drop (hIdx + 1)).length =
        some (endL + ("" :: createIndentedBlock "" p).length) := by
      apply scanIdxP_some
      · rw [regionN_getD_right ha (by omega)]
        rw [show endL + ("" :: createIndentedBlock "" p).length -
          (hIdx + 1) - ("" :: createIndentedBlock "" p).length +
            (hIdx + 1) = endL from by omega]
        exact hs3
      · omega
      · rw [hOL]
        omega
      · intro j hj1 hj2
        by_cases hjA : j < hIdx + 1 + ("" :: createIndentedBlock "" p).length
        · rw [regionN_getD_mid ha hj1 hjA, blank_block_heading_getD]
        · rw [regionN_getD_right ha (by omega)]
          exact hs4 _ (by omega) (by omega)
    rw [hscanOUT] at hsecOUT0
    have hsecOUT : findActivitiesSection (L.take (hIdx + 1) ++
        ("" :: createIndentedBlock "" p) ++ L.drop (hIdx + 1)) =
        ⟨hIdx + 1, endL + ("" :: createIndentedBlock "" p).length,
          some hIdx, some ((headingTokens (L.getD hIdx "")).getD 1)⟩ :=
      hsecOUT0
    rw [hsecOUT]
    show countBlocksSeg (((L.take (hIdx + 1) ++
        ("" :: createIndentedBlock "" p) ++ L.drop (hIdx + 1)).drop
        (hIdx + 1)).take ((endL + ("" :: createIndentedBlock "" p).length) -
        (hIdx + 1))) = 1
    rw [List.append_assoc, hdrop]
    rw [show endL + ("" :: createIndentedBlock "" p).length - (hIdx + 1) =
      ("" :: createIndentedBlock "" p).length + (endL - (hIdx + 1))
      from by omega]
    rw [take_append_exact]
    rw [countBlocksSeg_append _ _ (by rw [blank_block_fold])]
    rw [countBlocksSeg_blank_block, hzero]
  | none =>
    rw [hscanL] at hfe
    have hall := scanIdxP_none_inv hscanL
    have hfe' : findExistingBlock L ⟨hIdx + 1, L.length, some hIdx,
        some ((headingTokens (L.getD hIdx "")).getD 1)⟩ = none := hfe
    have hzero : countBlocksSeg ((L.drop (hIdx + 1)).take
        (L.length - (hIdx + 1))) = 0 :=
      countBlocksSeg_zero_of_no_block hfe' (Nat.le_refl _)
    have hscanOUT : scanIdxP (fun j =>
        match headingTokens ((L.take (hIdx + 1) ++
          ("" :: createIndentedBlock "" p) ++
            L.drop (hIdx + 1)).getD j "") with
        | some k => decide (k ≤ (headingTokens (L.getD hIdx "")).getD 1)
        | none => false) (hIdx + 1)
        (L.take (hIdx + 1) ++ ("" :: createIndentedBlock "" p) ++
          L.drop (hIdx + 1)).length = none := by
      apply scanIdxP_none
      intro j hj1 hj2
      rw [hOL] at hj2
      by_cases hjA : j < hIdx + 1 + ("" :: createIndentedBlock "" p).length
      · rw [regionN_getD_mid ha hj1 hjA, blank_block_heading_getD]
      · rw [regionN_getD_right ha (by omega)]
        exact hall _ (by omega) (by omega)
    rw [hscanOUT] at hsecOUT0
    have hsecOUT : findActivitiesSection (L.take (hIdx + 1) ++
        ("" :: createIndentedBlock "" p) ++ L.drop (hIdx + 1)) =
        ⟨hIdx + 1,
          (L.take (hIdx + 1) ++ ("" :: createIndentedBlock "" p) ++
            L.drop (hIdx + 1)).length,
          some hIdx, some ((headingTokens (L.getD hIdx "")).getD 1)⟩ :=
      hsecOUT0
    rw [hsecOUT]
    show countBlocksSeg (((L.take (hIdx + 1) ++
        ("" :: createIndentedBlock "" p) ++ L.drop (hIdx + 1)).drop
        (hIdx + 1)).take
        ((L.take (hIdx + 1) ++ ("" :: createIndentedBlock "" p) ++
          L.drop (hIdx + 1)).length - (hIdx + 1))) = 1
    rw [hOL, List.append_assoc, hdrop]
    rw [show (hIdx + 1) + ("" :: createIndentedBlock "" p).length +
      (L.length - (hIdx + 1)) - (hIdx + 1) =
      ("" :: createIndentedBlock "" p).length + (L.length - (hIdx + 1))
      from by omega]
    rw [take_append_exact]
    rw [countBlocksSeg_append _ _ (by rw [blank_block_fold])]
    rw [countBlocksSeg_blank_block, hzero]

theorem count_tail_zero (L : List String) (a' i c endV : Nat)
    (h1 : a' ≤ i) (h2 : i + 1 ≤ c) (h3 : c < endV) (h4 : endV ≤ L.length)
    (hb3 : isFenceOpenLine (L.getD i "") = true)
    (hb4 : ∀ j, a' ≤ j → j < i → isFenceOpenLine (L.getD j "") = false)
    (hb7 : isFenceLine (L.getD c "") = true)
    (hb8 : ∀ j, i + 1 ≤ j → j < c → isFenceLine (L.getD j "") = false)
    (hcount : countBlocksSeg ((L.drop a').take (endV - a')) ≤ 1) :
    countBlocksSeg ((L.drop (c + 1)).take (endV - (c + 1))) = 0 := by
  have hiL : i < L.length := by omega
  have hcL : c < L.length := by omega
  have hd1 : (L.drop a').take (endV - a') =
      (L.drop a').take (i - a') ++ (L.drop i).take (endV - i) :=
    seg_split_le L a' i endV h1 (by omega)
  have hd2 : (L.drop i).take (endV - i) =
      L.getD i "" :: (L.drop (i + 1)).take (endV - (i + 1)) :=
    seg_cons L i endV (by omega) hiL
  have hd3 : (L.drop (i + 1)).take (endV - (i + 1)) =
      (L.drop (i + 1)).take (c - (i + 1)) ++ (L.drop c).take (endV - c) :=
    seg_split_le L (i + 1) c endV h2 (by omega)
  have hd4 : (L.drop c).take (endV - c) =
      L.getD c "" :: (L.drop (c + 1)).take (endV - (c + 1)) :=
    seg_cons L c endV h3 hcL
  have hP : ∀ l ∈ (L.drop a').take (i - a'), isFenceOpenLine l = false := by
    intro l hl
    obtain ⟨j, hj1, hj2, _, rfl⟩ := seg_mem_index hl
    exact hb4 j hj1 hj2
  have hM : ∀ l ∈ (L.drop (i + 1)).take (c - (i + 1)),
      isFenceLine l = false := by
    intro l hl
    obtain ⟨j, hj1, hj2, _, rfl⟩ := seg_mem_index hl
    exact hb8 j hj1 hj2
  have eOpen : countBlockStep (false, 0) (L.getD i "") = (true, 0) := by
    show (if isFenceOpenLine (L.getD i "") = true
      then ((true, 0) : Bool × Nat) else (false, 0)) = (true, 0)
    rw [hb3, if_pos rfl]
  have eClose : countBlockStep (true, 0) (L.getD c "") = (false, 1) := by
    show (if isFenceLine (L.getD c "") = true
      then ((false, 1) : Bool × Nat) else (true, 0)) = (false, 1)
    rw [hb7, if_pos rfl]
  have htotal : countBlocksSeg ((L.drop a').take (endV - a')) =
      1 + countBlocksSeg ((L.drop (c + 1)).take (endV - (c + 1))) := by
    unfold countBlocksSeg
    rw [hd1, hd2, hd3, hd4]
    rw [List.foldl_append, countFold_no_open _ hP, List.foldl_cons, eOpen]
    rw [List.foldl_append, countFold_no_fence _ hM, List.foldl_cons, eClose]
    rw [countFold_shift]
  omega

theorem ws_of_takeWhile (X : List Char) :
    (String.mk (X.takeWhile wsChar)).data.all wsChar = true := by
  rw [List.all_eq_true]
  intro c hc
  exact List.mem_takeWhile_imp hc

theorem c5_replace_core (L : List String) (p : Props) (ind : String)
    (hIdx i c : Nat)
    (hfi : L.findIdx? isActivitiesHeadingLine = some hIdx)
    (hfe : findExistingBlock L (findActivitiesSection L) = some ⟨i, c, ind⟩)
    (hcount : countBlocksSeg (sectionSeg L (findActivitiesSection L)) ≤ 1) :
    countBlocksSeg (sectionSeg
      (L.take i ++ createIndentedBlock ind p ++ L.drop (c + 1))
      (findActivitiesSection
        (L.take i ++ createIndentedBlock ind p ++ L.drop (c + 1)))) = 1 := by
  obtain ⟨hIdxLt, hHead, hPrev⟩ := findIdx?_getD_inv hfi
  obtain ⟨hb1, hb2, hb3, hb4, hb5, hb6, hb7, hb8, hb9⟩ :=
    findExistingBlock_some_inv hfe
  have hb3' : isFenceOpenLine (L.getD i "") = true := hb3
  have hb5' : i + 1 ≤ c := hb5
  have hb7' : isFenceLine (L.getD c "") = true := hb7
  have hb8' : ∀ j, i + 1 ≤ j → j < c → isFenceLine (L.getD j "") = false :=
    hb8
  rw [findActivitiesSection_of_some hfi] at hfe hcount hb1 hb2 hb4 hb6
  have hws : ind.data.all wsChar = true := by
    have h9 : (⟨i, c, ind⟩ : ExistingBlockT).indentation =
        String.mk ((L.getD (⟨i, c, ind⟩ : ExistingBlockT).startLine
          "").data.takeWhile wsChar) := hb9
    rw [show (⟨i, c, ind⟩ : ExistingBlockT).indentation = ind from rfl] at h9
    rw [h9]
    exact ws_of_takeWhile _
  cases hscanL : scanIdxP (fun j =>
      match headingTokens (L.getD j "") with
      | some k => decide (k ≤ (headingTokens (L.getD hIdx "")).getD 1)
      | none => false) (hIdx + 1) L.length with
  | some endL =>
    rw [hscanL] at hfe hcount hb2 hb4 hb6
    obtain ⟨hs1, hs2, hs3, hs4⟩ := scanIdxP_some_inv hscanL
    have hb1' : hIdx + 1 ≤ i := hb1
    have hb2' : i < endL := hb2
    have hb4' : ∀ j, hIdx + 1 ≤ j → j < i →
        isFenceOpenLine (L.getD j "") = false := hb4
    have hb6' : c < endL := hb6
    have hcount' : countBlocksSeg ((L.drop (hIdx + 1)).take
        (endL - (hIdx + 1))) ≤ 1 := hcount
    have ha : i ≤ L.length := by omega
    have hbb : c + 1 ≤ L.length := by omega
    have hOL : (L.take i ++ createIndentedBlock ind p ++
        L.drop (c + 1)).length =
        i + (createIndentedBlock ind p).length + (L.length - (c + 1)) :=
      regionN_length ha
    have hzero : countBlocksSeg ((L.drop (c + 1)).take
        (endL - (c + 1))) = 0 :=
      count_tail_zero L (hIdx + 1) i c endL hb1' hb5' hb6' (by omega)
        hb3' hb4' hb7' hb8' hcount'
    have hfiOUT : (L.take i ++ createIndentedBlock ind p ++
        L.drop (c + 1)).findIdx? isActivitiesHeadingLine = some hIdx := by
      rw [findIdx?_as_scan]
      apply scanIdxP_some
      · rw [regionN_getD_lt ha (by omega)]
        exact hHead
      · exact Nat.zero_le _
      · rw [hOL]
        omega
      · intro j _ hj
        rw [regionN_getD_lt ha (by omega)]
        exact hPrev j hj
    have hsecOUT0 := findActivitiesSection_of_some hfiOUT
    have hgHidx : (L.take i ++ createIndentedBlock ind p ++
        L.drop (c + 1)).getD hIdx "" = L.getD hIdx "" :=
      regionN_getD_lt ha (by omega)
    simp only [hgHidx] at hsecOUT0
    have hscanOUT : scanIdxP (fun j =>
        match headingTokens ((L.take i ++ createIndentedBlock ind p ++
          L.drop (c + 1)).getD j "") with
        | some k => decide (k ≤ (headingTokens (L.getD hIdx "")).getD 1)
        | none => false) (hIdx + 1)
        (L.take i ++ createIndentedBlock ind p ++ L.drop (c + 1)).length =
        some (i + (createIndentedBlock ind p).length +
          (endL - (c + 1))) := by
      apply scanIdxP_some
      · rw [regionN_getD_right ha (by omega)]
        rw [show i + (createIndentedBlock ind p).length + (endL - (c + 1)) -
          i - (createIndentedBlock ind p).length + (c + 1) = endL
          from by omega]
        exact hs3
      · omega
      · rw [hOL]
        omega
      · intro j hj1 hj2
        by_cases hjI : j < i
        · rw [regionN_getD_lt ha hjI]
          exact hs4 _ hj1 (by omega)
        · by_cases hjM : j < i + (createIndentedBlock ind p).length
          · rw [regionN_getD_mid ha (by omega) hjM]
            rw [blockLines_heading_getD p hws]
          · rw [regionN_getD_right ha (by omega)]
            exact hs4 _ (by omega) (by omega)
    rw [hscanOUT] at hsecOUT0
    have hsecOUT : findActivitiesSection (L.take i ++
        createIndentedBlock ind p ++ L.drop (c + 1)) =
        ⟨hIdx + 1,
          i + (createIndentedBlock ind p).length + (endL - (c + 1)),
          some hIdx, some ((headingTokens (L.getD hIdx "")).getD 1)⟩ :=
      hsecOUT0
    rw [hsecOUT]
    show countBlocksSeg (((L.take i ++ createIndentedBlock ind p ++
        L.drop (c + 1)).drop (hIdx + 1)).take
        ((i + (createIndentedBlock ind p).length + (endL - (c + 1))) -
          (hIdx + 1))) = 1
    have hXlen : (L.take i).length = i := by
      rw [List.length_take]
      omega
    have hdrop : (L.take i ++ (createIndentedBlock ind p ++
        L.drop (c + 1))).drop (hIdx + 1) =
        (L.drop (hIdx + 1)).take (i - (hIdx + 1)) ++
          (createIndentedBlock ind p ++ L.drop (c + 1)) := by
      rw [List.drop_append_of_le_length (by rw [hXlen]; omega)]
      rw [List.drop_take]
    have hPlen : ((L.drop (hIdx + 1)).take (i - (hIdx + 1))).length =
        i - (hIdx + 1) := by
      rw [List.length_take, List.length_drop]
      omega
    rw [List.append_assoc, hdrop]
    rw [show i + (createIndentedBlock ind p).length + (endL - (c + 1)) -
      (hIdx + 1) = ((L.drop (hIdx + 1)).take (i - (hIdx + 1))).length +
        ((createIndentedBlock ind p).length + (endL - (c + 1)))
      from by rw [hPlen]; omega]
    rw [take_append_exact, take_append_exact]
    have hPno : ∀ l ∈ (L.drop (hIdx + 1)).take (i - (hIdx + 1)),
        isFenceOpenLine l = false := by
      intro l hl
      obtain ⟨j, hj1, hj2, _, rfl⟩ := seg_mem_index hl
      exact hb4' j hj1 hj2
    rw [countBlocksSeg_append _ _ (by rw [countFold_no_open _ hPno])]
    rw [countBlocksSeg_append _ _ (by rw [blockLines_fold p hws])]
    have hPzero : countBlocksSeg ((L.drop (hIdx + 1)).take
        (i - (hIdx + 1))) = 0 := by
      unfold countBlocksSeg
      rw [countFold_no_open _ hPno]
    have hBL1 : countBlocksSeg (createIndentedBlock ind p) = 1 := by
      unfold countBlocksSeg
      rw [blockLines_fold p hws]
    rw [hPzero, hBL1, hzero]
  | none =>
    rw [hscanL] at hfe hcount hb2 hb4 hb6
    have hall := scanIdxP_none_inv hscanL
    have hb1' : hIdx + 1 ≤ i := hb1
    have hb2' : i < L.length := hb2
    have hb4' : ∀ j, hIdx + 1 ≤ j → j < i →
        isFenceOpenLine (L.getD j "") = false := hb4
    have hb6' : c < L.length := hb6
    have hcount' : countBlocksSeg ((L.drop (hIdx + 1)).take
        (L.length - (hIdx + 1))) ≤ 1 := hcount
    have ha : i ≤ L.length := by omega
    have hbb : c + 1 ≤ L.length := by omega
    have hOL : (L.take i ++ createIndentedBlock ind p ++
        L.drop (c + 1)).length =
        i + (createIndentedBlock ind p).length + (L.length - (c + 1)) :=
      regionN_length ha
    have hzero : countBlocksSeg ((L.drop (c + 1)).take
        (L.length - (c + 1))) = 0 :=
      count_tail_zero L (hIdx + 1) i c L.length hb1' hb5' hb6'
        (Nat.le_refl _) hb3' hb4' hb7' hb8' hcount'
    have hfiOUT : (L.take i ++ createIndentedBlock ind p ++
        L.drop (c + 1)).findIdx? isActivitiesHeadingLine = some hIdx := by
      rw [findIdx?_as_scan]
      apply scanIdxP_some
      · rw [regionN_getD_lt ha (by omega)]
        exact hHead
      · exact Nat.zero_le _
      · rw [hOL]
        omega
      · intro j _ hj
        rw [regionN_getD_lt ha (by omega)]
        exact hPrev j hj
    have hsecOUT0 := findActivitiesSection_of_some hfiOUT
    have hgHidx : (L.take i ++ createIndentedBlock ind p ++
        L.drop (c + 1)).getD hIdx "" = L.getD hIdx "" :=
      regionN_getD_lt ha (by omega)
    simp only [hgHidx] at hsecOUT0
    have hscanOUT : scanIdxP (fun j =>
        match headingTokens ((L.take i ++ createIndentedBlock ind p ++
          L.drop (c + 1)).getD j "") with
        | some k => decide (k ≤ (headingTokens (L.getD hIdx "")).getD 1)
        | none => false) (hIdx + 1)
        (L.take i ++ createIndentedBlock ind p ++ L.drop (c + 1)).length =
        none := by
      apply scanIdxP_none
      intro j hj1 hj2
      rw [hOL] at hj2
      by_cases hjI : j < i
      · rw [regionN_getD_lt ha hjI]
        exact hall _ hj1 (by omega)
      · by_cases hjM : j < i + (createIndentedBlock ind p).length
        · rw [regionN_getD_mid ha (by omega) hjM]
          rw [blockLines_heading_getD p hws]
        · rw [regionN_getD_right ha (by omega)]
          exact hall _ (by omega) (by omega)
    rw [hscanOUT] at hsecOUT0
    have hsecOUT : findActivitiesSection (L.take i ++
        createIndentedBlock ind p ++ L.drop (c + 1)) =
        ⟨hIdx + 1,
          (L.take i ++ createIndentedBlock ind p ++ L.drop (c + 1)).length,
          some hIdx, some ((headingTokens (L.getD hIdx "")).getD 1)⟩ :=
      hsecOUT0
    rw [hsecOUT]
    show countBlocksSeg (((L.take i ++ createIndentedBlock ind p ++
        L.drop (c + 1)).drop (hIdx + 1)).take
        ((L.take i ++ createIndentedBlock ind p ++
          L.drop (c + 1)).length - (hIdx + 1))) = 1
    have hXlen : (L.take i).length = i := by
      rw [List.length_take]
      omega
    have hdrop : (L.take i ++ (createIndentedBlock ind p ++
        L.drop (c + 1))).drop (hIdx + 1) =
        (L.drop (hIdx + 1)).take (i - (hIdx + 1)) ++
          (createIndentedBlock ind p ++ L.drop (c + 1)) := by
      rw [List.drop_append_of_le_length (by rw [hXlen]; omega)]
      rw [List.drop_take]
    have hPlen : ((L.drop (hIdx + 1)).take (i - (hIdx + 1))).length =
        i - (hIdx + 1) := by
      rw [List.length_take, List.length_drop]
      omega
    rw [hOL, List.append_assoc, hdrop]
    rw [show i + (createIndentedBlock ind p).length + (L.length - (c + 1)) -
      (hIdx + 1) = ((L.drop (hIdx + 1)).take (i - (hIdx + 1))).length +
        ((createIndentedBlock ind p).length + (L.length - (c + 1)))
      from by rw [hPlen]; omega]
    rw [take_append_exact, take_append_exact]
    have hPno : ∀ l ∈ (L.drop (hIdx + 1)).take (i - (hIdx + 1)),
        isFenceOpenLine l = false := by
      intro l hl
      obtain ⟨j, hj1, hj2, _, rfl⟩ := seg_mem_index hl
      exact hb4' j hj1 hj2
    rw [countBlocksSeg_append _ _ (by rw [countFold_no_open _ hPno])]
    rw [countBlocksSeg_append _ _ (by rw [blockLines_fold p hws])]
    have hPzero : countBlocksSeg ((L.drop (hIdx + 1)).take
        (i - (hIdx + 1))) = 0 := by
      unfold countBlocksSeg
      rw [countFold_no_open _ hPno]
    have hBL1 : countBlocksSeg (createIndentedBlock ind p) = 1 := by
      unfold countBlocksSeg
      rw [blockLines_fold p hws]
    rw [hPzero, hBL1, hzero]

theorem heading_line_tokens {l : String}
    (h : isActivitiesHeadingLine l = true) :
    ∃ n, headingTokens l = some n := by
  unfold isActivitiesHeadingLine at h
  cases ht : headingTokens l with
  | none =>
    rw [ht] at h
    exact Bool.noConfusion (h : false = true)
  | some n => exact ⟨n, rfl⟩

theorem heading_line_trim_pos {l : String} {n : Nat}
    (h : headingTokens l = some n) : 0 < (trimS l).length := by
  have hhash : ∃ rest, l.data = '#' :: rest := by
    unfold headingTokens at h
    cases hl : l.data with
    | nil =>
      rw [hl] at h
      exact Option.noConfusion (h : (none : Option Nat) = some n)
    | cons c0 rest =>
      rw [hl] at h
      by_cases hc : (c0 == '#') = true
      · exact ⟨rest, by rw [eq_of_beq hc]⟩
      · rw [List.takeWhile_cons, bool_not_true hc] at h
        exact Option.noConfusion (h : (none : Option Nat) = some n)
  obtain ⟨rest, hl⟩ := hhash
  by_contra h0
  have h1 : (trimS l).length = 0 := by omega
  have h2 : (((l.data.dropWhile wsChar).reverse.dropWhile
      wsChar).reverse).length = 0 := h1
  have h3 : ((l.data.dropWhile wsChar).reverse.dropWhile wsChar).reverse =
      [] := List.length_eq_zero.mp h2
  rw [List.reverse_eq_nil_iff] at h3
  have h4 : '#' ∈ (l.data.dropWhile wsChar).reverse := by
    rw [hl]
    rw [List.dropWhile_cons, show wsChar '#' = false from rfl,
      if_neg (by decide)]
    rw [List.mem_reverse]
    exact List.mem_cons_self _ _
  have h5 := List.dropWhile_eq_nil_iff.mp h3 '#' h4
  exact absurd h5 (by decide)

theorem findActivitiesSection_endLine_le (L : List String) :
    (findActivitiesSection L).endLine ≤ L.length := by
  cases hfi : L.findIdx? isActivitiesHeadingLine with
  | none =>
    rw [show findActivitiesSection L =
      ⟨L.length, L.length, none, none⟩ from by
        simp only [findActivitiesSection, hfi]]
  | some hIdx =>
    rw [findActivitiesSection_of_some hfi]
    show (scanIdxP (fun j =>
      match headingTokens (L.getD j "") with
      | some k => decide (k ≤ (headingTokens (L.getD hIdx "")).getD 1)
      | none => false) (hIdx + 1) L.length).getD L.length ≤ L.length
    cases hs : scanIdxP (fun j =>
        match headingTokens (L.getD j "") with
        | some k => decide (k ≤ (headingTokens (L.getD hIdx "")).getD 1)
        | none => false) (hIdx + 1) L.length with
    | none => exact Nat.le_refl _
    | some e =>
      have := (scanIdxP_some_inv hs).2.1
      show e ≤ L.length
      omega

/-- Claim C5 (amended): the orchestrator output is the `"\n"`-join of the
original lines with one contiguous region `[a, b)` replaced by inserted
lines (the new block, plus any blank separator or synthesized heading) —
every line outside that region is unchanged — and, provided the
targeted section of the input held at most one complete fenced
activities block, the targeted section of the output holds exactly one.
A section that already holds two complete blocks keeps the second one,
so the exactly-one guarantee fails without the hypothesis (see the
counterexample). -/
theorem upsert_frame_and_single_block
    (parseYamlS : String → Except String Yaml) (fileText : String)
    (updateFn : Props → Props)
    (h : countBlocksSeg (sectionSeg (splitLines fileText)
      (findActivitiesSection (splitLines fileText))) ≤ 1) :
    ∃ a b ins, a ≤ b ∧ b ≤ (splitLines fileText).length ∧
      upsertActivitiesBlock parseYamlS fileText updateFn =
        joinLines ((splitLines fileText).take a ++ ins ++
          (splitLines fileText).drop b) ∧
      countBlocksSeg (sectionSeg
        ((splitLines fileText).take a ++ ins ++
          (splitLines fileText).drop b)
        (findActivitiesSection
          ((splitLines fileText).take a ++ ins ++
            (splitLines fileText).drop b))) = 1 := by
  cases hfe : findExistingBlock (splitLines fileText)
      (findActivitiesSection (splitLines fileText)) with
  | some blk =>
    obtain ⟨i, c, ind⟩ := blk
    cases hfi : (splitLines fileText).findIdx? isActivitiesHeadingLine with
    | none =>
      exfalso
      rw [show findActivitiesSection (splitLines fileText) =
        ⟨(splitLines fileText).length, (splitLines fileText).length,
          none, none⟩ from by simp only [findActivitiesSection, hfi]] at hfe
      have hnone : findExistingBlock (splitLines fileText)
          ⟨(splitLines fileText).length, (splitLines fileText).length,
            none, none⟩ = none := by
        simp only [findExistingBlock]
        rw [scanIdxP_empty]
      rw [hnone] at hfe
      exact Option.noConfusion hfe
    | some hIdx =>
      obtain ⟨hb1, hb2, hb3, hb4, hb5, hb6, hb7, hb8, hb9⟩ :=
        findExistingBlock_some_inv hfe
      have hb5' : i + 1 ≤ c := hb5
      have hb6' : c <
          (findActivitiesSection (splitLines fileText)).endLine := hb6
      have hend := findActivitiesSection_endLine_le (splitLines fileText)
      refine ⟨i, c + 1,
        createIndentedBlock ind (updateFn (parseExistingProps parseYamlS
          (splitLines fileText) (some ⟨i, c, ind⟩))), by omega, by omega,
        ?_, ?_⟩
      · simp only [upsertActivitiesBlock]
        rw [hfe]
        rfl
      · exact c5_replace_core (splitLines fileText) _ ind hIdx i c hfi hfe h
  | none =>
    cases hfi : (splitLines fileText).findIdx? isActivitiesHeadingLine with
    | some hIdx =>
      obtain ⟨hIdxLt, hHead, hPrev⟩ := findIdx?_getD_inv hfi
      obtain ⟨n, hn⟩ := heading_line_tokens hHead
      have htrim := heading_line_trim_pos hn
      have hXlen : ((splitLines fileText).take (hIdx + 1)).length =
          hIdx + 1 := by
        rw [List.length_take]
        omega
      have hgetlast : ((splitLines fileText).take (hIdx + 1)).getD
          (((splitLines fileText).take (hIdx + 1)).length - 1) "" =
          (splitLines fileText).getD hIdx "" := by
        rw [hXlen]
        exact getD_take_lt _ _ _ (by omega)
      refine ⟨hIdx + 1, hIdx + 1,
        "" :: createIndentedBlock "" (updateFn emptyProps), Nat.le_refl _,
        by omega, ?_, ?_⟩
      · simp only [upsertActivitiesBlock]
        rw [hfe, findActivitiesSection_of_some hfi]
        show joinLines (insertBlock (splitLines fileText)
          (createIndentedBlock "" (updateFn emptyProps)) (hIdx + 1)) = _
        simp only [insertBlock]
        have hneeds : (decide
            (((splitLines fileText).take (hIdx + 1)).length > 0) &&
          decide ((trimS (((splitLines fileText).take (hIdx + 1)).getD
            (((splitLines fileText).take (hIdx + 1)).length - 1)
            "")).length > 0)) = true := by
          rw [hgetlast, hXlen]
          have htrim' : (trimS ((splitLines fileText).getD hIdx
              "")).length > 0 := htrim
          rw [decide_eq_true (show hIdx + 1 > 0 by omega),
            decide_eq_true htrim']
          rfl
        rw [hneeds, if_pos rfl]
        rw [List.append_assoc ((splitLines fileText).take (hIdx + 1)) [""],
          List.singleton_append]
      · exact c5_insert_core (splitLines fileText) (updateFn emptyProps)
          hIdx hfi hfe
    | none =>
      have hne := splitLines_ne_nil fileText
      obtain ⟨E', hE, hEcase⟩ := ensure_append (splitLines fileText) hne
      refine ⟨(splitLines fileText).length, (splitLines fileText).length,
        E' ++ createIndentedBlock "" (updateFn emptyProps), Nat.le_refl _,
        Nat.le_refl _, ?_, ?_⟩
      · simp only [upsertActivitiesBlock]
        rw [hfe, show findActivitiesSection (splitLines fileText) =
          ⟨(splitLines fileText).length, (splitLines fileText).length,
            none, none⟩ from by simp only [findActivitiesSection, hfi]]
        show joinLines
          (insertBlock (ensureActivitiesHeading (splitLines fileText))
            (createIndentedBlock "" (updateFn emptyProps))
            (ensureActivitiesHeading (splitLines fileText)).length) = _
        rw [insertBlock_at_end _ _ (ensure_trailing_blank _), hE]
        rw [List.take_length, List.drop_length, List.append_nil,
          List.append_assoc]
      · have hB := createIndentedBlock "" (updateFn emptyProps)
        rcases hEcase with rfl | rfl
        · have hop : (splitLines fileText).take
              (splitLines fileText).length ++
              (["", "# " ++ capFirst activitiesHeading, ""] ++
                createIndentedBlock "" (updateFn emptyProps)) ++
              (splitLines fileText).drop (splitLines fileText).length =
              splitLines fileText ++ [""] ++
                ("# " ++ capFirst activitiesHeading) ::
                  ("" :: createIndentedBlock "" (updateFn emptyProps)) := by
            rw [List.take_length, List.drop_length, List.append_nil,
              List.append_assoc (splitLines fileText) [""],
              List.singleton_append]
            rfl
          rw [hop]
          exact c5_count_after_append (splitLines fileText) [""]
            (updateFn emptyProps) hfi
            (by
              intro l hl
              rcases List.mem_singleton.mp hl with rfl
              exact ⟨by decide, by decide⟩)
        · have hop : (splitLines fileText).take
              (splitLines fileText).length ++
              (["# " ++ capFirst activitiesHeading, ""] ++
                createIndentedBlock "" (updateFn emptyProps)) ++
              (splitLines fileText).drop (splitLines fileText).length =
              splitLines fileText ++ [] ++
                ("# " ++ capFirst activitiesHeading) ::
                  ("" :: createIndentedBlock "" (updateFn emptyProps)) := by
            rw [List.take_length, List.drop_length, List.append_nil,
              List.append_nil]
            rfl
          rw [hop]
          exact c5_count_after_append (splitLines fileText) []
            (updateFn emptyProps) hfi
            (fun l hl => absurd hl (List.not_mem_nil l))

/-- Counterexample to the unamended C5 claim: in a document whose
activities section already holds two complete fenced blocks, the section
violates the at-most-one-block hypothesis (it counts 2), and the
orchestrator rewrites only the first block, so the output section still
counts 2 blocks — not exactly one. -/
theorem two_blocks_section_keeps_two_counterexample :
    countBlocksSeg (sectionSeg (splitLines c5doc)
      (findActivitiesSection (splitLines c5doc))) = 2 ∧
    countBlocksSeg (sectionSeg
      (splitLines (upsertActivitiesBlock c4parse c5doc (fun p => p)))
      (findActivitiesSection
        (splitLines (upsertActivitiesBlock c4parse c5doc
          (fun p => p))))) = 2 := by
  constructor
  · decide
  · decide

theorem upsert_frame_and_single_block_witness :
    ∃ a b ins, a ≤ b ∧ b ≤ (splitLines "# Activities\nhello").length ∧
      upsertActivitiesBlock c4parse "# Activities\nhello" (fun p => p) =
        joinLines ((splitLines "# Activities\nhello").take a ++ ins ++
          (splitLines "# Activities\nhello").drop b) ∧
      countBlocksSeg (sectionSeg
        ((splitLines "# Activities\nhello").take a ++ ins ++
          (splitLines "# Activities\nhello").drop b)
        (findActivitiesSection
          ((splitLines "# Activities\nhello").take a ++ ins ++
            (splitLines "# Activities\nhello").drop b))) = 1 :=
  upsert_frame_and_single_block c4parse "# Activities\nhello"
    (fun p => p) (by decide)
